import Mathlib

/-! The .OBJ model loader of `cpp_glfw3_basecode` (`Model.h`, `Model.cpp`).

A shallow embedding of `Model::readModelFile`, `Model::setupData`, `Model::load`, the copy
constructor, `Model::scale` and the getters of `Model.cpp`.  The camera of the framework
(`Camera.cpp`) follows in the namespace `CameraModel`, with its own conventions.

Conventions of the embedding.

* A `std::string` is a `List Char`; a file is the list of the lines that successive
  `getline` calls yield.
* `GLuint` values are natural numbers below `2 ^ 32`; every `GLuint` operation reduces
  modulo `2 ^ 32`.  `int` values are integers; an `int` operation whose result does not fit
  has no defined behaviour.
* A run whose behaviour the C++ language leaves undefined (dereferencing `end()`, an
  iterator outside its vector, signed overflow, an out-of-range float to integer
  conversion) is the value `none`.
* `float` coordinates read by `atof` and the `glm` operations on them are kept abstract
  (`FloatLib`).  The `vec3`s of the `faces` and `normalIndices` vectors only ever hold
  integers converted to `float`; such a component is recorded by its exact integer value,
  and the conversion to `float` is the exact rounding `f32OfInt` (24 bit significand,
  round to nearest, ties to even).
-/

namespace ObjModel

/-! ## Vectors, buffers and the model record -/

/-- The type `glm::vec3` with components of type `α`. -/
structure Vec3 (α : Type) where
  x : α
  y : α
  z : α
deriving DecidableEq, Repr

/-- The enumeration `Model::DrawingMethod`. -/
inductive DrawingMethod where
  | DRAWING_AS_ARRAYS
  | DRAWING_AS_ELEMENTS
deriving DecidableEq, Repr

/-- The external operations on `float` that the loader uses: `(float) atof(s)` from the C
library, and `operator-`, `cross`, `normalize` on `vec3` and `operator*` from `glm`/C++. -/
structure FloatLib (F : Type) where
  atof : List Char → F
  vsub : Vec3 F → Vec3 F → Vec3 F
  cross : Vec3 F → Vec3 F → Vec3 F
  normalize : Vec3 F → Vec3 F
  mul : F → F → F

/-- A heap array made by `new T[cap]` and then written front to back: `cap` is the number of
cells allocated, `cells` the values written so far (cell `i` holds `cells[i]`; cells from
`cells.length` on are not initialised). -/
structure Buffer (α : Type) where
  cap : Nat
  cells : List α
deriving DecidableEq, Repr

/-- The data members of `class Model` (the unused `texCoords` members are left out). -/
structure Model (F : Type) where
  drawingMethod : DrawingMethod
  vertices : List (Vec3 F)
  normals : List (Vec3 F)
  normalIndices : List (Vec3 Int)
  faces : List (Vec3 Int)
  vertexData : Option (Buffer F)
  normalData : Option (Buffer F)
  faceData : Option (Buffer Nat)
  numVertices : Nat
  numNormals : Nat
  numNormalIndices : Nat
  numFaces : Nat
deriving DecidableEq

/-- How a call that may end the process finishes: it returns (`ok`), it calls `exit(code)`,
or its behaviour is undefined. -/
inductive Outcome (α : Type) where
  | ok (a : α)
  | exit (code : Int)
  | undefined
deriving DecidableEq

/-- The modulus of `GLuint` arithmetic. -/
def GLUINT_MOD : Nat := 2 ^ 32

/-- The largest value of `int`. -/
def INT_MAX : Int := 2 ^ 31 - 1

/-- The smallest value of `int`. -/
def INT_MIN : Int := -(2 ^ 31)

/-- Conversion of an `int` to `GLuint`: reduction modulo `2 ^ 32`. -/
def toGLuint (i : Int) : Nat := (i % (2 ^ 32 : Int)).toNat

/-! ## Integers held in a `float` -/

/-- The number of low bits a natural number loses when stored with a 24 bit significand
(`fuel` bounds the search; 64 covers every number below `2 ^ 88`). -/
def f32Shift : Nat → Nat → Nat
  | 0, _ => 0
  | fuel + 1, n => if n < 2 ^ 24 then 0 else 1 + f32Shift fuel (n / 2)

/-- The value of a natural number after conversion to `float` (round to nearest, ties to
even, 24 bit significand). -/
def f32OfNat (n : Nat) : Nat :=
  let e := f32Shift 64 n
  let q := n / 2 ^ e
  let r := n % 2 ^ e
  if 2 * r < 2 ^ e then q * 2 ^ e
  else if 2 ^ e < 2 * r then (q + 1) * 2 ^ e
  else if q % 2 = 0 then q * 2 ^ e else (q + 1) * 2 ^ e

/-- The value of an integer after conversion to `float`. -/
def f32OfInt (i : Int) : Int :=
  if i < 0 then -((f32OfNat i.natAbs : Nat) : Int) else ((f32OfNat i.toNat : Nat) : Int)

/-- The cast `(GLuint) x` of an integer-valued `float`: defined when the value fits. -/
def floatToGLuint (x : Int) : Option Nat :=
  if 0 ≤ x ∧ x < 2 ^ 32 then some x.toNat else none

/-! ## Strings: tokens, `find`, `substr`, `atoi` -/

/-- The C function `isspace` in the "C" locale. -/
def isspace (c : Char) : Bool :=
  c = ' ' || c = '\t' || c = '\n' || c = '\r' || c.toNat = 11 || c.toNat = 12

/-- The C function `isdigit`. -/
def isdigit (c : Char) : Bool := decide (48 ≤ c.toNat) && decide (c.toNat ≤ 57)

/-- Token extraction of `istream_iterator<string>`: `cur` is the token being read, in
reverse. -/
def tokensFrom (cur : List Char) : List Char → List (List Char)
  | [] => if cur = [] then [] else [cur.reverse]
  | c :: cs =>
    if isspace c then
      if cur = [] then tokensFrom [] cs else cur.reverse :: tokensFrom [] cs
    else tokensFrom (c :: cur) cs

/-- The whitespace separated tokens of a line (the `copy` into `tokens`). -/
def tokenize (line : List Char) : List (List Char) := tokensFrom [] line

/-- Position of the first `//` from offset `i` on; `none` stands for `string::npos`. -/
def findSlashesFrom (i : Nat) : List Char → Option Nat
  | [] => none
  | [_] => none
  | a :: b :: cs => if a = '/' ∧ b = '/' then some i else findSlashesFrom (i + 1) (b :: cs)

/-- The call `s.find("//")`: a position, or `none` for `string::npos`. -/
def findSlashes (s : List Char) : Option Nat := findSlashesFrom 0 s

/-- The call `s.substr(pos, n)`, where `n = none` stands for `string::npos` (to the end of
the string); the result is `none` when `pos > s.size()` (the call throws). -/
def substr (s : List Char) (pos : Nat) (n : Option Nat) : Option (List Char) :=
  if s.length < pos then none
  else
    match n with
    | none => some (s.drop pos)
    | some k => some ((s.drop pos).take k)

/-- The digits at the front of a string, read in base ten onto `acc`. -/
def readDigits (acc : Nat) : List Char → Nat
  | [] => acc
  | c :: cs => if isdigit c then readDigits (acc * 10 + (c.toNat - 48)) cs else acc

/-- The integer that `strtol` reads in base ten: leading whitespace, an optional sign, then
digits. -/
def decimalValue (s : List Char) : Int :=
  match s.dropWhile isspace with
  | '-' :: r => -((readDigits 0 r : Nat) : Int)
  | '+' :: r => ((readDigits 0 r : Nat) : Int)
  | r => ((readDigits 0 r : Nat) : Int)

/-- The C function `atoi`: `none` when the value is not representable as `int` (the
behaviour is then undefined). -/
def atoi (s : List Char) : Option Int :=
  let v := decimalValue s
  if INT_MIN ≤ v ∧ v ≤ INT_MAX then some v else none

/-! ## `Model::initModel` and the simple queries -/

/-- The method `Model::initModel`: every vector is emptied, every count is zero, every data
pointer is null; the drawing method is not touched. -/
def initModel {F : Type} (m : Model F) : Model F :=
  { drawingMethod := m.drawingMethod
    vertices := []
    normals := []
    normalIndices := []
    faces := []
    vertexData := none
    normalData := none
    faceData := none
    numVertices := 0
    numNormals := 0
    numNormalIndices := 0
    numFaces := 0 }

/-- The constructor `Model::Model(DrawingMethod)`. -/
def construct {F : Type} (theDrawingMethod : DrawingMethod) : Model F :=
  initModel
    { drawingMethod := theDrawingMethod
      vertices := []
      normals := []
      normalIndices := []
      faces := []
      vertexData := none
      normalData := none
      faceData := none
      numVertices := 0
      numNormals := 0
      numNormalIndices := 0
      numFaces := 0 }

/-- The method `Model::hasVertices`. -/
def hasVertices {F : Type} (m : Model F) : Bool := decide (0 < m.numVertices)

/-- The method `Model::hasFaces`. -/
def hasFaces {F : Type} (m : Model F) : Bool := decide (0 < m.numFaces)

/-- The method `Model::hasNormals`. -/
def hasNormals {F : Type} (m : Model F) : Bool := decide (0 < m.numNormals)

/-- The method `Model::hasNormalIndices`. -/
def hasNormalIndices {F : Type} (m : Model F) : Bool := decide (0 < m.numNormalIndices)

/-- The method `Model::getNumVertices`. -/
def getNumVertices {F : Type} (m : Model F) : Nat := m.numVertices

/-- The method `Model::getNumNormals`. -/
def getNumNormals {F : Type} (m : Model F) : Nat := m.numNormals

/-- The method `Model::getNumNormalIndices`. -/
def getNumNormalIndices {F : Type} (m : Model F) : Nat := m.numNormalIndices

/-- The method `Model::getNumFaces`. -/
def getNumFaces {F : Type} (m : Model F) : Nat := m.numFaces

/-- The method `Model::getVertexDataSizeBytes`: `numVertices * 3 * sizeof(GLfloat)` returned
as a `GLuint`. -/
def getVertexDataSizeBytes {F : Type} (m : Model F) : Nat :=
  (m.numVertices * 3 % GLUINT_MOD * 4) % GLUINT_MOD

/-- The method `Model::getNormalDataSizeBytes`. -/
def getNormalDataSizeBytes {F : Type} (m : Model F) : Nat :=
  (m.numNormals * 3 % GLUINT_MOD * 4) % GLUINT_MOD

/-! ## `Model::readModelFile` -/

/-- The local state of `readModelFile` between two lines of the file. -/
structure ReadState (F : Type) where
  model : Model F
  loadedCleanly : Bool
  lineCount : Int
deriving DecidableEq

/-- The statements `vertices->push_back(v); numVertices++;`. -/
def pushVertex {F : Type} (m : Model F) (v : Vec3 F) : Model F :=
  { m with vertices := m.vertices ++ [v], numVertices := (m.numVertices + 1) % GLUINT_MOD }

/-- The statements `normals->push_back(n); numNormals++;`. -/
def pushNormal {F : Type} (m : Model F) (n : Vec3 F) : Model F :=
  { m with normals := m.normals ++ [n], numNormals := (m.numNormals + 1) % GLUINT_MOD }

/-- The statements `faces->push_back(f); numFaces++;`. -/
def pushFace {F : Type} (m : Model F) (f : Vec3 Int) : Model F :=
  { m with faces := m.faces ++ [f], numFaces := (m.numFaces + 1) % GLUINT_MOD }

/-- The statements `normalIndices->push_back(n); numNormalIndices++;`. -/
def pushNormalIndex {F : Type} (m : Model F) (n : Vec3 Int) : Model F :=
  { m with
    normalIndices := m.normalIndices ++ [n]
    numNormalIndices := (m.numNormalIndices + 1) % GLUINT_MOD }

/-- The body of `if (*iter == "v")`.  `iter` is the position of the iterator in `tokens`;
the result carries its position afterwards. -/
def vertexBranch {F : Type} (L : FloatLib F) (tokens : List (List Char)) (iter : Nat)
    (st : ReadState F) : Option (ReadState F × Nat) :=
  if tokens.length = 4 then do
    let tx ← tokens[iter + 1]?
    let ty ← tokens[iter + 2]?
    let tz ← tokens[iter + 3]?
    some ({ st with model := pushVertex st.model ⟨L.atof tx, L.atof ty, L.atof tz⟩ }, iter + 3)
  else some ({ st with loadedCleanly := false }, iter)

/-- The body of `if (*iter == "vn")`. -/
def normalBranch {F : Type} (L : FloatLib F) (tokens : List (List Char)) (iter : Nat)
    (st : ReadState F) : Option (ReadState F × Nat) :=
  if tokens.length = 4 then do
    let tx ← tokens[iter + 1]?
    let ty ← tokens[iter + 2]?
    let tz ← tokens[iter + 3]?
    some ({ st with model := pushNormal st.model ⟨L.atof tx, L.atof ty, L.atof tz⟩ }, iter + 3)
  else some ({ st with loadedCleanly := false }, iter)

/-- The statements that cut a token `a//x` in two: the part before the `//` and the part
from `faceEndPos + 2` on.  The sum is taken in `size_t`: a position plus two stays inside
the token, and `npos + 2` wraps around to `1`. -/
def splitFaceToken (token : List Char) : Option (List Char × List Char) := do
  let faceEndPos := findSlashes token
  let faceToken ← substr token 0 faceEndPos
  let nextTokenStartPos :=
    match faceEndPos with
    | some p => p + 2
    | none => 1
  let normalToken ← substr token nextTokenStartPos none
  some (faceToken, normalToken)

/-- The body of `if (*iter == "f")`. -/
def faceBranch {F : Type} (tempLine : List Char) (tokens : List (List Char)) (iter : Nat)
    (st : ReadState F) : Option (ReadState F × Nat) :=
  let pos := findSlashes tempLine
  if tokens.length = 4 ∧ pos = none then do
    let t1 ← tokens[iter + 1]?
    let v1 ← atoi t1
    let t2 ← tokens[iter + 2]?
    let v2 ← atoi t2
    let t3 ← tokens[iter + 3]?
    let v3 ← atoi t3
    let face : Vec3 Int :=
      ⟨f32OfNat (toGLuint v1), f32OfNat (toGLuint v2), f32OfNat (toGLuint v3)⟩
    some ({ st with model := pushFace st.model face }, iter + 3)
  else if tokens.length = 4 ∧ pos ≠ none then do
    let t1 ← tokens[iter + 1]?
    let (faceToken1, normalToken1) ← splitFaceToken t1
    let t2 ← tokens[iter + 2]?
    let (faceToken2, normalToken2) ← splitFaceToken t2
    let t3 ← tokens[iter + 3]?
    let (faceToken3, normalToken3) ← splitFaceToken t3
    let n1 ← atoi normalToken1
    let n2 ← atoi normalToken2
    let n3 ← atoi normalToken3
    let m1 := pushNormalIndex st.model ⟨f32OfInt n1, f32OfInt n2, f32OfInt n3⟩
    let f1 ← atoi faceToken1
    let f2 ← atoi faceToken2
    let f3 ← atoi faceToken3
    some ({ st with model := pushFace m1 ⟨f32OfInt f1, f32OfInt f2, f32OfInt f3⟩ }, iter + 3)
  else some ({ st with loadedCleanly := false }, iter)

/-- The body of `if (tempLine.length() > 1)`: the three tests `*iter == "v"`,
`*iter == "vn"`, `*iter == "f"` run one after the other on the same iterator, which a
branch that read its three numbers has moved to the last token. -/
def parseLine {F : Type} (L : FloatLib F) (st : ReadState F) (tempLine : List Char) :
    Option (ReadState F) := do
  let tokens := tokenize tempLine
  let iter := 0
  let t ← tokens[iter]?
  let (st, iter) ← if t = ['v'] then vertexBranch L tokens iter st else some (st, iter)
  let t ← tokens[iter]?
  let (st, iter) ← if t = ['v', 'n'] then normalBranch L tokens iter st else some (st, iter)
  let t ← tokens[iter]?
  let (st, _) ← if t = ['f'] then faceBranch tempLine tokens iter st else some (st, iter)
  some st

/-- One turn of the `while (file.good())` loop on the line that `getline` read. -/
def readLine {F : Type} (L : FloatLib F) (st : ReadState F) (tempLine : List Char) :
    Option (ReadState F) :=
  if st.lineCount < INT_MAX then
    let st := { st with lineCount := st.lineCount + 1 }
    if 1 < tempLine.length then parseLine L st tempLine else some st
  else none

/-- The loop of `readModelFile` over the lines of the file. -/
def readLines {F : Type} (L : FloatLib F) (st : ReadState F) :
    List (List Char) → Option (ReadState F)
  | [] => some st
  | l :: ls => (readLine L st l).bind fun st1 => readLines L st1 ls

/-- The method `Model::readModelFile`.  The file is `none` when it cannot be opened, else
the list of its lines.  The result is the flag the method returns and the model after
the call. -/
def readModelFile {F : Type} (L : FloatLib F) (m : Model F) (file : Option (List (List Char))) :
    Outcome (Bool × Model F) :=
  match file with
  | none => Outcome.exit (-1)
  | some lines =>
    match readLines L ⟨m, true, 0⟩ lines with
    | none => Outcome.undefined
    | some st => Outcome.ok (st.loadedCleanly, st.model)

/-! ## `Model::setupData` -/

/-- The statement `new T[n]`. -/
def Buffer.alloc {α : Type} (n : Nat) : Buffer α := ⟨n, []⟩

/-- The statement `data[count++] = v` for the running `int count`, which equals the number
of cells written so far: undefined when the cell lies outside the array or `count++`
overflows. -/
def Buffer.push {α : Type} (b : Buffer α) (v : α) : Option (Buffer α) :=
  if b.cells.length < b.cap ∧ (b.cells.length : Int) < INT_MAX then
    some { b with cells := b.cells ++ [v] }
  else none

/-- A run of consecutive `data[count++] = v` statements. -/
def Buffer.pushAll {α : Type} (b : Buffer α) : List α → Option (Buffer α)
  | [] => some b
  | v :: vs => (b.push v).bind fun b1 => b1.pushAll vs

/-- The value of the running `int` counter of a buffer. -/
def Buffer.count {α : Type} (b : Buffer α) : Int := b.cells.length

/-- The expression `*(iter + num - 1)` for `iter = vec->begin()`: defined when the iterator
stays inside the vector. -/
def fetch {α : Type} (vec : List α) (num : Nat) : Option α :=
  if 1 ≤ num ∧ num ≤ vec.length then vec[num - 1]? else none

/-- The three components of a `vec3` in the order `x`, `y`, `z`. -/
def Vec3.toList {α : Type} (v : Vec3 α) : List α := [v.x, v.y, v.z]

/-- The three vectors that the numbers of a face (or of a normal index) name in `vec`. -/
def fetchCorners {α : Type} (vec : List α) (face : Vec3 Int) : Option (α × α × α) := do
  let firstNum ← floatToGLuint face.x
  let secondNum ← floatToGLuint face.y
  let thirdNum ← floatToGLuint face.z
  let a ← fetch vec firstNum
  let b ← fetch vec secondNum
  let c ← fetch vec thirdNum
  some (a, b, c)

/-- The body of the loop over the faces that also generates the normals (first branch of
the array section, and the element section). -/
def expandFaceWithNormal {F : Type} (L : FloatLib F) (vertices : List (Vec3 F))
    (bufs : Buffer F × Buffer F) (face : Vec3 Int) : Option (Buffer F × Buffer F) := do
  let (faceVert1, faceVert2, faceVert3) ← fetchCorners vertices face
  let v1 := L.vsub faceVert2 faceVert1
  let v2 := L.vsub faceVert3 faceVert1
  let normal := L.cross v1 v2
  let normalizedNormal := L.normalize normal
  let vertexData ← bufs.1.pushAll (faceVert1.toList ++ faceVert2.toList ++ faceVert3.toList)
  let normalData ← bufs.2.pushAll
    (normalizedNormal.toList ++ normalizedNormal.toList ++ normalizedNormal.toList)
  some (vertexData, normalData)

/-- The body of a loop that copies the three vectors a face (or normal index) names. -/
def expandCorners {F : Type} (vec : List (Vec3 F)) (buf : Buffer F) (face : Vec3 Int) :
    Option (Buffer F) := do
  let (a, b, c) ← fetchCorners vec face
  buf.pushAll (a.toList ++ b.toList ++ c.toList)

/-- A `for` loop over a vector whose body may be undefined. -/
def forEach {σ α : Type} (body : σ → α → Option σ) (s : σ) : List α → Option σ
  | [] => some s
  | a :: as => (body s a).bind fun s1 => forEach body s1 as

/-- The statements `numVertices = vertexCount / 3` and the like: `int` division, then the
conversion to `GLuint`. -/
def countToGLuint (count : Int) : Nat := toGLuint (count / 3)

/-- The allocation size `numFaces * 3 * 3`, computed in `GLuint`. -/
def nineTimes (numFaces : Nat) : Nat := numFaces * 3 % GLUINT_MOD * 3 % GLUINT_MOD

/-- The block shared by the first branch of the array section and the element section:
both arrays are built from the faces and the normals are generated. -/
def setupGenerated {F : Type} (L : FloatLib F) (m : Model F) : Option (Model F) := do
  let vertexData : Buffer F := Buffer.alloc (nineTimes m.numFaces)
  let normalData : Buffer F := Buffer.alloc (nineTimes m.numFaces)
  let (vertexData, normalData) ←
    forEach (expandFaceWithNormal L m.vertices) (vertexData, normalData) m.faces
  some { m with
    vertexData := some vertexData
    normalData := some normalData
    numVertices := countToGLuint vertexData.count
    numNormals := countToGLuint normalData.count }

/-- The second branch of the array section: vertices, faces, normals and normal indices. -/
def setupIndexed {F : Type} (m : Model F) : Option (Model F) := do
  let vertexData : Buffer F := Buffer.alloc (nineTimes m.numFaces)
  let normalData : Buffer F := Buffer.alloc (nineTimes m.numFaces)
  let vertexData ← forEach (expandCorners m.vertices) vertexData m.faces
  let normalData ← forEach (expandCorners m.normals) normalData m.normalIndices
  some { m with
    vertexData := some vertexData
    normalData := some normalData
    numVertices := countToGLuint vertexData.count
    numNormals := countToGLuint normalData.count }

/-- The third branch of the array section: vertices only. -/
def setupVerticesOnly {F : Type} (m : Model F) : Option (Model F) := do
  let vertexData : Buffer F := Buffer.alloc (m.numVertices * 3 % GLUINT_MOD)
  let vertexData ← forEach (fun buf (v : Vec3 F) => buf.pushAll v.toList) vertexData m.vertices
  some { m with
    vertexData := some vertexData
    numVertices := countToGLuint vertexData.count }

/-- The loop that fills `faceData`: each component is the `float` difference
`(*iter).x - 1` converted to `GLuint`. -/
def faceElements (buf : Buffer Nat) (face : Vec3 Int) : Option (Buffer Nat) := do
  let a ← floatToGLuint (f32OfInt (face.x - 1))
  let b ← floatToGLuint (f32OfInt (face.y - 1))
  let c ← floatToGLuint (f32OfInt (face.z - 1))
  buf.pushAll [a, b, c]

/-- The block of the element section that builds `faceData`. -/
def setupFaceData {F : Type} (m : Model F) : Option (Model F) := do
  let faceData : Buffer Nat := Buffer.alloc (m.numFaces * 3 % GLUINT_MOD)
  let faceData ← forEach faceElements faceData m.faces
  some { m with
    faceData := some faceData
    numFaces := countToGLuint faceData.count }

/-- Turns an optional result into an outcome. -/
def Outcome.ofOption {α : Type} : Option α → Outcome α
  | some a => Outcome.ok a
  | none => Outcome.undefined

/-- The method `Model::setupData`. -/
def setupData {F : Type} (L : FloatLib F) (m : Model F) : Outcome (Model F) :=
  if m.drawingMethod = DrawingMethod.DRAWING_AS_ARRAYS then
    if hasVertices m && hasFaces m && !hasNormals m then
      Outcome.ofOption (setupGenerated L m)
    else if hasVertices m && hasFaces m && hasNormals m && hasNormalIndices m then
      Outcome.ofOption (setupIndexed m)
    else if hasVertices m && !hasFaces m && !hasNormals m then
      Outcome.ofOption (setupVerticesOnly m)
    else Outcome.ok m
  else
    if hasVertices m && hasFaces m then
      match setupGenerated L m with
      | none => Outcome.undefined
      | some m1 =>
        if hasFaces m1 then Outcome.ofOption (setupFaceData m1)
        else Outcome.exit (-1)
    else Outcome.exit (-1)

/-! ## `Model::load` -/

/-- The method `Model::load`. -/
def load {F : Type} (L : FloatLib F) (m : Model F) (file : Option (List (List Char))) :
    Outcome (Model F) :=
  match readModelFile L (initModel m) file with
  | Outcome.exit code => Outcome.exit code
  | Outcome.undefined => Outcome.undefined
  | Outcome.ok (_, m1) =>
    if hasVertices m1 then setupData L m1 else Outcome.exit (-1)

/-- The constructor `Model::Model(string, DrawingMethod)`. -/
def constructAndLoad {F : Type} (L : FloatLib F) (file : Option (List (List Char)))
    (theDrawingMethod : DrawingMethod) : Outcome (Model F) :=
  load L (construct theDrawingMethod) file

/-! ## The file format in the words of the specification -/

/-- A well-formed vertex line: the token `v` followed by exactly three more tokens. -/
def isVertexLine (line : List Char) : Bool :=
  match tokenize line with
  | [t0, _, _, _] => decide (t0 = ['v'])
  | _ => false

/-- A well-formed normal line: the token `vn` followed by exactly three more tokens. -/
def isNormalLine (line : List Char) : Bool :=
  match tokenize line with
  | [t0, _, _, _] => decide (t0 = ['v', 'n'])
  | _ => false

/-- A well-formed face line: the token `f` followed by exactly three more tokens. -/
def isFaceLine (line : List Char) : Bool :=
  match tokenize line with
  | [t0, _, _, _] => decide (t0 = ['f'])
  | _ => false

/-- A line whose first token is `v`, `vn` or `f` and that does not have exactly four
tokens. -/
def isMalformedLine (line : List Char) : Bool :=
  match tokenize line with
  | t0 :: rest =>
    (decide (t0 = ['v']) || decide (t0 = ['v', 'n']) || decide (t0 = ['f']))
      && decide (rest.length ≠ 3)
  | [] => false

/-! ## What one line contributes

`readModelFile` handles a line in two steps that do not depend on each other: it decides
what the line contributes (`lineItem`, which looks at the line only) and it stores that
contribution (`applyItem`).  The theorem `parseLine_eq` states that `parseLine` is the
composition of the two. -/

/-- The contribution of one line to the model. -/
inductive Item (F : Type) where
  | vertex (v : Vec3 F)
  | normal (n : Vec3 F)
  | face (f : Vec3 Int)
  | faceWithNormals (f : Vec3 Int) (n : Vec3 Int)
  | malformed
  | skip
deriving DecidableEq

/-- The effect of a contribution on the state of `readModelFile`. -/
def applyItem {F : Type} (st : ReadState F) : Item F → ReadState F
  | Item.vertex v => { st with model := pushVertex st.model v }
  | Item.normal n => { st with model := pushNormal st.model n }
  | Item.face f => { st with model := pushFace st.model f }
  | Item.faceWithNormals f n => { st with model := pushFace (pushNormalIndex st.model n) f }
  | Item.malformed => { st with loadedCleanly := false }
  | Item.skip => st

/-- The numbers of a face line without `//`, as stored. -/
def plainFaceItem {F : Type} (a b c : List Char) : Option (Item F) := do
  let v1 ← atoi a
  let v2 ← atoi b
  let v3 ← atoi c
  some (Item.face ⟨f32OfNat (toGLuint v1), f32OfNat (toGLuint v2), f32OfNat (toGLuint v3)⟩)

/-- The numbers of a face line with `//`, as stored. -/
def slashedFaceItem {F : Type} (a b c : List Char) : Option (Item F) := do
  let (faceToken1, normalToken1) ← splitFaceToken a
  let (faceToken2, normalToken2) ← splitFaceToken b
  let (faceToken3, normalToken3) ← splitFaceToken c
  let n1 ← atoi normalToken1
  let n2 ← atoi normalToken2
  let n3 ← atoi normalToken3
  let f1 ← atoi faceToken1
  let f2 ← atoi faceToken2
  let f3 ← atoi faceToken3
  some (Item.faceWithNormals ⟨f32OfInt f1, f32OfInt f2, f32OfInt f3⟩
    ⟨f32OfInt n1, f32OfInt n2, f32OfInt n3⟩)

/-- The contribution of a line longer than one character; `none` when handling the line has
no defined behaviour. -/
def lineItem {F : Type} (L : FloatLib F) (line : List Char) : Option (Item F) :=
  match tokenize line with
  | [] => none
  | t0 :: rest =>
    if t0 = ['v'] then
      match rest with
      | [x, y, z] =>
        if z = ['v', 'n'] ∨ z = ['f'] then none
        else some (Item.vertex ⟨L.atof x, L.atof y, L.atof z⟩)
      | _ => some Item.malformed
    else if t0 = ['v', 'n'] then
      match rest with
      | [x, y, z] =>
        if z = ['f'] then none else some (Item.normal ⟨L.atof x, L.atof y, L.atof z⟩)
      | _ => some Item.malformed
    else if t0 = ['f'] then
      match rest with
      | [a, b, c] =>
        if findSlashes line = none then plainFaceItem a b c else slashedFaceItem a b c
      | _ => some Item.malformed
    else some Item.skip

/-- The contribution of any line: a line of at most one character is skipped. -/
def readItem {F : Type} (L : FloatLib F) (line : List Char) : Option (Item F) :=
  if 1 < line.length then lineItem L line else some Item.skip

/-- The contributions of the lines of a file, in order; `none` when some line has no
defined behaviour. -/
def fileItems {F : Type} (L : FloatLib F) : List (List Char) → Option (List (Item F))
  | [] => some []
  | l :: ls =>
    match readItem L l, fileItems L ls with
    | some i, some is => some (i :: is)
    | _, _ => none

/-- The vertex a contribution adds, if any. -/
def Item.vertex? {F : Type} : Item F → Option (Vec3 F)
  | Item.vertex v => some v
  | _ => none

/-- The normal a contribution adds, if any. -/
def Item.normal? {F : Type} : Item F → Option (Vec3 F)
  | Item.normal n => some n
  | _ => none

/-- The face a contribution adds, if any. -/
def Item.face? {F : Type} : Item F → Option (Vec3 Int)
  | Item.face f => some f
  | Item.faceWithNormals f _ => some f
  | _ => none

/-- The normal index a contribution adds, if any. -/
def Item.normalIndex? {F : Type} : Item F → Option (Vec3 Int)
  | Item.faceWithNormals _ n => some n
  | _ => none

/-- Whether a contribution is that of a malformed line. -/
def Item.isMalformed {F : Type} : Item F → Bool
  | Item.malformed => true
  | _ => false

/-- The model that `readModelFile` hands over when the lines of the file contribute
`items`: the four vectors in file order, the four counts, no data array yet. -/
def modelOfItems {F : Type} (dm : DrawingMethod) (items : List (Item F)) : Model F :=
  { drawingMethod := dm
    vertices := items.filterMap Item.vertex?
    normals := items.filterMap Item.normal?
    normalIndices := items.filterMap Item.normalIndex?
    faces := items.filterMap Item.face?
    vertexData := none
    normalData := none
    faceData := none
    numVertices := (items.filterMap Item.vertex?).length
    numNormals := (items.filterMap Item.normal?).length
    numNormalIndices := (items.filterMap Item.normalIndex?).length
    numFaces := (items.filterMap Item.face?).length }

/-- A decimal-number token, in the words of the format: an optional sign, then digits with
at most one decimal point among them, and at least one digit. -/
def isDecimalNumber (t : List Char) : Bool :=
  let body :=
    match t with
    | '-' :: r => r
    | '+' :: r => r
    | r => r
  body.any isdigit && body.all (fun c => isdigit c || c = '.') && decide (body.count '.' ≤ 1)

/-- An interpretation of the `float` operations with integer coordinates, used to run the
model on concrete files: `atof` reads an integer, `cross` is the cross product and
`normalize` is left as the identity. -/
def intLib : FloatLib Int where
  atof := decimalValue
  vsub a b := ⟨a.x - b.x, a.y - b.y, a.z - b.z⟩
  cross a b := ⟨a.y * b.z - a.z * b.y, a.z * b.x - a.x * b.z, a.x * b.y - a.y * b.x⟩
  normalize v := v
  mul a b := a * b

/-- A decimal integer token, in the words of the format: one or more digits. -/
def isDecimalInteger (t : List Char) : Bool := !t.isEmpty && t.all isdigit

/-- The number that a string of digits writes in base ten. -/
def decimalNat (t : List Char) : Nat := t.foldl (fun acc c => acc * 10 + (c.toNat - 48)) 0

/-- A decimal integer token with an optional sign, in the words of the format: `-` or `+`
or nothing, then one or more digits. -/
def isSignedDecimalInteger (t : List Char) : Bool :=
  match t with
  | '-' :: r => isDecimalInteger r
  | '+' :: r => isDecimalInteger r
  | r => isDecimalInteger r

/-- The integer that a decimal integer token with an optional sign writes. -/
def signedDecimalValue (t : List Char) : Int :=
  match t with
  | '-' :: r => -((decimalNat r : Nat) : Int)
  | '+' :: r => ((decimalNat r : Nat) : Int)
  | r => ((decimalNat r : Nat) : Int)

/-- Whether a string contains `//`. -/
def containsSlashes : List Char → Bool
  | a :: b :: cs => (decide (a = '/') && decide (b = '/')) || containsSlashes (b :: cs)
  | _ => false

/-- A line that `readModelFile` reports: longer than one character, first token `v`, `vn`
or `f`, and not exactly four tokens. -/
def isReportedLine (line : List Char) : Bool :=
  decide (1 < line.length) && isMalformedLine line

/-- A well-formed face line written with `//`. -/
def isSlashedFaceLine (line : List Char) : Bool := isFaceLine line && containsSlashes line

/-! ## The content of a file in the words of the format -/

/-- The point that a well-formed vertex line writes. -/
def lineVertex {F : Type} (L : FloatLib F) (line : List Char) : Option (Vec3 F) :=
  match tokenize line with
  | [t0, x, y, z] => if t0 = ['v'] then some ⟨L.atof x, L.atof y, L.atof z⟩ else none
  | _ => none

/-- The normal that a well-formed normal line writes. -/
def lineNormal {F : Type} (L : FloatLib F) (line : List Char) : Option (Vec3 F) :=
  match tokenize line with
  | [t0, x, y, z] => if t0 = ['v', 'n'] then some ⟨L.atof x, L.atof y, L.atof z⟩ else none
  | _ => none

/-- The vertices of a file, in file order. -/
def fileVertices {F : Type} (L : FloatLib F) (lines : List (List Char)) : List (Vec3 F) :=
  lines.filterMap (lineVertex L)

/-- The normals of a file, in file order. -/
def fileNormals {F : Type} (L : FloatLib F) (lines : List (List Char)) : List (Vec3 F) :=
  lines.filterMap (lineNormal L)

/-- The vertex index that a corner token of a face line writes: the decimal integer at its
front (`7` for `7`, for `7//2` and for `7/1/2`). -/
def cornerVertexIndex (token : List Char) : Int := decimalValue token

/-- The normal index that a corner token `a//x` writes: the decimal integer after the
`//`; none when the token has no `//`. -/
def cornerNormalIndex (token : List Char) : Option Int :=
  (findSlashes token).map fun p => decimalValue (token.drop (p + 2))

/-- The three vertex indices (1-based) that a well-formed face line writes. -/
def faceLineIndices (line : List Char) : Option (Vec3 Int) :=
  match tokenize line with
  | [t0, a, b, c] =>
    if t0 = ['f'] then some ⟨cornerVertexIndex a, cornerVertexIndex b, cornerVertexIndex c⟩
    else none
  | _ => none

/-- The three normal indices (1-based) that a face line `f a//x b//y c//z` writes. -/
def faceLineNormalIndices (line : List Char) : Option (Vec3 Int) :=
  match tokenize line with
  | [t0, a, b, c] =>
    if t0 = ['f'] then
      match cornerNormalIndex a, cornerNormalIndex b, cornerNormalIndex c with
      | some x, some y, some z => some ⟨x, y, z⟩
      | _, _, _ => none
    else none
  | _ => none

/-- The vertex indices of the face lines of a file, in file order. -/
def fileFaces (lines : List (List Char)) : List (Vec3 Int) :=
  lines.filterMap faceLineIndices

/-- The normal indices of the face lines of a file, in file order. -/
def fileNormalIndices (lines : List (List Char)) : List (Vec3 Int) :=
  lines.filterMap faceLineNormalIndices

/-- The largest integer up to which every integer is a `float`: `2 ^ 24`. -/
def FLOAT_EXACT_MAX : Int := 16777216

/-- A stored number `s` is the file's number `i` whenever `i` lies between 0 and
`2 ^ 24`. -/
def StoredExactly (i s : Int) : Prop := 0 ≤ i → i ≤ FLOAT_EXACT_MAX → s = i

/-- Componentwise `StoredExactly` for the three numbers of a face or normal index. -/
def StoredExactly3 (i s : Vec3 Int) : Prop :=
  StoredExactly i.x s.x ∧ StoredExactly i.y s.y ∧ StoredExactly i.z s.z

/-! ## What the loops of `setupData` write -/

/-- The nine floats that the vertex loop writes for a face: the positions of its three
corners, in the order of the face. -/
def cornerFloats {F : Type} (vec : List (Vec3 F)) (face : Vec3 Int) : List F :=
  match fetchCorners vec face with
  | some (a, b, c) => a.toList ++ b.toList ++ c.toList
  | none => []

/-- The nine floats that the normal loop writes for a face when the normals are generated:
the normalized cross product of the two edges, three times. -/
def generatedNormalFloats {F : Type} (L : FloatLib F) (vertices : List (Vec3 F))
    (face : Vec3 Int) : List F :=
  match fetchCorners vertices face with
  | some (a, b, c) =>
    let n := L.normalize (L.cross (L.vsub b a) (L.vsub c a))
    n.toList ++ n.toList ++ n.toList
  | none => []

/-- The three numbers that the face loop writes for a face. -/
def elementNumbers (face : Vec3 Int) : List Nat :=
  match floatToGLuint (f32OfInt (face.x - 1)), floatToGLuint (f32OfInt (face.y - 1)),
    floatToGLuint (f32OfInt (face.z - 1)) with
  | some a, some b, some c => [a, b, c]
  | _, _, _ => []

/-! ## Large files -/

/-- A file of `n` lines `v 0 0 0` followed by the lines of `tail`. -/
def manyVertices (n : Nat) (tail : List (List Char)) : List (List Char) :=
  List.replicate n "v 0 0 0".toList ++ tail

/-- A file with 16777217 vertices, the last of them `(1, 0, 0)` and the others `(0, 0, 0)`,
and one face whose first corner is vertex number 16777217. -/
def largeFile : List (List Char) :=
  manyVertices 16777216 ["v 1 0 0".toList, "f 16777217 1 2".toList]

/-- A file with 16777217 vertices, the last of them `(1, 0, 0)` and the others `(0, 0, 0)`,
one normal, and one face `f 16777217//1 1//1 2//1`. -/
def largeFileWithNormals : List (List Char) :=
  manyVertices 16777216 ["v 1 0 0".toList, "vn 0 0 1".toList, "f 16777217//1 1//1 2//1".toList]

/-- The model that `readModelFile` hands over for `n` lines `v 0 0 0` followed by the lines
`v 1 0 0` and `f 16777217 1 2`: the number 16777217 is stored as 16777216. -/
def largeModelRead (dm : DrawingMethod) (n : Nat) : Model Int :=
  { drawingMethod := dm
    vertices := List.replicate n ⟨0, 0, 0⟩ ++ [⟨1, 0, 0⟩]
    normals := []
    normalIndices := []
    faces := [⟨16777216, 1, 2⟩]
    vertexData := none
    normalData := none
    faceData := none
    numVertices := n + 1
    numNormals := 0
    numNormalIndices := 0
    numFaces := 1 }

/-- The model `largeModelRead` after the block of `setupData` that expands the faces and
generates the normals. -/
def largeModelExpanded (dm : DrawingMethod) (n : Nat) : Model Int :=
  { largeModelRead dm n with
    vertexData := some ⟨9, [0, 0, 0, 0, 0, 0, 0, 0, 0]⟩
    normalData := some ⟨9, [0, 0, 0, 0, 0, 0, 0, 0, 0]⟩
    numVertices := 3
    numNormals := 3 }

/-- The model that `readModelFile` hands over for `n` lines `v 0 0 0` followed by the lines
`v 1 0 0`, `vn 0 0 1` and `f 16777217//1 1//1 2//1`. -/
def largeModelWithNormalsRead (n : Nat) : Model Int :=
  { drawingMethod := DrawingMethod.DRAWING_AS_ARRAYS
    vertices := List.replicate n ⟨0, 0, 0⟩ ++ [⟨1, 0, 0⟩]
    normals := [⟨0, 0, 1⟩]
    normalIndices := [⟨1, 1, 1⟩]
    faces := [⟨16777216, 1, 2⟩]
    vertexData := none
    normalData := none
    faceData := none
    numVertices := n + 1
    numNormals := 1
    numNormalIndices := 1
    numFaces := 1 }

/-- The model `largeModelWithNormalsRead` after the block of `setupData` for vertices,
faces, normals and normal indices. -/
def largeModelWithNormalsExpanded (n : Nat) : Model Int :=
  { largeModelWithNormalsRead n with
    vertexData := some ⟨9, [0, 0, 0, 0, 0, 0, 0, 0, 0]⟩
    normalData := some ⟨9, [0, 0, 1, 0, 0, 1, 0, 0, 1]⟩
    numVertices := 3
    numNormals := 3 }

/-! ## The copy constructor `Model::Model(Model&)` -/

/-- The call `memcpy(dest, src, bytes)` of `bytes / sizeof(GLfloat)` floats into the fresh
array `dest`: undefined when `src` is null or when the bytes do not lie inside both arrays;
the cells of `dest` that receive an initialised cell of `src` are the initialised cells of
`dest` afterwards. -/
def memcpyFloats {F : Type} (dest : Buffer F) (src : Option (Buffer F)) (bytes : Nat) :
    Option (Buffer F) :=
  match src with
  | none => none
  | some s =>
    let n := bytes / 4
    if n ≤ s.cap ∧ n ≤ dest.cap then some { dest with cells := s.cells.take n } else none

/-- The copy constructor `Model::Model(Model &source)`.  The data members of the new object
start as their default member initializers say (null pointers), `initModel` runs on them,
and `drawingMethod`, which has no initializer, is assigned from the source before anything
reads it.  The two `int` locals `tvertDataSize`, `tnormDataSize` and the values derived from
them are only printed. -/
def copyConstruct {F : Type} (source : Model F) : Outcome (Model F) :=
  let fresh : Model F := initModel
    { drawingMethod := source.drawingMethod
      vertices := []
      normals := []
      normalIndices := []
      faces := []
      vertexData := none
      normalData := none
      faceData := none
      numVertices := 0
      numNormals := 0
      numNormalIndices := 0
      numFaces := 0 }
  let m : Model F :=
    { fresh with
      numVertices := source.numVertices
      numNormals := source.numNormals
      numNormalIndices := source.numNormalIndices
      numFaces := source.numFaces
      drawingMethod := source.drawingMethod }
  if 0 < m.numVertices then
    match memcpyFloats (Buffer.alloc (m.numVertices * 3 % GLUINT_MOD)) source.vertexData
        (getVertexDataSizeBytes source) with
    | none => Outcome.undefined
    | some vertexData =>
      let m : Model F := { m with vertexData := some vertexData }
      if 0 < m.numNormals then
        match memcpyFloats (Buffer.alloc (m.numNormals * 3 % GLUINT_MOD)) source.normalData
            (getNormalDataSizeBytes source) with
        | none => Outcome.undefined
        | some normalData => Outcome.ok { m with normalData := some normalData }
      else Outcome.exit (-1)
  else Outcome.exit (-1)

/-- A populated data array of a model: the array is allocated and its initialised cells are
the three floats of each of the `num` entries that the matching count reports. -/
def Populated {α : Type} (data : Option (Buffer α)) (num : Nat) : Prop :=
  ∃ buf, data = some buf ∧ buf.cells.length = 3 * num ∧ buf.cells.length ≤ buf.cap ∧
    ((3 * num : Nat) : Int) ≤ INT_MAX

/-- The largest number of entries whose size in bytes, `12` each, is a `GLuint`. -/
def MAX_ENTRIES_IN_GLUINT_BYTES : Nat := 357913941

/-! ## A file with many faces -/

/-- A file with three vertices followed by `n` lines `f 1 2 3`. -/
def manyFaces (n : Nat) : List (List Char) :=
  ["v 0 0 0".toList, "v 1 0 0".toList, "v 0 1 0".toList] ++ List.replicate n "f 1 2 3".toList

/-- The model that `readModelFile` hands over for the file `manyFaces n`. -/
def manyFacesRead (n : Nat) : Model Int :=
  { drawingMethod := DrawingMethod.DRAWING_AS_ARRAYS
    vertices := [⟨0, 0, 0⟩, ⟨1, 0, 0⟩, ⟨0, 1, 0⟩]
    normals := []
    normalIndices := []
    faces := List.replicate n ⟨1, 2, 3⟩
    vertexData := none
    normalData := none
    faceData := none
    numVertices := 3
    numNormals := 0
    numNormalIndices := 0
    numFaces := n }

/-- The model `manyFacesRead n` after the block of `setupData` that expands the faces and
generates the normals: nine floats per face in both arrays. -/
def manyFacesLoaded (n : Nat) : Model Int :=
  { manyFacesRead n with
    vertexData := some ⟨9 * n, (List.replicate n [0, 0, 0, 1, 0, 0, 0, 1, 0]).flatten⟩
    normalData := some ⟨9 * n, (List.replicate n [0, 0, 1, 0, 0, 1, 0, 0, 1]).flatten⟩
    numVertices := 3 * n
    numNormals := 3 * n }

/-- The copy that the copy constructor makes of `manyFacesLoaded n` when the sizes in bytes
of its arrays wrap around to 32: only the first eight floats of each array are copied. -/
def manyFacesCopied (n : Nat) : Model Int :=
  { drawingMethod := DrawingMethod.DRAWING_AS_ARRAYS
    vertices := []
    normals := []
    normalIndices := []
    faces := []
    vertexData := some ⟨9 * n, [0, 0, 0, 1, 0, 0, 0, 1]⟩
    normalData := some ⟨9 * n, [0, 0, 1, 0, 0, 1, 0, 0]⟩
    faceData := none
    numVertices := 3 * n
    numNormals := 3 * n
    numNormalIndices := 0
    numFaces := n }

/-! ## `Model::scale` -/

/-- The statement `vertexData[loop++] *= factor` for the `GLuint loop`: undefined when cell
`loop` is not an initialised cell of the array. -/
def scaleCell {F : Type} (L : FloatLib F) (cells : List F) (loop : Nat) (factor : F) :
    Option (List F × Nat) :=
  match cells[loop]? with
  | none => none
  | some v => some (cells.set loop (L.mul v factor), (loop + 1) % GLUINT_MOD)

/-- The loop `for (GLuint loop = 0; loop < numVertices * 3; )` of `scale(float)`, from the
value `loop` of the loop variable on; `bound` is the value of `numVertices * 3`.  Each turn
moves `loop` on by three, so `bound` turns are enough; `fuel` counts the turns left. -/
def scaleUniformLoop {F : Type} (L : FloatLib F) (scale : F) (bound : Nat) :
    Nat → Nat → List F → Option (List F)
  | 0, loop, cells => if loop < bound then none else some cells
  | fuel + 1, loop, cells =>
    if loop < bound then do
      let (cells, loop) ← scaleCell L cells loop scale
      let (cells, loop) ← scaleCell L cells loop scale
      let (cells, loop) ← scaleCell L cells loop scale
      scaleUniformLoop L scale bound fuel loop cells
    else some cells

/-- The loop of `scale(float, float, float)`, from the value `loop` of the loop variable
on. -/
def scaleAxesLoop {F : Type} (L : FloatLib F) (xScale yScale zScale : F) (bound : Nat) :
    Nat → Nat → List F → Option (List F)
  | 0, loop, cells => if loop < bound then none else some cells
  | fuel + 1, loop, cells =>
    if loop < bound then do
      let (cells, loop) ← scaleCell L cells loop xScale
      let (cells, loop) ← scaleCell L cells loop yScale
      let (cells, loop) ← scaleCell L cells loop zScale
      scaleAxesLoop L xScale yScale zScale bound fuel loop cells
    else some cells

/-- Runs a loop over the cells of `vertexData`: with a null pointer, a loop that has a turn
to make has no defined behaviour and a loop that has none leaves the pointer as it is. -/
def onVertexData {F : Type} (m : Model F) (bound : Nat)
    (loop : List F → Option (List F)) : Option (Model F) :=
  match m.vertexData with
  | none => if 0 < bound then none else some m
  | some buf => (loop buf.cells).map fun cells => { m with vertexData := some ⟨buf.cap, cells⟩ }

/-- The method `Model::scale(float scale)`; `none` when its behaviour is undefined. -/
def scale {F : Type} (L : FloatLib F) (m : Model F) (scale : F) : Option (Model F) :=
  let bound := m.numVertices * 3 % GLUINT_MOD
  onVertexData m bound (scaleUniformLoop L scale bound bound 0)

/-- The method `Model::scale(float xScale, float yScale, float zScale)`; `none` when its
behaviour is undefined. -/
def scaleAxes {F : Type} (L : FloatLib F) (m : Model F) (xScale yScale zScale : F) :
    Option (Model F) :=
  let bound := m.numVertices * 3 % GLUINT_MOD
  onVertexData m bound (scaleAxesLoop L xScale yScale zScale bound bound 0)

/-- The floats of a vertex array after every vertex `(x, y, z)` in it has been replaced by
`(x * xs, y * ys, z * zs)`. -/
def scaledCells {F : Type} (L : FloatLib F) (xs ys zs : F) : List F → List F
  | x :: y :: z :: rest => L.mul x xs :: L.mul y ys :: L.mul z zs :: scaledCells L xs ys zs rest
  | rest => rest

end ObjModel

/-! # The camera of `GLFW3_Framework_2023` (`Camera.h`, `Camera.cpp`)

A shallow embedding of `Camera::handleMouseMove` and `Camera::move`.

Conventions of the embedding.

* A `float` or a `double` is a `FloatVal`: NaN, an infinity, or a rational number.  The
  arithmetic is that of IEEE 754: an operation on numbers computes the exact result and
  delivers it in the format of the operation (`FloatFormat.ofRat`), a result beyond the
  largest finite number of the format is an infinity, NaN propagates, and `inf - inf` and
  `0 * inf` are NaN.  The conversion of a `double` beyond the range of `float` delivers an
  infinity.
* The rounding of a format is a parameter (`FloatFormat.round`).  Theorems that depend on
  it assume what round to nearest guarantees (`FloatFormat.Valid`); the special values do
  not depend on it.
* Every operation of the source rounds once: a product and a sum are not contracted.
* The numbers that `sin`, `cos` and `sqrt` compute, and `glm::normalize`, are parameters
  (`FloatEnv`); `glm::length` is `sqrt(dot(v, v))` as in its source.
-/

namespace CameraModel

open ObjModel (Vec3)

/-! ## Floating-point values -/

/-- A value of a binary floating-point type of IEEE 754: NaN, an infinity, or a number.  The
sign of a zero is not recorded; no operation of the camera tells the two zeros apart. -/
inductive FloatVal where
  | nan
  | negInf
  | posInf
  | num (q : ℚ)
deriving DecidableEq

/-- A floating-point format with round to nearest: `round q` is the number of the format
nearest to `q` when the exponent range is unbounded, and `maxFinite` is the largest finite
number of the format. -/
structure FloatFormat where
  round : ℚ → ℚ
  maxFinite : ℚ

/-- The value of the format that an exact result `q` is delivered as: the rounded number, or
an infinity when that number lies beyond `maxFinite`. -/
def FloatFormat.ofRat (fmt : FloatFormat) (q : ℚ) : FloatVal :=
  if fmt.maxFinite < fmt.round q then FloatVal.posInf
  else if fmt.round q < -fmt.maxFinite then FloatVal.negInf
  else FloatVal.num (fmt.round q)

/-- Unary minus. -/
def FloatVal.neg : FloatVal → FloatVal
  | FloatVal.nan => FloatVal.nan
  | FloatVal.negInf => FloatVal.posInf
  | FloatVal.posInf => FloatVal.negInf
  | FloatVal.num q => FloatVal.num (-q)

/-- Addition in a format. -/
def FloatFormat.add (fmt : FloatFormat) : FloatVal → FloatVal → FloatVal
  | FloatVal.nan, _ => FloatVal.nan
  | _, FloatVal.nan => FloatVal.nan
  | FloatVal.posInf, FloatVal.negInf => FloatVal.nan
  | FloatVal.negInf, FloatVal.posInf => FloatVal.nan
  | FloatVal.posInf, _ => FloatVal.posInf
  | _, FloatVal.posInf => FloatVal.posInf
  | FloatVal.negInf, _ => FloatVal.negInf
  | _, FloatVal.negInf => FloatVal.negInf
  | FloatVal.num a, FloatVal.num b => fmt.ofRat (a + b)

/-- Subtraction in a format: the sum with the negated operand. -/
def FloatFormat.sub (fmt : FloatFormat) (a b : FloatVal) : FloatVal := fmt.add a b.neg

/-- The product of an infinity with the number `q`, where `positive` tells the sign of the
infinity: NaN for zero, else the infinity with the sign of the product. -/
def infinityTimes (positive : Bool) (q : ℚ) : FloatVal :=
  if q = 0 then FloatVal.nan
  else if decide (0 < q) = positive then FloatVal.posInf
  else FloatVal.negInf

/-- Multiplication in a format. -/
def FloatFormat.mul (fmt : FloatFormat) : FloatVal → FloatVal → FloatVal
  | FloatVal.nan, _ => FloatVal.nan
  | _, FloatVal.nan => FloatVal.nan
  | FloatVal.posInf, FloatVal.posInf => FloatVal.posInf
  | FloatVal.posInf, FloatVal.negInf => FloatVal.negInf
  | FloatVal.negInf, FloatVal.posInf => FloatVal.negInf
  | FloatVal.negInf, FloatVal.negInf => FloatVal.posInf
  | FloatVal.posInf, FloatVal.num b => infinityTimes true b
  | FloatVal.negInf, FloatVal.num b => infinityTimes false b
  | FloatVal.num a, FloatVal.posInf => infinityTimes true a
  | FloatVal.num a, FloatVal.negInf => infinityTimes false a
  | FloatVal.num a, FloatVal.num b => fmt.ofRat (a * b)

/-- The comparison `a < b`: false as soon as an operand is NaN. -/
def FloatVal.lt : FloatVal → FloatVal → Bool
  | FloatVal.nan, _ => false
  | _, FloatVal.nan => false
  | FloatVal.num a, FloatVal.num b => decide (a < b)
  | _, FloatVal.negInf => false
  | FloatVal.negInf, _ => true
  | FloatVal.posInf, _ => false
  | _, FloatVal.posInf => true

/-- The comparison `a > b`. -/
def FloatVal.gt (a b : FloatVal) : Bool := b.lt a

/-- The comparison `a <= b`: false as soon as an operand is NaN. -/
def FloatVal.le : FloatVal → FloatVal → Bool
  | FloatVal.nan, _ => false
  | _, FloatVal.nan => false
  | FloatVal.num a, FloatVal.num b => decide (a ≤ b)
  | FloatVal.negInf, _ => true
  | _, FloatVal.posInf => true
  | _, FloatVal.negInf => false
  | FloatVal.posInf, _ => false

/-- Conversion of a value to a format (`double` to `float`): numbers are rounded, and a
number beyond the range of the format becomes an infinity. -/
def FloatFormat.convert (fmt : FloatFormat) : FloatVal → FloatVal
  | FloatVal.num q => fmt.ofRat q
  | v => v

/-- Conversion of an `int` to `double`: exact. -/
def ofInt (i : Int) : FloatVal := FloatVal.num i

/-- The floating-point environment of the camera: the formats of `float` and `double`, the
numbers that `sin`, `cos` and `sqrt` compute before the result is delivered as a `float`,
and `glm::normalize` on `vec3`. -/
structure FloatEnv where
  single : FloatFormat
  double : FloatFormat
  sinQ : ℚ → ℚ
  cosQ : ℚ → ℚ
  sqrtQ : ℚ → ℚ
  normalize : Vec3 FloatVal → Vec3 FloatVal

/-- The function `sin` on `float`: NaN for NaN and for the infinities. -/
def FloatEnv.sin (E : FloatEnv) : FloatVal → FloatVal
  | FloatVal.num q => E.single.ofRat (E.sinQ q)
  | _ => FloatVal.nan

/-- The function `cos` on `float`: NaN for NaN and for the infinities. -/
def FloatEnv.cos (E : FloatEnv) : FloatVal → FloatVal
  | FloatVal.num q => E.single.ofRat (E.cosQ q)
  | _ => FloatVal.nan

/-- The function `sqrt` on `float`: NaN for NaN and for negative operands, exact on zero and
on positive infinity. -/
def FloatEnv.sqrt (E : FloatEnv) : FloatVal → FloatVal
  | FloatVal.nan => FloatVal.nan
  | FloatVal.negInf => FloatVal.nan
  | FloatVal.posInf => FloatVal.posInf
  | FloatVal.num q =>
    if q < 0 then FloatVal.nan
    else if q = 0 then FloatVal.num 0
    else E.single.ofRat (E.sqrtQ q)

/-! ## `glm::vec3` arithmetic -/

/-- The operator `+=` of `vec3`. -/
def vadd (fmt : FloatFormat) (a b : Vec3 FloatVal) : Vec3 FloatVal :=
  ⟨fmt.add a.x b.x, fmt.add a.y b.y, fmt.add a.z b.z⟩

/-- The operator `-=` of `vec3`. -/
def vsub (fmt : FloatFormat) (a b : Vec3 FloatVal) : Vec3 FloatVal :=
  ⟨fmt.sub a.x b.x, fmt.sub a.y b.y, fmt.sub a.z b.z⟩

/-- The operator `*=` of `vec3` with a scalar, after the cast of the scalar to `float`. -/
def vscale (fmt : FloatFormat) (a : Vec3 FloatVal) (s : FloatVal) : Vec3 FloatVal :=
  ⟨fmt.mul a.x s, fmt.mul a.y s, fmt.mul a.z s⟩

/-- The function `glm::dot` on `vec3`: the three products, summed from the left. -/
def dot (fmt : FloatFormat) (a b : Vec3 FloatVal) : FloatVal :=
  fmt.add (fmt.add (fmt.mul a.x b.x) (fmt.mul a.y b.y)) (fmt.mul a.z b.z)

/-- The function `glm::length` on `vec3`: `sqrt(dot(v, v))`. -/
def length (E : FloatEnv) (v : Vec3 FloatVal) : FloatVal := E.sqrt (dot E.single v v)

/-- The zero vector `vec3(0.0f, 0.0f, 0.0f)`. -/
def zeroVec : Vec3 FloatVal := ⟨FloatVal.num 0, FloatVal.num 0, FloatVal.num 0⟩

/-! ## `class Camera` -/

/-- The data members of `class Camera`. -/
structure Camera where
  position : Vec3 FloatVal
  rotation : Vec3 FloatVal
  speed : Vec3 FloatVal
  movementSpeedFactor : FloatVal
  pitchSensitivity : FloatVal
  yawSensitivity : FloatVal
  windowMidX : Int
  windowMidY : Int
  holdingForward : Bool
  holdingBackward : Bool
  holdingLeftStrafe : Bool
  holdingRightStrafe : Bool
  holdingAscend : Bool
  holdingDescend : Bool
deriving DecidableEq

/-- The method `Camera::handleMouseMove` (the call of `glfwSetCursorPos` at its end acts on
the window, not on the camera).  `mouseX` and `mouseY` are `double`s; the two movements are
computed in `double` and converted to `float`. -/
def handleMouseMove (E : FloatEnv) (c : Camera) (mouseX mouseY : FloatVal) : Camera :=
  let horizMouseMovement :=
    E.single.convert (E.double.mul (E.double.sub mouseX (ofInt c.windowMidX)) c.yawSensitivity)
  let vertMouseMovement :=
    E.single.convert (E.double.mul (E.double.sub mouseY (ofInt c.windowMidY)) c.pitchSensitivity)
  let rotation : Vec3 FloatVal :=
    { c.rotation with x := E.single.add c.rotation.x vertMouseMovement }
  let rotation : Vec3 FloatVal :=
    { rotation with y := E.single.add rotation.y horizMouseMovement }
  let rotation : Vec3 FloatVal :=
    if rotation.x.lt (FloatVal.num (-90)) then { rotation with x := FloatVal.num (-90) }
    else rotation
  let rotation : Vec3 FloatVal :=
    if rotation.x.gt (FloatVal.num 90) then { rotation with x := FloatVal.num 90 }
    else rotation
  let rotation : Vec3 FloatVal :=
    if rotation.y.lt (FloatVal.num 0) then
      { rotation with y := E.single.add rotation.y (FloatVal.num 360) }
    else rotation
  let rotation : Vec3 FloatVal :=
    if rotation.y.gt (FloatVal.num 360) then
      { rotation with y := E.single.sub rotation.y (FloatVal.num 360) }
    else rotation
  { c with rotation := rotation }

/-- The constant `Camera::DEGS_TO_RADS`, `glm::pi<float>() / 180.0f`: `glm::pi<float>()` is
the `float` `13176795 / 4194304`. -/
def DEGS_TO_RADS (E : FloatEnv) : FloatVal := E.single.ofRat (13176795 / 4194304 / 180)

/-- The method `Camera::move`. -/
def move (E : FloatEnv) (c : Camera) (deltaTime : FloatVal) : Camera :=
  let movement : Vec3 FloatVal := ⟨FloatVal.num 0, FloatVal.num 0, FloatVal.num 0⟩
  let sinXRot := E.sin (E.single.mul c.rotation.x (DEGS_TO_RADS E))
  let cosXRot := E.cos (E.single.mul c.rotation.x (DEGS_TO_RADS E))
  let sinYRot := E.sin (E.single.mul c.rotation.y (DEGS_TO_RADS E))
  let cosYRot := E.cos (E.single.mul c.rotation.y (DEGS_TO_RADS E))
  let pitchLimitFactor := cosXRot
  let movement :=
    if c.holdingForward then
      vadd E.single movement
        ⟨E.single.mul sinYRot pitchLimitFactor, sinXRot.neg,
          E.single.mul cosYRot.neg pitchLimitFactor⟩
    else movement
  let movement :=
    if c.holdingBackward then
      vsub E.single movement
        ⟨E.single.mul sinYRot pitchLimitFactor, sinXRot.neg,
          E.single.mul cosYRot.neg pitchLimitFactor⟩
    else movement
  let movement :=
    if c.holdingLeftStrafe then vsub E.single movement ⟨cosYRot, FloatVal.num 0, sinYRot⟩
    else movement
  let movement :=
    if c.holdingRightStrafe then vadd E.single movement ⟨cosYRot, FloatVal.num 0, sinYRot⟩
    else movement
  let movement :=
    if c.holdingAscend then
      vadd E.single movement ⟨FloatVal.num 0, FloatVal.num 1, FloatVal.num 0⟩
    else movement
  let movement :=
    if c.holdingDescend then
      vsub E.single movement ⟨FloatVal.num 0, FloatVal.num 1, FloatVal.num 0⟩
    else movement
  let normalizedMovement : Vec3 FloatVal := ⟨FloatVal.num 0, FloatVal.num 0, FloatVal.num 0⟩
  let normalizedMovement :=
    if (length E movement).gt (FloatVal.num 0) then E.normalize movement
    else normalizedMovement
  let framerateIndependentFactor := E.double.mul c.movementSpeedFactor deltaTime
  let normalizedMovement :=
    vscale E.single normalizedMovement (E.single.convert framerateIndependentFactor)
  { c with position := vadd E.single c.position normalizedMovement }

/-! ## The camera in the words of the specification -/

/-- The function `clamp(v, lo, hi)`: `lo` when `v < lo`, else `hi` when `hi < v`, else `v`. -/
def clamp (v lo hi : FloatVal) : FloatVal :=
  if v.lt lo then lo else if hi.lt v then hi else v

/-- The vertical mouse movement `(mouseY - windowMidY) * pitchSensitivity`, as a `float`. -/
def vertMovement (E : FloatEnv) (c : Camera) (mouseY : FloatVal) : FloatVal :=
  E.single.convert (E.double.mul (E.double.sub mouseY (ofInt c.windowMidY)) c.pitchSensitivity)

/-- The horizontal mouse movement `(mouseX - windowMidX) * yawSensitivity`, as a `float`. -/
def horizMovement (E : FloatEnv) (c : Camera) (mouseX : FloatVal) : FloatVal :=
  E.single.convert (E.double.mul (E.double.sub mouseX (ofInt c.windowMidX)) c.yawSensitivity)

/-- The step that keeps the yaw in range, as the comment in the source puts it: one turn is
added to a negative angle, then one turn is taken off an angle above 360. -/
def wrapYaw (E : FloatEnv) (v : FloatVal) : FloatVal :=
  let v1 := if v.lt (FloatVal.num 0) then E.single.add v (FloatVal.num 360) else v
  if v1.gt (FloatVal.num 360) then E.single.sub v1 (FloatVal.num 360) else v1

/-- The properties of round to nearest that the theorems about the camera rest on: rounding is
monotone, leaves the numbers of the format as they are, commutes with the sign, keeps every
integer up to `2 ^ 24` in absolute value, and these integers are finite numbers of the
format. -/
structure FloatFormat.Valid (fmt : FloatFormat) : Prop where
  mono : ∀ a b : ℚ, a ≤ b → fmt.round a ≤ fmt.round b
  idem : ∀ q : ℚ, fmt.round (fmt.round q) = fmt.round q
  odd : ∀ q : ℚ, fmt.round (-q) = -fmt.round q
  exactInt : ∀ n : Int, |n| ≤ 2 ^ 24 → fmt.round n = n
  large : 2 ^ 24 ≤ fmt.maxFinite

/-- The vector with the opposite sign. -/
def vneg (v : Vec3 FloatVal) : Vec3 FloatVal := ⟨v.x.neg, v.y.neg, v.z.neg⟩

/-- The direction of the forward key:
`(sin(yaw) * cos(pitch), -sin(pitch), -cos(yaw) * cos(pitch))`. -/
def forwardDirection (E : FloatEnv) (c : Camera) : Vec3 FloatVal :=
  ⟨E.single.mul (E.sin (E.single.mul c.rotation.y (DEGS_TO_RADS E)))
      (E.cos (E.single.mul c.rotation.x (DEGS_TO_RADS E))),
    (E.sin (E.single.mul c.rotation.x (DEGS_TO_RADS E))).neg,
    E.single.mul (E.cos (E.single.mul c.rotation.y (DEGS_TO_RADS E))).neg
      (E.cos (E.single.mul c.rotation.x (DEGS_TO_RADS E)))⟩

/-- The direction of the right strafe key: `(cos(yaw), 0, sin(yaw))`. -/
def rightDirection (E : FloatEnv) (c : Camera) : Vec3 FloatVal :=
  ⟨E.cos (E.single.mul c.rotation.y (DEGS_TO_RADS E)), FloatVal.num 0,
    E.sin (E.single.mul c.rotation.y (DEGS_TO_RADS E))⟩

/-- The direction of the ascend key: `(0, 1, 0)`. -/
def upDirection : Vec3 FloatVal := ⟨FloatVal.num 0, FloatVal.num 1, FloatVal.num 0⟩

/-- The directions of the held keys, in the order forward, backward, left, right, ascend,
descend; the backward, left and descend keys point against the forward, right and up
directions. -/
def heldDirections (E : FloatEnv) (c : Camera) : List (Vec3 FloatVal) :=
  (if c.holdingForward then [forwardDirection E c] else [])
    ++ (if c.holdingBackward then [vneg (forwardDirection E c)] else [])
    ++ (if c.holdingLeftStrafe then [vneg (rightDirection E c)] else [])
    ++ (if c.holdingRightStrafe then [rightDirection E c] else [])
    ++ (if c.holdingAscend then [upDirection] else [])
    ++ (if c.holdingDescend then [vneg upDirection] else [])

/-- The sum `m` of the directions of the held keys, added up in `float` from the zero
vector. -/
def movementSum (E : FloatEnv) (c : Camera) : Vec3 FloatVal :=
  (heldDirections E c).foldl (vadd E.single) zeroVec

/-- The direction `d` of the move: `normalize(m)` when `length(m) > 0`, else the zero
vector. -/
def moveDirection (E : FloatEnv) (c : Camera) : Vec3 FloatVal :=
  if (length E (movementSum E c)).gt (FloatVal.num 0) then E.normalize (movementSum E c)
  else zeroVec

/-- The factor `movementSpeedFactor * deltaTime`, computed in `double`, as the `float` that
multiplies the direction. -/
def moveFactor (E : FloatEnv) (c : Camera) (deltaTime : FloatVal) : FloatVal :=
  E.single.convert (E.double.mul c.movementSpeedFactor deltaTime)

/-- Whether only opposite keys are held together: of each of the pairs forward and backward,
left and right, ascend and descend, both keys are held or neither is. -/
def onlyOppositeKeysHeld (c : Camera) : Bool :=
  (c.holdingForward == c.holdingBackward) && (c.holdingLeftStrafe == c.holdingRightStrafe)
    && (c.holdingAscend == c.holdingDescend)

/-- A value of the format `fmt`: NaN, an infinity, or a finite number of the format. -/
def FloatFormat.Holds (fmt : FloatFormat) : FloatVal → Prop
  | FloatVal.num q => fmt.round q = q ∧ -fmt.maxFinite ≤ q ∧ q ≤ fmt.maxFinite
  | _ => True

/-- A vector of values of the format `fmt`. -/
def FloatFormat.HoldsVec (fmt : FloatFormat) (v : Vec3 FloatVal) : Prop :=
  fmt.Holds v.x ∧ fmt.Holds v.y ∧ fmt.Holds v.z

/-- A component that is zero or NaN. -/
def ZeroOrNaN (v : FloatVal) : Prop := v = FloatVal.num 0 ∨ v = FloatVal.nan

/-- A vector whose components are zero or NaN. -/
def ZeroOrNaNVec (v : Vec3 FloatVal) : Prop := ZeroOrNaN v.x ∧ ZeroOrNaN v.y ∧ ZeroOrNaN v.z

/-- The largest finite `float`, `(2 - 2 ^ -23) * 2 ^ 127`. -/
def FLT_MAX : ℚ := 2 ^ 128 - 2 ^ 104

/-- The largest finite `double`, `(2 - 2 ^ -52) * 2 ^ 1023`. -/
def DBL_MAX : ℚ := 2 ^ 1024 - 2 ^ 971

/-- An environment in which no operation rounds (every number is a number of both formats
up to the largest finite `float` resp. `double`), used to run the camera on inputs whose
results `float` and `double` hold exactly.  `sin` is taken as 0 and `cos` as 1, `sqrt` and
`normalize` as the identity. -/
def exactEnv : FloatEnv where
  single := ⟨fun q => q, FLT_MAX⟩
  double := ⟨fun q => q, DBL_MAX⟩
  sinQ := fun _ => 0
  cosQ := fun _ => 1
  sqrtQ := fun q => q
  normalize := fun v => v

/-- A camera at the origin that looks down the negative Z axis, as the constructor leaves it
for a window of 800 by 600 pixels, except that both sensitivities have been set to `0.25f`,
a number that `float` holds exactly. -/
def restCamera : Camera where
  position := zeroVec
  rotation := zeroVec
  speed := zeroVec
  movementSpeedFactor := FloatVal.num 200
  pitchSensitivity := FloatVal.num (1 / 4)
  yawSensitivity := FloatVal.num (1 / 4)
  windowMidX := 400
  windowMidY := 300
  holdingForward := false
  holdingBackward := false
  holdingLeftStrafe := false
  holdingRightStrafe := false
  holdingAscend := false
  holdingDescend := false

end CameraModel

namespace ObjModel

/-! # Theorems -/

/-! ## Tokens -/

theorem tokensFrom_length_le (cs : List Char) :
    ∀ cur : List Char, (tokensFrom cur cs).length ≤ cs.length + (if cur = [] then 0 else 1) := by
  induction cs with
  | nil => intro cur; by_cases h : cur = [] <;> simp [tokensFrom, h]
  | cons c cs ih =>
    intro cur
    unfold tokensFrom
    by_cases hc : isspace c = true
    · have h0 := ih []
      by_cases h : cur = []
      · simp [hc, h] at h0 ⊢; omega
      · simp [hc, h] at h0 ⊢; omega
    · have h1 := ih (c :: cur)
      simp [hc] at h1 ⊢
      by_cases h : cur = []
      · subst h; simp; omega
      · simp [h]; omega

theorem tokenize_length_le (line : List Char) : (tokenize line).length ≤ line.length := by
  have h := tokensFrom_length_le line []
  simpa [tokenize] using h

theorem length_of_four_tokens {line : List Char} {a b c d : List Char}
    (h : tokenize line = [a, b, c, d]) : 1 < line.length := by
  have h1 := tokenize_length_le line
  rw [h] at h1
  simp at h1
  omega

/-! ## One line: `parseLine` is `lineItem` followed by `applyItem` -/


theorem getElem?_four (a b c d : List Char) :
    [a, b, c, d][0 + 1]? = some b ∧ [a, b, c, d][0 + 2]? = some c ∧ [a, b, c, d][0 + 3]? = some d
      ∧ [a, b, c, d][3 + 1]? = none := by
  simp

theorem faceBranch_plain {F : Type} (st : ReadState F) (line t0 a b c : List Char)
    (h : findSlashes line = none) :
    faceBranch line [t0, a, b, c] 0 st =
      (plainFaceItem a b c).map fun it => (applyItem st it, 3) := by
  unfold faceBranch plainFaceItem
  obtain ⟨h1, h2, h3, -⟩ := getElem?_four t0 a b c
  simp only [h, List.length_cons, List.length_nil, and_self, if_true, h1, h2, h3,
    Option.bind_eq_bind, Option.some_bind, bind, pure]
  cases ha : atoi a <;> cases hb : atoi b <;> cases hc : atoi c <;> simp [applyItem]

theorem faceBranch_slashed {F : Type} (st : ReadState F) (line t0 a b c : List Char)
    (h : findSlashes line ≠ none) :
    faceBranch line [t0, a, b, c] 0 st =
      (slashedFaceItem a b c).map fun it => (applyItem st it, 3) := by
  unfold faceBranch slashedFaceItem
  obtain ⟨h1, h2, h3, -⟩ := getElem?_four t0 a b c
  simp only [h, List.length_cons, List.length_nil, and_false, if_false, and_self, if_true,
    ne_eq, not_false_eq_true, h1, h2, h3, Option.bind_eq_bind, Option.some_bind, bind, pure]
  cases ha : splitFaceToken a with
  | none => simp
  | some pa =>
    cases hb : splitFaceToken b with
    | none => simp
    | some pb =>
      cases hc : splitFaceToken c with
      | none => simp
      | some pc =>
        obtain ⟨a1, a2⟩ := pa
        obtain ⟨b1, b2⟩ := pb
        obtain ⟨c1, c2⟩ := pc
        simp only [Option.some_bind, Option.bind]
        cases atoi a2 <;> cases atoi b2 <;> cases atoi c2 <;>
          cases atoi a1 <;> cases atoi b1 <;> cases atoi c1 <;> simp [applyItem]


theorem normalBranch_past_end {F : Type} (L : FloatLib F) (st : ReadState F) (a b c d : List Char) :
    normalBranch L [a, b, c, d] 3 st = none := by
  simp [normalBranch]

theorem faceBranch_past_end {F : Type} (st : ReadState F) (line a b c d : List Char) :
    faceBranch line [a, b, c, d] 3 st = none := by
  unfold faceBranch
  by_cases h : findSlashes line = none <;> simp [h]

theorem faceBranch_malformed {F : Type} (st : ReadState F) (line : List Char) (tokens : List (List Char))
    (iter : Nat) (h : tokens.length ≠ 4) :
    faceBranch line tokens iter st = some ({ st with loadedCleanly := false }, iter) := by
  unfold faceBranch
  simp [h]

theorem vertexBranch_four {F : Type} (L : FloatLib F) (st : ReadState F) (t0 x y z : List Char) :
    vertexBranch L [t0, x, y, z] 0 st =
      some (applyItem st (Item.vertex ⟨L.atof x, L.atof y, L.atof z⟩), 3) := by
  simp [vertexBranch, applyItem]

theorem vertexBranch_malformed {F : Type} (L : FloatLib F) (st : ReadState F) (tokens : List (List Char))
    (iter : Nat) (h : tokens.length ≠ 4) :
    vertexBranch L tokens iter st = some (applyItem st Item.malformed, iter) := by
  simp [vertexBranch, applyItem, h]

theorem normalBranch_four {F : Type} (L : FloatLib F) (st : ReadState F) (t0 x y z : List Char) :
    normalBranch L [t0, x, y, z] 0 st =
      some (applyItem st (Item.normal ⟨L.atof x, L.atof y, L.atof z⟩), 3) := by
  simp [normalBranch, applyItem]

theorem normalBranch_malformed {F : Type} (L : FloatLib F) (st : ReadState F) (tokens : List (List Char))
    (iter : Nat) (h : tokens.length ≠ 4) :
    normalBranch L tokens iter st = some (applyItem st Item.malformed, iter) := by
  simp [normalBranch, applyItem, h]


theorem v_ne_vn : (['v'] : List Char) ≠ ['v', 'n'] := by decide
theorem v_ne_f : (['v'] : List Char) ≠ ['f'] := by decide
theorem vn_ne_f : (['v', 'n'] : List Char) ≠ ['f'] := by decide

theorem length_three {α : Type} {rest : List α} (h : rest.length = 3) :
    ∃ x y z, rest = [x, y, z] := by
  rcases rest with _ | ⟨x, _ | ⟨y, _ | ⟨z, _ | ⟨w, rest⟩⟩⟩⟩ <;> simp at h
  exact ⟨x, y, z, rfl⟩

theorem parseLine_eq {F : Type} (L : FloatLib F) (st : ReadState F) (line : List Char) :
    parseLine L st line = (lineItem L line).map (applyItem st) := by
  unfold parseLine lineItem
  rcases htk : tokenize line with _ | ⟨t0, rest⟩
  · simp
  · by_cases hlen : rest.length = 3
    · obtain ⟨x, y, z, rfl⟩ := length_three hlen
      by_cases hv : t0 = ['v']
      · subst hv
        by_cases hz1 : z = ['v', 'n']
        · subst hz1
          simp [vertexBranch_four, normalBranch_past_end]
        · by_cases hz2 : z = ['f']
          · subst hz2
            simp [vertexBranch_four, faceBranch_past_end, vn_ne_f.symm]
          · simp [vertexBranch_four, hz1, hz2]
      · by_cases hn : t0 = ['v', 'n']
        · subst hn
          by_cases hz2 : z = ['f']
          · subst hz2
            simp [normalBranch_four, faceBranch_past_end, v_ne_vn.symm]
          · simp [normalBranch_four, hz2, v_ne_vn.symm]
        · by_cases hf : t0 = ['f']
          · subst hf
            by_cases hs : findSlashes line = none
            · simp [faceBranch_plain _ _ _ _ _ _ hs, hs, v_ne_f.symm, vn_ne_f.symm]
              cases plainFaceItem x y z <;> simp
            · simp [faceBranch_slashed _ _ _ _ _ _ hs, hs, v_ne_f.symm, vn_ne_f.symm]
              cases slashedFaceItem x y z <;> simp
          · simp [hv, hn, hf, applyItem]
    · have h4 : (t0 :: rest).length ≠ 4 := by simpa using hlen
      by_cases hv : t0 = ['v']
      · subst hv
        have : (match rest with
          | [x, y, z] => if z = ['v', 'n'] ∨ z = ['f'] then none
              else some (Item.vertex (⟨L.atof x, L.atof y, L.atof z⟩ : Vec3 F))
          | _ => some Item.malformed) = some Item.malformed := by
          rcases rest with _ | ⟨x, _ | ⟨y, _ | ⟨z, _ | ⟨w, rest⟩⟩⟩⟩ <;> simp at hlen ⊢
        simp [vertexBranch_malformed _ _ _ _ h4, this, applyItem, v_ne_vn, v_ne_f]
      · by_cases hn : t0 = ['v', 'n']
        · subst hn
          have : (match rest with
            | [x, y, z] => if z = ['f'] then none
                else some (Item.normal (⟨L.atof x, L.atof y, L.atof z⟩ : Vec3 F))
            | _ => some Item.malformed) = some Item.malformed := by
            rcases rest with _ | ⟨x, _ | ⟨y, _ | ⟨z, _ | ⟨w, rest⟩⟩⟩⟩ <;> simp at hlen ⊢
          simp [normalBranch_malformed _ _ _ _ h4, this, applyItem, v_ne_vn.symm, vn_ne_f]
        · by_cases hf : t0 = ['f']
          · subst hf
            have : (match rest with
              | [a, b, c] => if findSlashes line = none then (plainFaceItem a b c : Option (Item F))
                  else slashedFaceItem a b c
              | _ => some Item.malformed) = some Item.malformed := by
              rcases rest with _ | ⟨x, _ | ⟨y, _ | ⟨z, _ | ⟨w, rest⟩⟩⟩⟩ <;> simp at hlen ⊢
            simp [faceBranch_malformed _ _ _ _ h4, this, applyItem, v_ne_f.symm, vn_ne_f.symm]
          · simp [hv, hn, hf, applyItem]

/-! ## The loop over the lines -/

theorem readLine_eq {F : Type} (L : FloatLib F) (st : ReadState F) (line : List Char) :
    readLine L st line =
      if st.lineCount < INT_MAX then
        (readItem L line).map (applyItem { st with lineCount := st.lineCount + 1 })
      else none := by
  unfold readLine readItem
  by_cases h : st.lineCount < INT_MAX
  · by_cases h1 : 1 < line.length
    · simp [h, h1, parseLine_eq]
    · simp [h, h1, applyItem]
  · simp [h]

theorem applyItem_lineCount {F : Type} (st : ReadState F) (it : Item F) :
    (applyItem st it).lineCount = st.lineCount := by
  cases it <;> rfl

theorem applyItem_drawingMethod {F : Type} (st : ReadState F) (it : Item F) :
    (applyItem st it).model.drawingMethod = st.model.drawingMethod := by
  cases it <;> rfl

theorem applyItem_data {F : Type} (st : ReadState F) (it : Item F) :
    (applyItem st it).model.vertexData = st.model.vertexData ∧
    (applyItem st it).model.normalData = st.model.normalData ∧
    (applyItem st it).model.faceData = st.model.faceData := by
  cases it <;> exact ⟨rfl, rfl, rfl⟩

theorem applyItem_mk {F : Type} (m : Model F) (c : Bool) (k : Int) (it : Item F) :
    applyItem ⟨m, c, k⟩ it =
      ⟨(applyItem ⟨m, c, 0⟩ it).model, (applyItem ⟨m, c, 0⟩ it).loadedCleanly, k⟩ := by
  cases it <;> rfl

theorem foldl_applyItem_mk {F : Type} (items : List (Item F)) :
    ∀ (m : Model F) (c : Bool) (k : Int),
      items.foldl applyItem ⟨m, c, k⟩ =
        ⟨(items.foldl applyItem ⟨m, c, 0⟩).model,
          (items.foldl applyItem ⟨m, c, 0⟩).loadedCleanly, k⟩ := by
  induction items with
  | nil => intro m c k; rfl
  | cons it items ih =>
    intro m c k
    rw [List.foldl_cons, List.foldl_cons, applyItem_mk m c k, ih, applyItem_mk m c 0]

theorem fileItems_cons {F : Type} (L : FloatLib F) (l : List Char) (ls : List (List Char))
    (items : List (Item F)) :
    fileItems L (l :: ls) = some items ↔
      ∃ it rest, readItem L l = some it ∧ fileItems L ls = some rest ∧ items = it :: rest := by
  rw [fileItems]
  cases h1 : readItem L l <;> cases h2 : fileItems L ls <;> simp [eq_comm]

theorem readLines_eq {F : Type} (L : FloatLib F) (lines : List (List Char)) :
    ∀ (st st1 : ReadState F), st.lineCount ≤ INT_MAX →
      (readLines L st lines = some st1 ↔
        st.lineCount + lines.length ≤ INT_MAX ∧
        ∃ items, fileItems L lines = some items ∧
          st1 = ⟨(items.foldl applyItem st).model, (items.foldl applyItem st).loadedCleanly,
            st.lineCount + lines.length⟩) := by
  induction lines with
  | nil =>
    intro st st1 h0
    simp only [readLines, fileItems, List.length_nil, Nat.cast_zero, add_zero, Option.some.injEq,
      exists_eq_left', List.foldl_nil]
    constructor
    · intro h; subst h; exact ⟨h0, rfl⟩
    · intro h; exact h.2.symm
  | cons l ls ih =>
    intro st st1 h0
    obtain ⟨m, c, k⟩ := st
    rw [readLines, readLine_eq]
    simp only [fileItems_cons, List.length_cons, Nat.cast_add, Nat.cast_one]
    have h0k : k ≤ INT_MAX := h0
    by_cases hlt : k < INT_MAX
    · simp only [hlt, if_true]
      cases hit : readItem L l with
      | none =>
        simp only [Option.map_none', Option.none_bind]
        constructor
        · intro h; cases h
        · rintro ⟨_, items, ⟨it, rest, h, _⟩, _⟩; cases h
      | some it =>
        simp only [Option.map_some', Option.some_bind]
        rw [applyItem_mk m c (k + 1)]
        have hle : k + 1 ≤ INT_MAX := by omega
        rw [ih _ st1 hle]
        have hfold : ∀ items : List (Item F),
            items.foldl applyItem ⟨(applyItem ⟨m, c, 0⟩ it).model,
              (applyItem ⟨m, c, 0⟩ it).loadedCleanly, k + 1⟩ =
            ⟨((it :: items).foldl applyItem ⟨m, c, k⟩).model,
              ((it :: items).foldl applyItem ⟨m, c, k⟩).loadedCleanly, k + 1⟩ := by
          intro items
          rw [foldl_applyItem_mk items, List.foldl_cons, applyItem_mk m c k,
            foldl_applyItem_mk items _ _ k]
        simp only [hfold]
        constructor
        · rintro ⟨h1, items, h2, h3⟩
          refine ⟨by omega, it :: items, ⟨it, items, rfl, h2, rfl⟩, ?_⟩
          rw [h3]
          congr 1
          omega
        · rintro ⟨h1, items, ⟨it1, rest, h2, h3, h4⟩, h5⟩
          cases h2
          subst h4
          refine ⟨by omega, rest, h3, ?_⟩
          rw [h5]
          congr 1
          omega
    · simp only [hlt, if_false, Option.none_bind]
      constructor
      · intro h; cases h
      · rintro ⟨h, _⟩; omega


theorem fileItems_length {F : Type} (L : FloatLib F) (lines : List (List Char)) :
    ∀ items : List (Item F), fileItems L lines = some items → items.length = lines.length := by
  induction lines with
  | nil => intro items h; simp [fileItems] at h; subst h; rfl
  | cons l ls ih =>
    intro items h
    obtain ⟨it, rest, _, h2, rfl⟩ := (fileItems_cons L l ls items).1 h
    simp [ih rest h2]

/-- What the fold of `applyItem` over a list of contributions does to each member. -/
theorem foldl_applyItem_spec {F : Type} (items : List (Item F)) :
    ∀ st : ReadState F,
      st.model.numVertices < GLUINT_MOD → st.model.numNormals < GLUINT_MOD →
      st.model.numFaces < GLUINT_MOD → st.model.numNormalIndices < GLUINT_MOD →
      (items.foldl applyItem st).model.vertices
          = st.model.vertices ++ items.filterMap Item.vertex? ∧
      (items.foldl applyItem st).model.normals
          = st.model.normals ++ items.filterMap Item.normal? ∧
      (items.foldl applyItem st).model.faces
          = st.model.faces ++ items.filterMap Item.face? ∧
      (items.foldl applyItem st).model.normalIndices
          = st.model.normalIndices ++ items.filterMap Item.normalIndex? ∧
      (items.foldl applyItem st).model.numVertices
          = (st.model.numVertices + (items.filterMap Item.vertex?).length) % GLUINT_MOD ∧
      (items.foldl applyItem st).model.numNormals
          = (st.model.numNormals + (items.filterMap Item.normal?).length) % GLUINT_MOD ∧
      (items.foldl applyItem st).model.numFaces
          = (st.model.numFaces + (items.filterMap Item.face?).length) % GLUINT_MOD ∧
      (items.foldl applyItem st).model.numNormalIndices
          = (st.model.numNormalIndices + (items.filterMap Item.normalIndex?).length)
              % GLUINT_MOD ∧
      (items.foldl applyItem st).loadedCleanly
          = (st.loadedCleanly && !items.any Item.isMalformed) ∧
      (items.foldl applyItem st).model.drawingMethod = st.model.drawingMethod ∧
      (items.foldl applyItem st).model.vertexData = st.model.vertexData ∧
      (items.foldl applyItem st).model.normalData = st.model.normalData ∧
      (items.foldl applyItem st).model.faceData = st.model.faceData := by
  induction items with
  | nil =>
    intro st h1 h2 h3 h4
    simp [Nat.mod_eq_of_lt, h1, h2, h3, h4]
  | cons it items ih =>
    intro st h1 h2 h3 h4
    have hM : GLUINT_MOD = 4294967296 := by norm_num [GLUINT_MOD]
    rw [List.foldl_cons]
    have hb : (applyItem st it).model.numVertices < GLUINT_MOD ∧
        (applyItem st it).model.numNormals < GLUINT_MOD ∧
        (applyItem st it).model.numFaces < GLUINT_MOD ∧
        (applyItem st it).model.numNormalIndices < GLUINT_MOD := by
      cases it <;>
        simp only [applyItem, pushVertex, pushNormal, pushFace, pushNormalIndex, hM] at * <;>
        omega
    obtain ⟨i1, i2, i3, i4, i5, i6, i7, i8, i9, i10, i11, i12, i13⟩ :=
      ih (applyItem st it) hb.1 hb.2.1 hb.2.2.1 hb.2.2.2
    rw [i1, i2, i3, i4, i5, i6, i7, i8, i9, i10, i11, i12, i13]
    refine ⟨?_, ?_, ?_, ?_, ?_, ?_, ?_, ?_, ?_, ?_, ?_, ?_, ?_⟩ <;> cases it <;>
      simp [applyItem, pushVertex, pushNormal, pushFace, pushNormalIndex, hM,
        Item.vertex?, Item.normal?, Item.face?, Item.normalIndex?, Item.isMalformed] <;>
      omega

theorem filterMap_length_le_of_fileItems {F α : Type} (L : FloatLib F) (lines : List (List Char))
    (items : List (Item F)) (g : Item F → Option α) (h : fileItems L lines = some items)
    (hlen : (lines.length : Int) ≤ INT_MAX) :
    (items.filterMap g).length < GLUINT_MOD := by
  have h1 := List.length_filterMap_le g items
  have h2 := fileItems_length L lines items h
  have hM : GLUINT_MOD = 4294967296 := by norm_num [GLUINT_MOD]
  have hI : INT_MAX = 2147483647 := by norm_num [INT_MAX]
  rw [hI] at hlen
  omega

/-- The result of `readModelFile` on a file that opens, in terms of the contributions of the
lines. -/
theorem readModelFile_ok_iff {F : Type} (L : FloatLib F) (m0 : Model F)
    (lines : List (List Char)) (c : Bool) (m1 : Model F) :
    readModelFile L (initModel m0) (some lines) = Outcome.ok (c, m1) ↔
      (lines.length : Int) ≤ INT_MAX ∧
      ∃ items, fileItems L lines = some items ∧
        c = !items.any Item.isMalformed ∧ m1 = modelOfItems m0.drawingMethod items := by
  have hM : GLUINT_MOD = 4294967296 := by norm_num [GLUINT_MOD]
  have h0 : (⟨initModel m0, true, 0⟩ : ReadState F).lineCount ≤ INT_MAX := by
    show (0 : Int) ≤ INT_MAX
    norm_num [INT_MAX]
  have key : ∀ items : List (Item F), fileItems L lines = some items →
      (lines.length : Int) ≤ INT_MAX →
      (items.foldl applyItem ⟨initModel m0, true, 0⟩).model = modelOfItems m0.drawingMethod items ∧
      (items.foldl applyItem ⟨initModel m0, true, 0⟩).loadedCleanly
        = !items.any Item.isMalformed := by
    intro items hit hlen
    have hz : (0 : Nat) < GLUINT_MOD := by rw [hM]; norm_num
    obtain ⟨i1, i2, i3, i4, i5, i6, i7, i8, i9, i10, i11, i12, i13⟩ :=
      foldl_applyItem_spec items ⟨initModel m0, true, 0⟩ hz hz hz hz
    have b1 := filterMap_length_le_of_fileItems L lines items Item.vertex? hit hlen
    have b2 := filterMap_length_le_of_fileItems L lines items Item.normal? hit hlen
    have b3 := filterMap_length_le_of_fileItems L lines items Item.face? hit hlen
    have b4 := filterMap_length_le_of_fileItems L lines items Item.normalIndex? hit hlen
    refine ⟨?_, by simpa using i9⟩
    generalize (items.foldl applyItem ⟨initModel m0, true, 0⟩).model = r at *
    obtain ⟨r1, r2, r3, r4, r5, r6, r7, r8, r9, r10, r11, r12⟩ := r
    simp only [initModel, List.nil_append, Nat.zero_add, Nat.mod_eq_of_lt b1,
      Nat.mod_eq_of_lt b2, Nat.mod_eq_of_lt b3, Nat.mod_eq_of_lt b4] at i1 i2 i3 i4 i5 i6 i7 i8 i10 i11 i12 i13
    simp only [modelOfItems, i1, i2, i3, i4, i5, i6, i7, i8, i10, i11, i12, i13]
  unfold readModelFile
  simp only
  constructor
  · intro h
    cases hr : readLines L ⟨initModel m0, true, 0⟩ lines with
    | none => rw [hr] at h; cases h
    | some st =>
      rw [hr] at h
      obtain ⟨hlen, items, hit, hst⟩ := (readLines_eq L lines _ st h0).1 hr
      have hlen1 : (lines.length : Int) ≤ INT_MAX := by simpa using hlen
      obtain ⟨k1, k2⟩ := key items hit hlen1
      refine ⟨hlen1, items, hit, ?_, ?_⟩
      · injection h with h
        have := congrArg Prod.fst h
        simp only at this
        rw [← this, hst, ← k2]
      · injection h with h
        have := congrArg Prod.snd h
        simp only at this
        rw [← this, hst, ← k1]
  · rintro ⟨hlen, items, hit, hc, hm⟩
    obtain ⟨k1, k2⟩ := key items hit hlen
    have hr := (readLines_eq L lines ⟨initModel m0, true, 0⟩ _ h0).2
      ⟨by simpa using hlen, items, hit, rfl⟩
    rw [hr]
    simp only [k1, k2, hc, hm]

theorem fileItems_append {F : Type} (L : FloatLib F) (as bs : List (List Char)) :
    ∀ items : List (Item F), fileItems L (as ++ bs) = some items ↔
      ∃ ia ib, fileItems L as = some ia ∧ fileItems L bs = some ib ∧ items = ia ++ ib := by
  induction as with
  | nil => intro items; simp [fileItems, eq_comm]
  | cons a as ih =>
    intro items
    rw [List.cons_append, fileItems_cons]
    constructor
    · rintro ⟨it, rest, h1, h2, rfl⟩
      obtain ⟨ia, ib, h3, h4, rfl⟩ := (ih rest).1 h2
      exact ⟨it :: ia, ib, (fileItems_cons L a as _).2 ⟨it, ia, h1, h3, rfl⟩, h4, rfl⟩
    · rintro ⟨ia, ib, h1, h2, rfl⟩
      obtain ⟨it, rest, h3, h4, rfl⟩ := (fileItems_cons L a as _).1 h1
      exact ⟨it, rest ++ ib, h3, (ih _).2 ⟨rest, ib, h4, h2, rfl⟩, rfl⟩

theorem fileItems_singleton {F : Type} (L : FloatLib F) (l : List Char) (it : Item F)
    (h : readItem L l = some it) : fileItems L [l] = some [it] := by
  simp [fileItems, h]

theorem isDecimalNumber_ne {t : List Char} (h : isDecimalNumber t = true) :
    t ≠ ['v', 'n'] ∧ t ≠ ['f'] := by
  constructor <;> rintro rfl <;> revert h <;> decide

theorem readItem_vertex {F : Type} (L : FloatLib F) {line x y z : List Char}
    (htok : tokenize line = [['v'], x, y, z]) (hz1 : z ≠ ['v', 'n']) (hz2 : z ≠ ['f']) :
    readItem L line = some (Item.vertex ⟨L.atof x, L.atof y, L.atof z⟩) := by
  simp [readItem, length_of_four_tokens htok, lineItem, htok, hz1, hz2]

/-- Claim C5.  A line made of the token `v` and three more tokens `x`, `y`, `z`, the last of
which is a decimal number, read after any lines `pre` of a file: when `readModelFile`
returns on `pre` and the `int` line counter has room for one more line, it returns on `pre`
followed by the line, with the same flag; the vertex list is that after `pre` with the
single point `(atof x, atof y, atof z)` appended, the vertex count is one more, and the
normal, face and normal-index lists and their counts are those after `pre`.  (The tokens
`x` and `y` may be any tokens, so decimal numbers in particular.) -/
theorem vertex_line_appends_one_point {F : Type} (L : FloatLib F) (m0 : Model F)
    (pre : List (List Char)) (line x y z : List Char) (c : Bool) (m1 : Model F)
    (hpre : readModelFile L (initModel m0) (some pre) = Outcome.ok (c, m1))
    (hroom : (pre.length : Int) < INT_MAX)
    (htok : tokenize line = [['v'], x, y, z])
    (hz : isDecimalNumber z = true) :
    ∃ m2, readModelFile L (initModel m0) (some (pre ++ [line])) = Outcome.ok (c, m2) ∧
      m2.vertices = m1.vertices ++ [⟨L.atof x, L.atof y, L.atof z⟩] ∧
      getNumVertices m2 = getNumVertices m1 + 1 ∧
      m2.normals = m1.normals ∧ m2.faces = m1.faces ∧ m2.normalIndices = m1.normalIndices ∧
      getNumNormals m2 = getNumNormals m1 ∧ getNumFaces m2 = getNumFaces m1 ∧
      getNumNormalIndices m2 = getNumNormalIndices m1 := by
  obtain ⟨_, items, hit, hc, hm⟩ := (readModelFile_ok_iff L m0 pre c m1).1 hpre
  have hv := readItem_vertex L htok (isDecimalNumber_ne hz).1 (isDecimalNumber_ne hz).2
  have hit2 : fileItems L (pre ++ [line])
      = some (items ++ [Item.vertex ⟨L.atof x, L.atof y, L.atof z⟩]) :=
    (fileItems_append L pre [line] _).2 ⟨items, _, hit, fileItems_singleton L line _ hv, rfl⟩
  refine ⟨modelOfItems m0.drawingMethod (items ++ [Item.vertex ⟨L.atof x, L.atof y, L.atof z⟩]),
    ?_, ?_⟩
  · refine (readModelFile_ok_iff L m0 _ c _).2 ⟨?_, _, hit2, ?_, rfl⟩
    · simp only [List.length_append, List.length_singleton, Nat.cast_add, Nat.cast_one]
      omega
    · simp [hc, Item.isMalformed]
  · subst hm
    simp [modelOfItems, getNumVertices, getNumNormals, getNumFaces, getNumNormalIndices,
      Item.vertex?, Item.normal?, Item.face?, Item.normalIndex?]

/-- Witness of `vertex_line_appends_one_point`: the line `v 1.5 -2 3` read after the line
`v 0 0 0`. -/
theorem vertex_line_appends_one_point_witness :
    ∃ m2, readModelFile intLib (initModel (construct DrawingMethod.DRAWING_AS_ARRAYS))
        (some (["v 0 0 0".toList] ++ ["v 1.5 -2 3".toList]))
        = Outcome.ok (true, m2) ∧
      m2.vertices = (modelOfItems DrawingMethod.DRAWING_AS_ARRAYS
          [Item.vertex (⟨0, 0, 0⟩ : Vec3 Int)]).vertices
        ++ [⟨intLib.atof "1.5".toList, intLib.atof "-2".toList, intLib.atof "3".toList⟩] ∧
      getNumVertices m2 = getNumVertices (modelOfItems DrawingMethod.DRAWING_AS_ARRAYS
          [Item.vertex (⟨0, 0, 0⟩ : Vec3 Int)]) + 1 ∧
      m2.normals = [] ∧ m2.faces = [] ∧ m2.normalIndices = [] ∧
      getNumNormals m2 = 0 ∧ getNumFaces m2 = 0 ∧ getNumNormalIndices m2 = 0 :=
  vertex_line_appends_one_point intLib (construct DrawingMethod.DRAWING_AS_ARRAYS)
    ["v 0 0 0".toList] "v 1.5 -2 3".toList "1.5".toList "-2".toList "3".toList true
    (modelOfItems DrawingMethod.DRAWING_AS_ARRAYS [Item.vertex (⟨0, 0, 0⟩ : Vec3 Int)])
    (by decide) (by decide) (by decide) (by decide)

/-! ## Numerals, `//` and the rounding to `float` -/

theorem f32OfNat_of_le {n : Nat} (h : n ≤ 16777216) : f32OfNat n = n := by
  rcases Nat.lt_or_ge n 16777216 with h1 | h1
  · have : f32Shift 64 n = 0 := by simp [f32Shift, h1]
    simp [f32OfNat, this, Nat.mod_one]
  · have : n = 16777216 := by omega
    subst this
    decide

theorem f32OfInt_of_le {i : Int} (h0 : 0 ≤ i) (h : i ≤ 16777216) : f32OfInt i = i := by
  have h1 : ¬ i < 0 := by omega
  have h2 : i.toNat ≤ 16777216 := by omega
  simp only [f32OfInt, h1, if_false, f32OfNat_of_le h2]
  omega

theorem toGLuint_of_nonneg {i : Int} (h0 : 0 ≤ i) (h : i < 4294967296) :
    toGLuint i = i.toNat := by
  unfold toGLuint
  rw [Int.emod_eq_of_lt h0 (by norm_num; exact h)]

theorem readDigits_append (ds : List Char) :
    ∀ (acc : Nat) (rest : List Char), ds.all isdigit = true →
      (∀ c r, rest = c :: r → isdigit c = false) →
      readDigits acc (ds ++ rest) = ds.foldl (fun a c => a * 10 + (c.toNat - 48)) acc := by
  induction ds with
  | nil =>
    intro acc rest _ hr
    cases rest with
    | nil => rfl
    | cons c r => simp [readDigits, hr c r rfl]
  | cons d ds ih =>
    intro acc rest hd hr
    simp only [List.all_cons, Bool.and_eq_true] at hd
    simp only [List.cons_append, readDigits, hd.1, if_true, List.foldl_cons]
    exact ih _ rest hd.2 hr

theorem isdigit_facts {c : Char} (h : isdigit c = true) :
    isspace c = false ∧ c ≠ '-' ∧ c ≠ '+' ∧ c ≠ '/' := by
  simp only [isdigit, Bool.and_eq_true, decide_eq_true_eq] at h
  refine ⟨?_, ?_, ?_, ?_⟩
  · simp only [isspace, Bool.or_eq_false_iff, decide_eq_false_iff_not]
    refine ⟨⟨⟨⟨⟨?_, ?_⟩, ?_⟩, ?_⟩, ?_⟩, ?_⟩ <;> first | (rintro rfl; revert h; decide) | omega
  · rintro rfl; revert h; decide
  · rintro rfl; revert h; decide
  · rintro rfl; revert h; decide

theorem decimalValue_digits {ds rest : List Char} (hd : isDecimalInteger ds = true)
    (hr : ∀ c r, rest = c :: r → isdigit c = false) :
    decimalValue (ds ++ rest) = (decimalNat ds : Int) := by
  simp only [isDecimalInteger, Bool.and_eq_true, Bool.not_eq_true', List.isEmpty_eq_false] at hd
  obtain ⟨hne, hall⟩ := hd
  cases ds with
  | nil => simp at hne
  | cons d ds =>
    have hd0 : isdigit d = true := by simp only [List.all_cons, Bool.and_eq_true] at hall; exact hall.1
    obtain ⟨f1, f2, f3, _⟩ := isdigit_facts hd0
    have hdw : List.dropWhile isspace (d :: ds ++ rest) = d :: (ds ++ rest) := by
      simp [List.dropWhile, f1]
    have := readDigits_append (d :: ds) 0 rest hall hr
    unfold decimalValue
    rw [hdw]
    split
    · rename_i h; simp at h; exact absurd h.1 f2
    · rename_i h; simp at h; exact absurd h.1 f3
    · simp only [List.cons_append] at this
      rw [this, decimalNat]

theorem atoi_digits {ds rest : List Char} (hd : isDecimalInteger ds = true)
    (hr : ∀ c r, rest = c :: r → isdigit c = false) (hle : decimalNat ds ≤ 2147483647) :
    atoi (ds ++ rest) = some (decimalNat ds : Int) := by
  unfold atoi
  rw [decimalValue_digits hd hr]
  simp only [INT_MIN, INT_MAX]
  rw [if_pos]
  constructor <;> omega

theorem findSlashesFrom_eq_none (s : List Char) :
    ∀ i, findSlashesFrom i s = none ↔ containsSlashes s = false := by
  induction s with
  | nil => intro i; simp [findSlashesFrom, containsSlashes]
  | cons a s ih =>
    intro i
    cases s with
    | nil => simp [findSlashesFrom, containsSlashes]
    | cons b cs =>
      by_cases h : a = '/' ∧ b = '/'
      · simp [findSlashesFrom, containsSlashes, h]
      · have h1 : (decide (a = '/') && decide (b = '/')) = false := by
          simpa using h
        simp only [findSlashesFrom, h, if_false, containsSlashes, h1, Bool.false_or]
        exact ih (i + 1)

theorem findSlashes_eq_none (s : List Char) :
    findSlashes s = none ↔ containsSlashes s = false :=
  findSlashesFrom_eq_none s 0

theorem containsSlashes_cons_of_ne {c : Char} (hc : c ≠ '/') (b : List Char) :
    containsSlashes (c :: b) = containsSlashes b := by
  cases b with
  | nil => rfl
  | cons b0 bs => simp [containsSlashes, hc]

theorem containsSlashes_append_sep {c : Char} (hc : c ≠ '/') (a : List Char) :
    ∀ b : List Char, containsSlashes (a ++ c :: b) = (containsSlashes a || containsSlashes b) := by
  induction a with
  | nil => intro b; simp [containsSlashes_cons_of_ne hc, containsSlashes]
  | cons a0 as ih =>
    intro b
    cases as with
    | nil =>
      have := containsSlashes_cons_of_ne hc b
      simp [containsSlashes, hc, this]
    | cons a1 as =>
      have := ih b
      simp only [List.cons_append] at this ⊢
      simp only [containsSlashes, this, Bool.or_assoc]

theorem isspace_ne_slash {c : Char} (h : isspace c = true) : c ≠ '/' := by
  rintro rfl; revert h; decide

theorem tokensFrom_any_containsSlashes (cs : List Char) :
    ∀ cur : List Char,
      (tokensFrom cur cs).any containsSlashes = containsSlashes (cur.reverse ++ cs) := by
  induction cs with
  | nil =>
    intro cur
    by_cases h : cur = []
    · subst h; simp [tokensFrom, containsSlashes]
    · simp [tokensFrom, h]
  | cons c cs ih =>
    intro cur
    unfold tokensFrom
    by_cases hc : isspace c = true
    · have h0 := ih []
      simp only [List.reverse_nil, List.nil_append] at h0
      rw [containsSlashes_append_sep (isspace_ne_slash hc)]
      by_cases h : cur = []
      · subst h; simp [hc, h0, containsSlashes]
      · simp [hc, h, h0]
    · have h1 := ih (c :: cur)
      simp only [List.reverse_cons, List.append_assoc, List.singleton_append] at h1
      simp [hc, h1]

theorem tokenize_any_containsSlashes (line : List Char) :
    (tokenize line).any containsSlashes = containsSlashes line := by
  simpa [tokenize] using tokensFrom_any_containsSlashes line []

theorem containsSlashes_digits {ds : List Char} (h : ds.all isdigit = true) :
    containsSlashes ds = false := by
  induction ds with
  | nil => rfl
  | cons d ds ih =>
    simp only [List.all_cons, Bool.and_eq_true] at h
    rw [containsSlashes_cons_of_ne (isdigit_facts h.1).2.2.2]
    exact ih h.2

theorem findSlashesFrom_digits (ds : List Char) :
    ∀ (i : Nat) (x : List Char), ds.all isdigit = true →
      findSlashesFrom i (ds ++ '/' :: '/' :: x) = some (i + ds.length) := by
  induction ds with
  | nil => intro i x _; simp [findSlashesFrom]
  | cons d ds ih =>
    intro i x h
    simp only [List.all_cons, Bool.and_eq_true] at h
    have hd := (isdigit_facts h.1).2.2.2
    have := ih (i + 1) x h.2
    cases ds with
    | nil =>
      simp only [List.nil_append, List.length_nil, add_zero] at this
      simp [findSlashesFrom, hd, this]
    | cons e es =>
      simp only [List.cons_append] at this ⊢
      simp only [findSlashesFrom, hd, false_and, if_false, this, List.length_cons]
      congr 1; omega

theorem splitFaceToken_digits {ds x : List Char} (h : ds.all isdigit = true) :
    splitFaceToken (ds ++ '/' :: '/' :: x) = some (ds, x) := by
  have hf : findSlashes (ds ++ '/' :: '/' :: x) = some ds.length := by
    simpa using findSlashesFrom_digits ds 0 x h
  have hx : ¬ (x.length + 1 + 1 < 2) := by omega
  simp [splitFaceToken, hf, substr, hx]

/-! ## One more line at the end of a file -/

theorem modelOfItems_snoc {F : Type} (dm : DrawingMethod) (items : List (Item F)) (it : Item F)
    (c : Bool) (k : Int) (hlen : items.length + 1 < GLUINT_MOD) :
    modelOfItems dm (items ++ [it]) = (applyItem ⟨modelOfItems dm items, c, k⟩ it).model := by
  have h1 := List.length_filterMap_le (Item.vertex? (F := F)) items
  have h2 := List.length_filterMap_le (Item.normal? (F := F)) items
  have h3 := List.length_filterMap_le (Item.face? (F := F)) items
  have h4 := List.length_filterMap_le (Item.normalIndex? (F := F)) items
  have hM : GLUINT_MOD = 4294967296 := by norm_num [GLUINT_MOD]
  rw [hM] at hlen
  cases it <;>
    simp [modelOfItems, applyItem, pushVertex, pushNormal, pushFace, pushNormalIndex,
      Item.vertex?, Item.normal?, Item.face?, Item.normalIndex?, hM] <;>
    omega

/-- Reading one more line: the flag and the model after `pre ++ [line]` are those after
`pre` with the contribution of the line applied. -/
theorem readModelFile_snoc {F : Type} (L : FloatLib F) (m0 : Model F)
    (pre : List (List Char)) (line : List Char) (c : Bool) (m1 : Model F) (it : Item F)
    (hpre : readModelFile L (initModel m0) (some pre) = Outcome.ok (c, m1))
    (hroom : (pre.length : Int) < INT_MAX)
    (hit : readItem L line = some it) :
    readModelFile L (initModel m0) (some (pre ++ [line]))
      = Outcome.ok ((applyItem ⟨m1, c, 0⟩ it).loadedCleanly, (applyItem ⟨m1, c, 0⟩ it).model) := by
  obtain ⟨hl, items, hitems, hc, hm⟩ := (readModelFile_ok_iff L m0 pre c m1).1 hpre
  have hI : INT_MAX = 2147483647 := by norm_num [INT_MAX]
  have hM : GLUINT_MOD = 4294967296 := by norm_num [GLUINT_MOD]
  have hlen := fileItems_length L pre items hitems
  refine (readModelFile_ok_iff L m0 _ _ _).2 ⟨?_, items ++ [it], ?_, ?_, ?_⟩
  · simp only [List.length_append, List.length_singleton, Nat.cast_add, Nat.cast_one]
    omega
  · exact (fileItems_append L pre [line] _).2
      ⟨items, [it], hitems, fileItems_singleton L line it hit, rfl⟩
  · subst hc
    cases it <;> simp [applyItem, Item.isMalformed]
  · subst hm
    exact (modelOfItems_snoc _ items it c 0 (by rw [hM, hlen]; rw [hI] at hroom; omega)).symm

/-! ## Face lines -/

theorem atoi_small {ds rest : List Char} (hd : isDecimalInteger ds = true)
    (hr : ∀ c r, rest = c :: r → isdigit c = false) (hle : decimalNat ds ≤ 16777216) :
    atoi (ds ++ rest) = some (decimalNat ds : Int) :=
  atoi_digits hd hr (by omega)

theorem stored_plain {n : Nat} (h : n ≤ 16777216) :
    ((f32OfNat (toGLuint (n : Int)) : Nat) : Int) = (n : Int) := by
  rw [toGLuint_of_nonneg (by omega) (by omega)]
  simp [f32OfNat_of_le h]

theorem stored_slashed {n : Nat} (h : n ≤ 16777216) : f32OfInt (n : Int) = (n : Int) :=
  f32OfInt_of_le (by omega) (by omega)

theorem isDecimalInteger_all {ds : List Char} (h : isDecimalInteger ds = true) :
    ds.all isdigit = true := by
  simp only [isDecimalInteger, Bool.and_eq_true] at h
  exact h.2

theorem readItem_face_plain {F : Type} (L : FloatLib F) {line a b c : List Char}
    (htok : tokenize line = [['f'], a, b, c])
    (ha : isDecimalInteger a = true) (hb : isDecimalInteger b = true)
    (hc : isDecimalInteger c = true)
    (la : decimalNat a ≤ 16777216) (lb : decimalNat b ≤ 16777216) (lc : decimalNat c ≤ 16777216) :
    readItem L line
      = some (Item.face ⟨(decimalNat a : Int), (decimalNat b : Int), (decimalNat c : Int)⟩) := by
  have hs : findSlashes line = none := by
    rw [findSlashes_eq_none, ← tokenize_any_containsSlashes, htok]
    simp [containsSlashes_digits (isDecimalInteger_all ha),
      containsSlashes_digits (isDecimalInteger_all hb),
      containsSlashes_digits (isDecimalInteger_all hc), containsSlashes]
  have hnil : ∀ (c : Char) (r : List Char), ([] : List Char) = c :: r → isdigit c = false := by
    intro c r h; cases h
  have h1 := atoi_small ha hnil la
  have h2 := atoi_small hb hnil lb
  have h3 := atoi_small hc hnil lc
  simp only [List.append_nil] at h1 h2 h3
  simp [readItem, length_of_four_tokens htok, lineItem, htok, hs, plainFaceItem, h1, h2, h3,
    stored_plain la, stored_plain lb, stored_plain lc, v_ne_f.symm, vn_ne_f.symm]

theorem readItem_face_slashed {F : Type} (L : FloatLib F) {line a b c x y z : List Char}
    (htok : tokenize line
      = [['f'], a ++ ['/', '/'] ++ x, b ++ ['/', '/'] ++ y, c ++ ['/', '/'] ++ z])
    (ha : isDecimalInteger a = true) (hb : isDecimalInteger b = true)
    (hc : isDecimalInteger c = true) (hx : isDecimalInteger x = true)
    (hy : isDecimalInteger y = true) (hz : isDecimalInteger z = true)
    (la : decimalNat a ≤ 16777216) (lb : decimalNat b ≤ 16777216) (lc : decimalNat c ≤ 16777216)
    (lx : decimalNat x ≤ 16777216) (ly : decimalNat y ≤ 16777216)
    (lz : decimalNat z ≤ 16777216) :
    readItem L line
      = some (Item.faceWithNormals
          ⟨(decimalNat a : Int), (decimalNat b : Int), (decimalNat c : Int)⟩
          ⟨(decimalNat x : Int), (decimalNat y : Int), (decimalNat z : Int)⟩) := by
  simp only [List.append_assoc, List.cons_append, List.nil_append] at htok
  have hca : containsSlashes (a ++ '/' :: '/' :: x) = true := by
    have h := findSlashesFrom_digits a 0 x (isDecimalInteger_all ha)
    have h2 := findSlashes_eq_none (a ++ '/' :: '/' :: x)
    unfold findSlashes at h2
    rw [h] at h2
    simpa using h2
  have hs : findSlashes line ≠ none := by
    rw [Ne, findSlashes_eq_none, ← tokenize_any_containsSlashes, htok]
    simp [hca]
  have hnil : ∀ (c : Char) (r : List Char), ([] : List Char) = c :: r → isdigit c = false := by
    intro c r h; cases h
  have h1 := atoi_small ha hnil la
  have h2 := atoi_small hb hnil lb
  have h3 := atoi_small hc hnil lc
  have h4 := atoi_small hx hnil lx
  have h5 := atoi_small hy hnil ly
  have h6 := atoi_small hz hnil lz
  simp only [List.append_nil] at h1 h2 h3 h4 h5 h6
  simp [readItem, length_of_four_tokens htok, lineItem, htok, hs, slashedFaceItem,
    splitFaceToken_digits (isDecimalInteger_all ha), splitFaceToken_digits (isDecimalInteger_all hb),
    splitFaceToken_digits (isDecimalInteger_all hc), h1, h2, h3, h4, h5, h6,
    stored_slashed la, stored_slashed lb, stored_slashed lc, stored_slashed lx,
    stored_slashed ly, stored_slashed lz, v_ne_f.symm, vn_ne_f.symm]

/-! ## Face lines whose numbers carry a sign -/

/-- A signed decimal integer token is a sign followed by digits, or digits alone. -/
theorem isSignedDecimalInteger_cases {t : List Char} (h : isSignedDecimalInteger t = true) :
    (∃ r, t = '-' :: r ∧ isDecimalInteger r = true ∧
        signedDecimalValue t = -((decimalNat r : Nat) : Int)) ∨
    (∃ r, t = '+' :: r ∧ isDecimalInteger r = true ∧
        signedDecimalValue t = ((decimalNat r : Nat) : Int)) ∨
    (isDecimalInteger t = true ∧ signedDecimalValue t = ((decimalNat t : Nat) : Int)) := by
  cases t with
  | nil => simp [isSignedDecimalInteger, isDecimalInteger] at h
  | cons c r =>
    by_cases h1 : c = '-'
    · subst h1
      left
      exact ⟨r, rfl, by simpa [isSignedDecimalInteger] using h, rfl⟩
    · by_cases h2 : c = '+'
      · subst h2
        right; left
        exact ⟨r, rfl, by simpa [isSignedDecimalInteger] using h, rfl⟩
      · right; right
        constructor
        · unfold isSignedDecimalInteger at h
          split at h
          · rename_i heq; cases heq; exact absurd rfl h1
          · rename_i heq; cases heq; exact absurd rfl h2
          · exact h
        · unfold signedDecimalValue
          split
          · rename_i heq; cases heq; exact absurd rfl h1
          · rename_i heq; cases heq; exact absurd rfl h2
          · rfl

theorem readDigits_digits {ds : List Char} (h : ds.all isdigit = true) :
    readDigits 0 ds = decimalNat ds := by
  have := readDigits_append ds 0 [] h (by intro c r hh; cases hh)
  simpa [decimalNat] using this

theorem decimalValue_signed {t : List Char} (h : isSignedDecimalInteger t = true) :
    decimalValue t = signedDecimalValue t := by
  rcases isSignedDecimalInteger_cases h with ⟨r, rfl, hr, hv⟩ | ⟨r, rfl, hr, hv⟩ | ⟨ht, hv⟩
  · rw [hv]
    have hdw : List.dropWhile isspace ('-' :: r) = '-' :: r := by
      simp [List.dropWhile, isspace]
    unfold decimalValue
    rw [hdw]
    simp only [readDigits_digits (isDecimalInteger_all hr)]
  · rw [hv]
    have hdw : List.dropWhile isspace ('+' :: r) = '+' :: r := by
      simp [List.dropWhile, isspace]
    unfold decimalValue
    rw [hdw]
    simp only [readDigits_digits (isDecimalInteger_all hr)]
  · rw [hv]
    have := @decimalValue_digits t [] ht (by intro c r hh; cases hh)
    simpa using this

theorem atoi_signed {t : List Char} (h : isSignedDecimalInteger t = true)
    (h1 : -16777216 ≤ signedDecimalValue t) (h2 : signedDecimalValue t ≤ 16777216) :
    atoi t = some (signedDecimalValue t) := by
  unfold atoi
  rw [decimalValue_signed h]
  simp only [INT_MIN, INT_MAX]
  rw [if_pos]
  constructor <;> omega

theorem signed_no_slash {t : List Char} (h : isSignedDecimalInteger t = true) :
    ∀ c ∈ t, c ≠ '/' := by
  have hd : ∀ r : List Char, isDecimalInteger r = true → ∀ c ∈ r, c ≠ '/' := by
    intro r hr c hc
    have := List.all_eq_true.1 (isDecimalInteger_all hr) c hc
    exact (isdigit_facts this).2.2.2
  rcases isSignedDecimalInteger_cases h with ⟨r, rfl, hr, -⟩ | ⟨r, rfl, hr, -⟩ | ⟨ht, -⟩
  · intro c hc
    rcases List.mem_cons.1 hc with rfl | hc
    · decide
    · exact hd r hr c hc
  · intro c hc
    rcases List.mem_cons.1 hc with rfl | hc
    · decide
    · exact hd r hr c hc
  · exact hd t ht

theorem containsSlashes_of_no_slash {t : List Char} (h : ∀ c ∈ t, c ≠ '/') :
    containsSlashes t = false := by
  induction t with
  | nil => rfl
  | cons d ds ih =>
    rw [containsSlashes_cons_of_ne (h d (List.mem_cons_self d ds))]
    exact ih (fun c hc => h c (List.mem_cons_of_mem d hc))

theorem findSlashesFrom_of_no_slash (t : List Char) :
    ∀ (i : Nat) (x : List Char), (∀ c ∈ t, c ≠ '/') →
      findSlashesFrom i (t ++ '/' :: '/' :: x) = some (i + t.length) := by
  induction t with
  | nil => intro i x _; simp [findSlashesFrom]
  | cons d ds ih =>
    intro i x h
    have hd := h d (List.mem_cons_self d ds)
    have := ih (i + 1) x (fun c hc => h c (List.mem_cons_of_mem d hc))
    cases ds with
    | nil =>
      simp only [List.nil_append, List.length_nil, add_zero] at this
      simp [findSlashesFrom, hd, this]
    | cons e es =>
      simp only [List.cons_append] at this ⊢
      simp only [findSlashesFrom, hd, false_and, if_false, this, List.length_cons]
      congr 1; omega

theorem splitFaceToken_of_no_slash {t x : List Char} (h : ∀ c ∈ t, c ≠ '/') :
    splitFaceToken (t ++ '/' :: '/' :: x) = some (t, x) := by
  have hf : findSlashes (t ++ '/' :: '/' :: x) = some t.length := by
    simpa using findSlashesFrom_of_no_slash t 0 x h
  have hx : ¬ (x.length + 1 + 1 < 2) := by omega
  simp [splitFaceToken, hf, substr, hx]

theorem stored_slashed_signed {v : Int} (h1 : -16777216 ≤ v) (h2 : v ≤ 16777216) :
    f32OfInt v = v := by
  by_cases h0 : 0 ≤ v
  · exact f32OfInt_of_le h0 h2
  · have hneg : v < 0 := by omega
    have hn : v.natAbs ≤ 16777216 := by omega
    simp only [f32OfInt, hneg, if_true, f32OfNat_of_le hn]
    omega

theorem stored_plain_int {v : Int} (h1 : 0 ≤ v) (h2 : v ≤ 16777216) :
    ((f32OfNat (toGLuint v) : Nat) : Int) = v := by
  rw [toGLuint_of_nonneg h1 (by omega)]
  have : v.toNat ≤ 16777216 := by omega
  rw [f32OfNat_of_le this]
  omega

theorem readItem_face_plain_signed {F : Type} (L : FloatLib F) {line a b c : List Char}
    (htok : tokenize line = [['f'], a, b, c])
    (ha : isSignedDecimalInteger a = true) (hb : isSignedDecimalInteger b = true)
    (hc : isSignedDecimalInteger c = true)
    (la : 0 ≤ signedDecimalValue a ∧ signedDecimalValue a ≤ 16777216)
    (lb : 0 ≤ signedDecimalValue b ∧ signedDecimalValue b ≤ 16777216)
    (lc : 0 ≤ signedDecimalValue c ∧ signedDecimalValue c ≤ 16777216) :
    readItem L line
      = some (Item.face ⟨signedDecimalValue a, signedDecimalValue b, signedDecimalValue c⟩) := by
  have hs : findSlashes line = none := by
    rw [findSlashes_eq_none, ← tokenize_any_containsSlashes, htok]
    simp [containsSlashes_of_no_slash (signed_no_slash ha),
      containsSlashes_of_no_slash (signed_no_slash hb),
      containsSlashes_of_no_slash (signed_no_slash hc), containsSlashes]
  have h1 := atoi_signed ha (by omega) la.2
  have h2 := atoi_signed hb (by omega) lb.2
  have h3 := atoi_signed hc (by omega) lc.2
  simp [readItem, length_of_four_tokens htok, lineItem, htok, hs, plainFaceItem, h1, h2, h3,
    stored_plain_int la.1 la.2, stored_plain_int lb.1 lb.2, stored_plain_int lc.1 lc.2,
    v_ne_f.symm, vn_ne_f.symm]

theorem readItem_face_slashed_signed {F : Type} (L : FloatLib F)
    {line a b c x y z : List Char}
    (htok : tokenize line
      = [['f'], a ++ ['/', '/'] ++ x, b ++ ['/', '/'] ++ y, c ++ ['/', '/'] ++ z])
    (ha : isSignedDecimalInteger a = true) (hb : isSignedDecimalInteger b = true)
    (hc : isSignedDecimalInteger c = true) (hx : isSignedDecimalInteger x = true)
    (hy : isSignedDecimalInteger y = true) (hz : isSignedDecimalInteger z = true)
    (la : -16777216 ≤ signedDecimalValue a ∧ signedDecimalValue a ≤ 16777216)
    (lb : -16777216 ≤ signedDecimalValue b ∧ signedDecimalValue b ≤ 16777216)
    (lc : -16777216 ≤ signedDecimalValue c ∧ signedDecimalValue c ≤ 16777216)
    (lx : -16777216 ≤ signedDecimalValue x ∧ signedDecimalValue x ≤ 16777216)
    (ly : -16777216 ≤ signedDecimalValue y ∧ signedDecimalValue y ≤ 16777216)
    (lz : -16777216 ≤ signedDecimalValue z ∧ signedDecimalValue z ≤ 16777216) :
    readItem L line
      = some (Item.faceWithNormals
          ⟨signedDecimalValue a, signedDecimalValue b, signedDecimalValue c⟩
          ⟨signedDecimalValue x, signedDecimalValue y, signedDecimalValue z⟩) := by
  simp only [List.append_assoc, List.cons_append, List.nil_append] at htok
  have hca : containsSlashes (a ++ '/' :: '/' :: x) = true := by
    have h := findSlashesFrom_of_no_slash a 0 x (signed_no_slash ha)
    have h2 := findSlashes_eq_none (a ++ '/' :: '/' :: x)
    unfold findSlashes at h2
    rw [h] at h2
    simpa using h2
  have hs : findSlashes line ≠ none := by
    rw [Ne, findSlashes_eq_none, ← tokenize_any_containsSlashes, htok]
    simp [hca]
  have h1 := atoi_signed ha la.1 la.2
  have h2 := atoi_signed hb lb.1 lb.2
  have h3 := atoi_signed hc lc.1 lc.2
  have h4 := atoi_signed hx lx.1 lx.2
  have h5 := atoi_signed hy ly.1 ly.2
  have h6 := atoi_signed hz lz.1 lz.2
  simp [readItem, length_of_four_tokens htok, lineItem, htok, hs, slashedFaceItem,
    splitFaceToken_of_no_slash (signed_no_slash ha),
    splitFaceToken_of_no_slash (signed_no_slash hb),
    splitFaceToken_of_no_slash (signed_no_slash hc), h1, h2, h3, h4, h5, h6,
    stored_slashed_signed la.1 la.2, stored_slashed_signed lb.1 lb.2,
    stored_slashed_signed lc.1 lc.2, stored_slashed_signed lx.1 lx.2,
    stored_slashed_signed ly.1 ly.2, stored_slashed_signed lz.1 lz.2,
    v_ne_f.symm, vn_ne_f.symm]

/-- Claim C10, counterexample.  The file whose only line is `f 16777217 1 2`: the line is
the token `f` followed by three decimal integers, `readModelFile` returns, and the face it
stores is `(16777216, 1, 2)`, not the numbers of the file: a `vec3` holds `float`s, and
`16777217` is not a `float`.  The same happens on the line `f 16777217//1 1//1 2//1`.  On
the line `f -1 2 3` the number `-1` goes through a `GLuint` first and the face stored is
`(4294967296, 2, 3)`. -/
theorem face_line_number_not_stored_unchanged :
    tokenize "f 16777217 1 2".toList = [['f'], "16777217".toList, "1".toList, "2".toList] ∧
    isDecimalInteger "16777217".toList = true ∧ decimalNat "16777217".toList = 16777217 ∧
    decimalNat "1".toList = 1 ∧ decimalNat "2".toList = 2 ∧
    (∃ m, readModelFile intLib (initModel (construct DrawingMethod.DRAWING_AS_ARRAYS))
        (some ["f 16777217 1 2".toList]) = Outcome.ok (true, m) ∧
      m.faces = [⟨16777216, 1, 2⟩] ∧ m.faces ≠ [⟨16777217, 1, 2⟩] ∧ getNumFaces m = 1) ∧
    (∃ m, readModelFile intLib (initModel (construct DrawingMethod.DRAWING_AS_ARRAYS))
        (some ["f 16777217//1 1//1 2//1".toList]) = Outcome.ok (true, m) ∧
      m.faces = [⟨16777216, 1, 2⟩] ∧ m.faces ≠ [⟨16777217, 1, 2⟩] ∧
      m.normalIndices = [⟨1, 1, 1⟩]) ∧
    tokenize "f -1 2 3".toList = [['f'], "-1".toList, "2".toList, "3".toList] ∧
    isSignedDecimalInteger "-1".toList = true ∧ signedDecimalValue "-1".toList = -1 ∧
    (∃ m, readModelFile intLib (initModel (construct DrawingMethod.DRAWING_AS_ARRAYS))
        (some ["f -1 2 3".toList]) = Outcome.ok (true, m) ∧
      m.faces = [⟨4294967296, 2, 3⟩] ∧ m.faces ≠ [⟨-1, 2, 3⟩] ∧ getNumFaces m = 1) :=
  ⟨by decide, by decide, by decide, by decide, by decide,
    ⟨modelOfItems DrawingMethod.DRAWING_AS_ARRAYS [Item.face ⟨16777216, 1, 2⟩],
      by decide, by decide, by decide, by decide⟩,
    ⟨modelOfItems DrawingMethod.DRAWING_AS_ARRAYS
        [Item.faceWithNormals ⟨16777216, 1, 2⟩ ⟨1, 1, 1⟩],
      by decide, by decide, by decide, by decide⟩,
    by decide, by decide, by decide,
    ⟨modelOfItems DrawingMethod.DRAWING_AS_ARRAYS [Item.face ⟨4294967296, 2, 3⟩],
      by decide, by decide, by decide, by decide⟩⟩

/-- Claim C10, amended.  Let `readModelFile` return on the lines `pre`, the line counter
having room for one more line.  A decimal integer is an optional sign followed by digits.
After a further line `f a//x b//y c//z` with `a`, `b`, `c`, `x`, `y`, `z` decimal integers
of absolute value at most 16777216, `readModelFile` returns with the same flag, the face
list has `(a, b, c)` appended, the normal-index list has `(x, y, z)` appended and both
counts are one more.  After a further line `f a b c` with `a`, `b`, `c` decimal integers
between 0 and 16777216, it returns with the same flag, the face list has `(a, b, c)`
appended and its count is one more, and the normal-index list and its count are unchanged.
In both cases the vertex and normal lists are unchanged and the stored numbers are those of
the file. -/
theorem face_line_stores_numbers {F : Type} (L : FloatLib F) (m0 : Model F)
    (pre : List (List Char)) (flag : Bool) (m1 : Model F)
    (hpre : readModelFile L (initModel m0) (some pre) = Outcome.ok (flag, m1))
    (hroom : (pre.length : Int) < INT_MAX) :
    (∀ a b c x y z line : List Char,
      isSignedDecimalInteger a = true → isSignedDecimalInteger b = true →
      isSignedDecimalInteger c = true → isSignedDecimalInteger x = true →
      isSignedDecimalInteger y = true → isSignedDecimalInteger z = true →
      (-16777216 ≤ signedDecimalValue a ∧ signedDecimalValue a ≤ 16777216) →
      (-16777216 ≤ signedDecimalValue b ∧ signedDecimalValue b ≤ 16777216) →
      (-16777216 ≤ signedDecimalValue c ∧ signedDecimalValue c ≤ 16777216) →
      (-16777216 ≤ signedDecimalValue x ∧ signedDecimalValue x ≤ 16777216) →
      (-16777216 ≤ signedDecimalValue y ∧ signedDecimalValue y ≤ 16777216) →
      (-16777216 ≤ signedDecimalValue z ∧ signedDecimalValue z ≤ 16777216) →
      tokenize line = [['f'], a ++ ['/', '/'] ++ x, b ++ ['/', '/'] ++ y, c ++ ['/', '/'] ++ z] →
      ∃ m2, readModelFile L (initModel m0) (some (pre ++ [line])) = Outcome.ok (flag, m2) ∧
        m2.faces = m1.faces
          ++ [⟨signedDecimalValue a, signedDecimalValue b, signedDecimalValue c⟩] ∧
        m2.normalIndices = m1.normalIndices
          ++ [⟨signedDecimalValue x, signedDecimalValue y, signedDecimalValue z⟩] ∧
        getNumFaces m2 = getNumFaces m1 + 1 ∧
        getNumNormalIndices m2 = getNumNormalIndices m1 + 1 ∧
        m2.vertices = m1.vertices ∧ m2.normals = m1.normals) ∧
    (∀ a b c line : List Char,
      isSignedDecimalInteger a = true → isSignedDecimalInteger b = true →
      isSignedDecimalInteger c = true →
      (0 ≤ signedDecimalValue a ∧ signedDecimalValue a ≤ 16777216) →
      (0 ≤ signedDecimalValue b ∧ signedDecimalValue b ≤ 16777216) →
      (0 ≤ signedDecimalValue c ∧ signedDecimalValue c ≤ 16777216) →
      tokenize line = [['f'], a, b, c] →
      ∃ m2, readModelFile L (initModel m0) (some (pre ++ [line])) = Outcome.ok (flag, m2) ∧
        m2.faces = m1.faces
          ++ [⟨signedDecimalValue a, signedDecimalValue b, signedDecimalValue c⟩] ∧
        m2.normalIndices = m1.normalIndices ∧
        getNumFaces m2 = getNumFaces m1 + 1 ∧
        getNumNormalIndices m2 = getNumNormalIndices m1 ∧
        m2.vertices = m1.vertices ∧ m2.normals = m1.normals) := by
  obtain ⟨hl, items, hitems, -, hm⟩ := (readModelFile_ok_iff L m0 pre flag m1).1 hpre
  have hlen := fileItems_length L pre items hitems
  have hI : INT_MAX = 2147483647 := by norm_num [INT_MAX]
  have hM : GLUINT_MOD = 4294967296 := by norm_num [GLUINT_MOD]
  rw [hI] at hroom
  have h3 := List.length_filterMap_le (Item.face? (F := F)) items
  have h4 := List.length_filterMap_le (Item.normalIndex? (F := F)) items
  have e3 : ((items.filterMap (Item.face? (F := F))).length + 1) % 4294967296
      = (items.filterMap (Item.face? (F := F))).length + 1 := Nat.mod_eq_of_lt (by omega)
  have e4 : ((items.filterMap (Item.normalIndex? (F := F))).length + 1) % 4294967296
      = (items.filterMap (Item.normalIndex? (F := F))).length + 1 := Nat.mod_eq_of_lt (by omega)
  constructor
  · intro a b c x y z line ha hb hc hx hy hz la lb lc lx ly lz htok
    have hit := readItem_face_slashed_signed L htok ha hb hc hx hy hz la lb lc lx ly lz
    refine ⟨_, readModelFile_snoc L m0 pre line flag m1 _ hpre (by rw [hI]; exact hroom) hit, ?_⟩
    subst hm
    simp [applyItem, pushFace, pushNormalIndex, modelOfItems, getNumFaces, getNumNormalIndices,
      hM, e3, e4]
  · intro a b c line ha hb hc la lb lc htok
    have hit := readItem_face_plain_signed L htok ha hb hc la lb lc
    refine ⟨_, readModelFile_snoc L m0 pre line flag m1 _ hpre (by rw [hI]; exact hroom) hit, ?_⟩
    subst hm
    simp [applyItem, pushFace, modelOfItems, getNumFaces, getNumNormalIndices, hM, e3]

/-- Witness of `face_line_stores_numbers`: the lines `f -1//4 2//5 3//6` and `f 1 2 3`, each
read after the line `v 0 0 0`. -/
theorem face_line_stores_numbers_witness :
    (∃ m2, readModelFile intLib (initModel (construct DrawingMethod.DRAWING_AS_ARRAYS))
        (some (["v 0 0 0".toList] ++ ["f -1//4 2//5 3//6".toList])) = Outcome.ok (true, m2) ∧
      m2.faces = [⟨-1, 2, 3⟩] ∧ m2.normalIndices = [⟨4, 5, 6⟩] ∧
      getNumFaces m2 = 1 ∧ getNumNormalIndices m2 = 1) ∧
    (∃ m2, readModelFile intLib (initModel (construct DrawingMethod.DRAWING_AS_ARRAYS))
        (some (["v 0 0 0".toList] ++ ["f 1 2 3".toList])) = Outcome.ok (true, m2) ∧
      m2.faces = [⟨1, 2, 3⟩] ∧ m2.normalIndices = [] ∧
      getNumFaces m2 = 1 ∧ getNumNormalIndices m2 = 0) := by
  have h := face_line_stores_numbers intLib (construct DrawingMethod.DRAWING_AS_ARRAYS)
    ["v 0 0 0".toList] true
    (modelOfItems DrawingMethod.DRAWING_AS_ARRAYS [Item.vertex (⟨0, 0, 0⟩ : Vec3 Int)])
    (by decide) (by decide)
  constructor
  · obtain ⟨m2, h1, h2, h3, h4, h5, -, -⟩ := h.1 "-1".toList "2".toList "3".toList
      "4".toList "5".toList "6".toList "f -1//4 2//5 3//6".toList
      (by decide) (by decide) (by decide) (by decide) (by decide) (by decide)
      (by decide) (by decide) (by decide) (by decide) (by decide) (by decide) (by decide)
    have v1 : signedDecimalValue "-1".toList = -1 := by decide
    have v2 : signedDecimalValue "2".toList = 2 := by decide
    have v3 : signedDecimalValue "3".toList = 3 := by decide
    have v4 : signedDecimalValue "4".toList = 4 := by decide
    have v5 : signedDecimalValue "5".toList = 5 := by decide
    have v6 : signedDecimalValue "6".toList = 6 := by decide
    rw [v1, v2, v3] at h2
    rw [v4, v5, v6] at h3
    exact ⟨m2, h1, by simpa using h2, by simpa using h3, by simpa using h4, by simpa using h5⟩
  · obtain ⟨m2, h1, h2, h3, h4, h5, -, -⟩ := h.2 "1".toList "2".toList "3".toList
      "f 1 2 3".toList (by decide) (by decide) (by decide) (by decide) (by decide) (by decide)
      (by decide)
    have v1 : signedDecimalValue "1".toList = 1 := by decide
    have v2 : signedDecimalValue "2".toList = 2 := by decide
    have v3 : signedDecimalValue "3".toList = 3 := by decide
    rw [v1, v2, v3] at h2
    exact ⟨m2, h1, by simpa using h2, by simpa using h3, by simpa using h4, by simpa using h5⟩

/-! ## Malformed lines -/

theorem plainFaceItem_not_malformed {F : Type} {a b c : List Char} {it : Item F}
    (h : plainFaceItem a b c = some it) : it.isMalformed = false := by
  unfold plainFaceItem at h
  cases h1 : atoi a <;> cases h2 : atoi b <;> cases h3 : atoi c <;>
    simp [h1, h2, h3] at h
  subst h; rfl

theorem slashedFaceItem_not_malformed {F : Type} {a b c : List Char} {it : Item F}
    (h : slashedFaceItem a b c = some it) : it.isMalformed = false := by
  unfold slashedFaceItem at h
  simp only [Option.bind_eq_bind, Option.bind_eq_some, bind, pure] at h
  obtain ⟨_, _, _, _, _, _, _, _, _, _, _, _, _, _, _, _, _, _, h⟩ := h
  simp only [Option.some.injEq] at h
  subst h; rfl

theorem readItem_isMalformed {F : Type} (L : FloatLib F) {line : List Char} {it : Item F}
    (h : readItem L line = some it) : it.isMalformed = isReportedLine line := by
  unfold readItem at h
  unfold isReportedLine isMalformedLine
  by_cases h1 : 1 < line.length
  · simp only [h1, if_true] at h
    simp only [h1, decide_True, Bool.true_and]
    unfold lineItem at h
    rcases htk : tokenize line with _ | ⟨t0, rest⟩
    · rw [htk] at h; cases h
    · rw [htk] at h
      simp only at h ⊢
      by_cases hlen : rest.length = 3
      · obtain ⟨x, y, z, rfl⟩ := length_three hlen
        by_cases hv : t0 = ['v']
        · subst hv
          by_cases hz : z = ['v', 'n'] ∨ z = ['f']
          · simp [hz] at h
          · simp only [hz, if_true, if_false, Option.some.injEq] at h
            subst h; simp [Item.isMalformed]
        · by_cases hn : t0 = ['v', 'n']
          · subst hn
            by_cases hz : z = ['f']
            · simp [hz, v_ne_vn.symm] at h
            · simp only [v_ne_vn.symm, hz, if_true, if_false, Option.some.injEq] at h
              subst h; simp [Item.isMalformed]
          · by_cases hf : t0 = ['f']
            · subst hf
              simp only [v_ne_f.symm, vn_ne_f.symm, if_true, if_false] at h
              by_cases hs : findSlashes line = none
              · simp only [hs, if_true] at h
                simp [plainFaceItem_not_malformed h]
              · simp only [hs, if_false] at h
                simp [slashedFaceItem_not_malformed h]
            · simp only [hv, hn, hf, if_false, Option.some.injEq] at h
              subst h; simp [Item.isMalformed, hv, hn, hf]
      · by_cases hv : t0 = ['v']
        · subst hv
          have : it = Item.malformed := by
            rcases rest with _ | ⟨x, _ | ⟨y, _ | ⟨z, _ | ⟨w, rest⟩⟩⟩⟩ <;>
              simp at hlen <;> simp at h <;> exact h.symm
          subst this; simp [Item.isMalformed, hlen]
        · by_cases hn : t0 = ['v', 'n']
          · subst hn
            have : it = Item.malformed := by
              rcases rest with _ | ⟨x, _ | ⟨y, _ | ⟨z, _ | ⟨w, rest⟩⟩⟩⟩ <;>
                simp at hlen <;> simp [v_ne_vn.symm] at h <;> exact h.symm
            subst this; simp [Item.isMalformed, hlen]
          · by_cases hf : t0 = ['f']
            · subst hf
              have : it = Item.malformed := by
                rcases rest with _ | ⟨x, _ | ⟨y, _ | ⟨z, _ | ⟨w, rest⟩⟩⟩⟩ <;>
                  simp at hlen <;> simp [v_ne_f.symm, vn_ne_f.symm] at h <;> exact h.symm
              subst this; simp [Item.isMalformed, hlen]
            · simp only [hv, hn, hf, if_false, Option.some.injEq] at h
              subst h; simp [Item.isMalformed, hv, hn, hf]
  · simp only [h1, if_false, Option.some.injEq] at h
    subst h
    simp [h1, Item.isMalformed]

theorem fileItems_filter_reported {F : Type} (L : FloatLib F) (lines : List (List Char)) :
    ∀ items : List (Item F), fileItems L lines = some items →
      fileItems L (lines.filter fun l => !isReportedLine l)
        = some (items.filter fun it => !it.isMalformed) := by
  induction lines with
  | nil => intro items h; simp [fileItems] at h; subst h; simp [fileItems]
  | cons l ls ih =>
    intro items h
    obtain ⟨it, rest, h1, h2, rfl⟩ := (fileItems_cons L l ls items).1 h
    have hm := readItem_isMalformed L h1
    have ih2 := ih rest h2
    by_cases hr : isReportedLine l = true
    · simp [List.filter_cons, hr, hm, ih2]
    · simp only [Bool.not_eq_true] at hr
      simp only [List.filter_cons, hr, hm, Bool.not_false, if_true]
      exact (fileItems_cons L l _ _).2 ⟨it, _, h1, ih2, rfl⟩

theorem filterMap_filter_not_malformed {F α : Type} (g : Item F → Option α)
    (hg : g Item.malformed = none) (items : List (Item F)) :
    (items.filter fun it => !it.isMalformed).filterMap g = items.filterMap g := by
  induction items with
  | nil => rfl
  | cons it items ih =>
    cases hmf : it.isMalformed with
    | false =>
      simp only [List.filter_cons, hmf, Bool.not_false, if_true, List.filterMap_cons, ih]
    | true =>
      have : it = Item.malformed := by cases it <;> simp [Item.isMalformed] at hmf ⊢
      subst this
      simp only [List.filter_cons, hmf, Bool.not_true, Bool.false_eq_true, if_false,
        List.filterMap_cons, hg, ih]

theorem modelOfItems_filter_not_malformed {F : Type} (dm : DrawingMethod)
    (items : List (Item F)) :
    modelOfItems dm (items.filter fun it => !it.isMalformed) = modelOfItems dm items := by
  simp only [modelOfItems, filterMap_filter_not_malformed Item.vertex? rfl,
    filterMap_filter_not_malformed Item.normal? rfl,
    filterMap_filter_not_malformed Item.face? rfl,
    filterMap_filter_not_malformed Item.normalIndex? rfl]

theorem any_isMalformed_iff {F : Type} (L : FloatLib F) (lines : List (List Char)) :
    ∀ items : List (Item F), fileItems L lines = some items →
      (items.any Item.isMalformed = true ↔ ∃ line ∈ lines, isReportedLine line = true) := by
  induction lines with
  | nil => intro items h; simp [fileItems] at h; subst h; simp
  | cons l ls ih =>
    intro items h
    obtain ⟨it, rest, h1, h2, rfl⟩ := (fileItems_cons L l ls items).1 h
    simp [readItem_isMalformed L h1, ih rest h2]

/-- Claim C9, counterexample.  The file whose only line is `f`: the first token of the line
is `f` and the line has one token, not four, yet `readModelFile` returns `true`. -/
theorem face_line_of_one_character_not_reported :
    tokenize "f".toList = [['f']] ∧ isMalformedLine "f".toList = true ∧
    readModelFile intLib (initModel (construct DrawingMethod.DRAWING_AS_ARRAYS))
        (some ["f".toList])
      = Outcome.ok (true, modelOfItems DrawingMethod.DRAWING_AS_ARRAYS []) :=
  ⟨by decide, by decide, by decide⟩

/-- Claim C9, amended.  When `readModelFile` returns on a file: the flag it returns is
`false` if and only if some line longer than one character has `v`, `vn` or `f` as its
first token and does not have exactly four tokens; and on the file without these lines
`readModelFile` returns `true` and leaves the same model, so each such line is skipped
without adding a vertex, normal, face or normal index, and every other line is still
processed. -/
theorem readModelFile_flag_and_skipping {F : Type} (L : FloatLib F) (m0 : Model F)
    (lines : List (List Char)) (flag : Bool) (m1 : Model F)
    (h : readModelFile L (initModel m0) (some lines) = Outcome.ok (flag, m1)) :
    (flag = false ↔ ∃ line ∈ lines, 1 < line.length ∧ isMalformedLine line = true) ∧
    readModelFile L (initModel m0) (some (lines.filter fun l => !isReportedLine l))
      = Outcome.ok (true, m1) := by
  obtain ⟨hl, items, hitems, hc, hm⟩ := (readModelFile_ok_iff L m0 lines flag m1).1 h
  constructor
  · have := any_isMalformed_iff L lines items hitems
    rw [hc]
    simp only [Bool.not_eq_false', this, isReportedLine, Bool.and_eq_true, decide_eq_true_eq]
  · refine (readModelFile_ok_iff L m0 _ _ _).2
      ⟨?_, _, fileItems_filter_reported L lines items hitems, ?_, ?_⟩
    · have := List.length_filter_le (fun l => !isReportedLine l) lines
      have hI : INT_MAX = 2147483647 := by norm_num [INT_MAX]
      rw [hI] at hl ⊢
      omega
    · simp [List.any_filter]
    · rw [modelOfItems_filter_not_malformed, hm]

/-- Witness of `readModelFile_flag_and_skipping`: a file with a quad face line. -/
theorem readModelFile_flag_and_skipping_witness :
    (false = false ↔ ∃ line ∈ ["v 1 2 3".toList, "f 1 2 3 4".toList, "f 1 1 1".toList],
        1 < line.length ∧ isMalformedLine line = true) ∧
    readModelFile intLib (initModel (construct DrawingMethod.DRAWING_AS_ARRAYS))
        (some (["v 1 2 3".toList, "f 1 2 3 4".toList, "f 1 1 1".toList].filter
          fun l => !isReportedLine l))
      = Outcome.ok (true, modelOfItems DrawingMethod.DRAWING_AS_ARRAYS
          [Item.vertex ⟨1, 2, 3⟩, Item.face ⟨1, 1, 1⟩]) :=
  readModelFile_flag_and_skipping intLib (construct DrawingMethod.DRAWING_AS_ARRAYS)
    ["v 1 2 3".toList, "f 1 2 3 4".toList, "f 1 1 1".toList] false
    (modelOfItems DrawingMethod.DRAWING_AS_ARRAYS [Item.vertex ⟨1, 2, 3⟩, Item.face ⟨1, 1, 1⟩])
    (by decide)

/-! ## Which lines contribute a vertex, a normal, a face -/

theorem plainFaceItem_kind {F : Type} {a b c : List Char} {it : Item F}
    (h : plainFaceItem a b c = some it) :
    it.vertex? = none ∧ it.normal? = none ∧ it.face?.isSome = true := by
  unfold plainFaceItem at h
  cases h1 : atoi a <;> cases h2 : atoi b <;> cases h3 : atoi c <;>
    simp [h1, h2, h3] at h
  subst h; exact ⟨rfl, rfl, rfl⟩

theorem slashedFaceItem_kind {F : Type} {a b c : List Char} {it : Item F}
    (h : slashedFaceItem a b c = some it) :
    it.vertex? = none ∧ it.normal? = none ∧ it.face?.isSome = true := by
  unfold slashedFaceItem at h
  simp only [Option.bind_eq_bind, Option.bind_eq_some, bind, pure] at h
  obtain ⟨_, _, _, _, _, _, _, _, _, _, _, _, _, _, _, _, _, _, h⟩ := h
  simp only [Option.some.injEq] at h
  subst h; exact ⟨rfl, rfl, rfl⟩

theorem readItem_kind {F : Type} (L : FloatLib F) {line : List Char} {it : Item F}
    (h : readItem L line = some it) :
    it.vertex?.isSome = isVertexLine line ∧ it.normal?.isSome = isNormalLine line ∧
      it.face?.isSome = isFaceLine line := by
  unfold readItem at h
  by_cases h1 : 1 < line.length
  · simp only [h1, if_true] at h
    unfold lineItem at h
    unfold isVertexLine isNormalLine isFaceLine
    rcases htk : tokenize line with _ | ⟨t0, rest⟩
    · rw [htk] at h; cases h
    · rw [htk] at h
      simp only at h
      by_cases hlen : rest.length = 3
      · obtain ⟨x, y, z, rfl⟩ := length_three hlen
        by_cases hv : t0 = ['v']
        · subst hv
          by_cases hz : z = ['v', 'n'] ∨ z = ['f']
          · simp [hz] at h
          · simp only [hz, if_true, if_false, Option.some.injEq] at h
            subst h; simp [Item.vertex?, Item.normal?, Item.face?, v_ne_vn, v_ne_f]
        · by_cases hn : t0 = ['v', 'n']
          · subst hn
            by_cases hz : z = ['f']
            · simp [hz, v_ne_vn.symm] at h
            · simp only [v_ne_vn.symm, hz, if_true, if_false, Option.some.injEq] at h
              subst h; simp [Item.vertex?, Item.normal?, Item.face?, v_ne_vn.symm, vn_ne_f]
          · by_cases hf : t0 = ['f']
            · subst hf
              simp only [v_ne_f.symm, vn_ne_f.symm, if_true, if_false] at h
              by_cases hs : findSlashes line = none
              · simp only [hs, if_true] at h
                simp [plainFaceItem_kind h, v_ne_f.symm, vn_ne_f.symm]
              · simp only [hs, if_false] at h
                simp [slashedFaceItem_kind h, v_ne_f.symm, vn_ne_f.symm]
            · simp only [hv, hn, hf, if_false, Option.some.injEq] at h
              subst h; simp [Item.vertex?, Item.normal?, Item.face?, hv, hn, hf]
      · have hit : it = Item.malformed ∨ it = Item.skip := by
          by_cases hv : t0 = ['v']
          · subst hv
            left
            rcases rest with _ | ⟨x, _ | ⟨y, _ | ⟨z, _ | ⟨w, rest⟩⟩⟩⟩ <;>
              simp at hlen <;> simp at h <;> exact h.symm
          · by_cases hn : t0 = ['v', 'n']
            · subst hn
              left
              rcases rest with _ | ⟨x, _ | ⟨y, _ | ⟨z, _ | ⟨w, rest⟩⟩⟩⟩ <;>
                simp at hlen <;> simp [v_ne_vn.symm] at h <;> exact h.symm
            · by_cases hf : t0 = ['f']
              · subst hf
                left
                rcases rest with _ | ⟨x, _ | ⟨y, _ | ⟨z, _ | ⟨w, rest⟩⟩⟩⟩ <;>
                  simp at hlen <;> simp [v_ne_f.symm, vn_ne_f.symm] at h <;> exact h.symm
              · right
                simp only [hv, hn, hf, if_false, Option.some.injEq] at h
                exact h.symm
        have hnot : ∀ g : List Char → Bool, (match t0 :: rest with
            | [t0, _, _, _] => g t0
            | _ => false) = false := by
          intro g
          rcases rest with _ | ⟨x, _ | ⟨y, _ | ⟨z, _ | ⟨w, rest⟩⟩⟩⟩ <;> simp at hlen ⊢
        rw [hnot, hnot, hnot]
        rcases hit with rfl | rfl <;> exact ⟨rfl, rfl, rfl⟩
  · simp only [h1, if_false, Option.some.injEq] at h
    subst h
    have h4 : (tokenize line).length ≤ 1 := le_trans (tokenize_length_le line) (by omega)
    have hnot : ∀ g : List Char → Bool, (match tokenize line with
        | [t0, _, _, _] => g t0
        | _ => false) = false := by
      intro g
      generalize tokenize line = tk at h4
      rcases tk with _ | ⟨x, _ | ⟨y, _ | ⟨z, _ | ⟨w, rest⟩⟩⟩⟩ <;> simp at h4 ⊢
    unfold isVertexLine isNormalLine isFaceLine
    rw [hnot, hnot, hnot]
    exact ⟨rfl, rfl, rfl⟩

theorem filterMap_length_eq_countP {α β : Type} (g : α → Option β) (l : List α) :
    (l.filterMap g).length = l.countP fun a => (g a).isSome := by
  induction l with
  | nil => rfl
  | cons a l ih =>
    cases h : g a <;> simp [List.filterMap_cons, List.countP_cons, h, ih]

theorem countP_items_eq {F : Type} (L : FloatLib F) (p : Item F → Bool) (q : List Char → Bool)
    (hpq : ∀ line it, readItem L line = some it → p it = q line) (lines : List (List Char)) :
    ∀ items : List (Item F), fileItems L lines = some items →
      items.countP p = lines.countP q := by
  induction lines with
  | nil => intro items h; simp [fileItems] at h; subst h; rfl
  | cons l ls ih =>
    intro items h
    obtain ⟨it, rest, h1, h2, rfl⟩ := (fileItems_cons L l ls items).1 h
    simp [List.countP_cons, ih rest h2, hpq l it h1]

/-- The counts that `readModelFile` hands over are the numbers of well-formed `v`, `vn` and
`f` lines of the file. -/
theorem counts_of_read {F : Type} (L : FloatLib F) (m0 : Model F) (lines : List (List Char))
    (flag : Bool) (m1 : Model F)
    (h : readModelFile L (initModel m0) (some lines) = Outcome.ok (flag, m1)) :
    m1.numVertices = lines.countP isVertexLine ∧ m1.numNormals = lines.countP isNormalLine ∧
      m1.numFaces = lines.countP isFaceLine := by
  obtain ⟨-, items, hitems, -, hm⟩ := (readModelFile_ok_iff L m0 lines flag m1).1 h
  subst hm
  simp only [modelOfItems, filterMap_length_eq_countP]
  exact ⟨countP_items_eq L _ _ (fun l it hh => (readItem_kind L hh).1) lines items hitems,
    countP_items_eq L _ _ (fun l it hh => (readItem_kind L hh).2.1) lines items hitems,
    countP_items_eq L _ _ (fun l it hh => (readItem_kind L hh).2.2) lines items hitems⟩

/-! ## `load` and the vertex gate -/

theorem pushAll_some {α : Type} (vs : List α) :
    ∀ (b b1 : Buffer α), b.pushAll vs = some b1 →
      b1 = ⟨b.cap, b.cells ++ vs⟩ ∧
      (vs ≠ [] → b1.cells.length ≤ b.cap ∧ (b1.cells.length : Int) ≤ INT_MAX) := by
  induction vs with
  | nil =>
    intro b b1 h
    simp only [Buffer.pushAll, Option.some.injEq] at h
    subst h
    simp
  | cons v vs ih =>
    intro b b1 h
    rw [Buffer.pushAll] at h
    unfold Buffer.push at h
    by_cases hc : b.cells.length < b.cap ∧ (b.cells.length : Int) < INT_MAX
    · simp only [hc, and_self, if_true, Option.some_bind] at h
      obtain ⟨h1, h2⟩ := ih _ b1 h
      simp only [List.append_assoc, List.singleton_append] at h1
      refine ⟨h1, fun _ => ?_⟩
      by_cases hvs : vs = []
      · subst hvs
        rw [h1]
        simp only [List.length_append, List.length_singleton, Nat.cast_add, Nat.cast_one]
        omega
      · exact h2 hvs
    · simp [hc] at h

theorem forEach_cons {σ α : Type} (body : σ → α → Option σ) (s : σ) (a : α) (as : List α) :
    forEach body s (a :: as) = (body s a).bind fun s1 => forEach body s1 as := rfl

theorem flatMap_length_const {α β : Type} (g : α → List β) (k : Nat) (l : List α)
    (h : ∀ a ∈ l, (g a).length = k) : (l.flatMap g).length = k * l.length := by
  induction l with
  | nil => simp
  | cons a l ih =>
    have h1 := h a (List.mem_cons_self a l)
    have h2 := ih fun x hx => h x (List.mem_cons_of_mem a hx)
    simp only [List.flatMap_cons, List.length_append, h1, h2, List.length_cons]
    ring

theorem cornerFloats_length {F : Type} {vec : List (Vec3 F)} {face : Vec3 Int}
    (h : (fetchCorners vec face).isSome = true) : (cornerFloats vec face).length = 9 := by
  unfold cornerFloats
  cases hf : fetchCorners vec face with
  | none => rw [hf] at h; cases h
  | some p => obtain ⟨a, b, c⟩ := p; simp [Vec3.toList]

theorem generatedNormalFloats_length {F : Type} (L : FloatLib F) {vec : List (Vec3 F)}
    {face : Vec3 Int} (h : (fetchCorners vec face).isSome = true) :
    (generatedNormalFloats L vec face).length = 9 := by
  unfold generatedNormalFloats
  cases hf : fetchCorners vec face with
  | none => rw [hf] at h; cases h
  | some p => obtain ⟨a, b, c⟩ := p; simp [Vec3.toList]

theorem expandFaceWithNormal_some {F : Type} (L : FloatLib F) (vertices : List (Vec3 F))
    (vb nb vb2 nb2 : Buffer F) (face : Vec3 Int)
    (h : expandFaceWithNormal L vertices (vb, nb) face = some (vb2, nb2)) :
    (fetchCorners vertices face).isSome = true ∧
      vb.pushAll (cornerFloats vertices face) = some vb2 ∧
      nb.pushAll (generatedNormalFloats L vertices face) = some nb2 := by
  unfold expandFaceWithNormal at h
  unfold cornerFloats generatedNormalFloats
  cases hf : fetchCorners vertices face with
  | none => simp [hf] at h
  | some p =>
    obtain ⟨a, b, c⟩ := p
    simp only [hf, Option.bind_eq_bind, Option.some_bind, bind, pure, List.append_assoc] at h ⊢
    cases hv : vb.pushAll (a.toList ++ (b.toList ++ c.toList)) with
    | none => simp [hv] at h
    | some vb3 =>
      simp only [hv, Option.some_bind] at h
      cases hn : nb.pushAll
          ((L.normalize (L.cross (L.vsub b a) (L.vsub c a))).toList
            ++ ((L.normalize (L.cross (L.vsub b a) (L.vsub c a))).toList
            ++ (L.normalize (L.cross (L.vsub b a) (L.vsub c a))).toList)) with
      | none => simp [hn] at h
      | some nb3 =>
        simp only [hn, Option.some_bind, Option.some.injEq, Prod.mk.injEq] at h
        obtain ⟨rfl, rfl⟩ := h
        simp

/-- The loop over the faces that generates the normals: when it completes, every face
named three vertices of the vector and the two arrays hold, face after face, the nine
position floats and the nine normal floats. -/
theorem forEach_expandFaceWithNormal {F : Type} (L : FloatLib F) (vertices : List (Vec3 F))
    (faces : List (Vec3 Int)) :
    ∀ (vb nb vb1 nb1 : Buffer F),
      forEach (expandFaceWithNormal L vertices) (vb, nb) faces = some (vb1, nb1) →
      (∀ face ∈ faces, (fetchCorners vertices face).isSome = true) ∧
      vb1 = ⟨vb.cap, vb.cells ++ faces.flatMap (cornerFloats vertices)⟩ ∧
      nb1 = ⟨nb.cap, nb.cells ++ faces.flatMap (generatedNormalFloats L vertices)⟩ ∧
      (faces ≠ [] → vb1.cells.length ≤ vb.cap ∧ (vb1.cells.length : Int) ≤ INT_MAX ∧
        nb1.cells.length ≤ nb.cap) := by
  induction faces with
  | nil =>
    intro vb nb vb1 nb1 h
    simp only [forEach, Option.some.injEq, Prod.mk.injEq] at h
    obtain ⟨rfl, rfl⟩ := h
    simp
  | cons face faces ih =>
    intro vb nb vb1 nb1 h
    rw [forEach_cons] at h
    cases hs : expandFaceWithNormal L vertices (vb, nb) face with
    | none => simp [hs] at h
    | some p =>
      obtain ⟨vb2, nb2⟩ := p
      simp only [hs, Option.some_bind] at h
      obtain ⟨hf, hv, hn⟩ := expandFaceWithNormal_some L vertices vb nb vb2 nb2 face hs
      obtain ⟨i1, i2, i3, i4⟩ := ih vb2 nb2 vb1 nb1 h
      obtain ⟨p1, p2⟩ := pushAll_some _ vb vb2 hv
      obtain ⟨q1, q2⟩ := pushAll_some _ nb nb2 hn
      have hne : cornerFloats vertices face ≠ [] := by
        intro h0
        have := cornerFloats_length hf
        rw [h0] at this
        simp at this
      have hne2 : generatedNormalFloats L vertices face ≠ [] := by
        intro h0
        have := generatedNormalFloats_length L hf
        rw [h0] at this
        simp at this
      refine ⟨?_, ?_, ?_, fun _ => ?_⟩
      · intro g hg
        rcases List.mem_cons.1 hg with rfl | hg
        · exact hf
        · exact i1 g hg
      · rw [i2, p1, List.flatMap_cons]; simp
      · rw [i3, q1, List.flatMap_cons]; simp
      · by_cases hfs : faces = []
        · subst hfs
          simp only [forEach, Option.some.injEq, Prod.mk.injEq] at h
          obtain ⟨rfl, rfl⟩ := h
          exact ⟨(p2 hne).1, (p2 hne).2, (q2 hne2).1⟩
        · obtain ⟨j1, j2, j3⟩ := i4 hfs
          rw [p1] at j1
          rw [q1] at j3
          exact ⟨j1, j2, j3⟩

/-- A loop whose body appends the floats `g a` of each element to one array. -/
theorem forEach_pushAll {α β : Type} (body : Buffer β → α → Option (Buffer β))
    (g : α → List β) (ok : α → Prop)
    (hbody : ∀ b b1 a, body b a = some b1 → ok a ∧ g a ≠ [] ∧ b.pushAll (g a) = some b1)
    (l : List α) :
    ∀ (b b1 : Buffer β), forEach body b l = some b1 →
      (∀ a ∈ l, ok a) ∧ b1 = ⟨b.cap, b.cells ++ l.flatMap g⟩ ∧
      (l ≠ [] → b1.cells.length ≤ b.cap ∧ (b1.cells.length : Int) ≤ INT_MAX) := by
  induction l with
  | nil =>
    intro b b1 h
    simp only [forEach, Option.some.injEq] at h
    subst h
    simp
  | cons a l ih =>
    intro b b1 h
    rw [forEach_cons] at h
    cases hs : body b a with
    | none => simp [hs] at h
    | some b2 =>
      simp only [hs, Option.some_bind] at h
      obtain ⟨hok, hne, hp⟩ := hbody b b2 a hs
      obtain ⟨i1, i2, i3⟩ := ih b2 b1 h
      obtain ⟨p1, p2⟩ := pushAll_some _ b b2 hp
      refine ⟨?_, ?_, fun _ => ?_⟩
      · intro x hx
        rcases List.mem_cons.1 hx with rfl | hx
        · exact hok
        · exact i1 x hx
      · rw [i2, p1, List.flatMap_cons]; simp
      · by_cases hl : l = []
        · subst hl
          simp only [forEach, Option.some.injEq] at h
          subst h
          exact p2 hne
        · obtain ⟨j1, j2⟩ := i3 hl
          rw [p1] at j1
          exact ⟨j1, j2⟩

theorem expandCorners_some {F : Type} (vec : List (Vec3 F)) (b b1 : Buffer F) (face : Vec3 Int)
    (h : expandCorners vec b face = some b1) :
    (fetchCorners vec face).isSome = true ∧ cornerFloats vec face ≠ [] ∧
      b.pushAll (cornerFloats vec face) = some b1 := by
  unfold expandCorners at h
  cases hf : fetchCorners vec face with
  | none => simp [hf] at h
  | some p =>
    obtain ⟨x, y, z⟩ := p
    simp only [hf, Option.bind_eq_bind, Option.some_bind, bind, pure] at h
    have hc : cornerFloats vec face = x.toList ++ y.toList ++ z.toList := by
      simp [cornerFloats, hf]
    rw [hc]
    exact ⟨rfl, by simp [Vec3.toList], h⟩

theorem elementNumbers_of_some (b b1 : Buffer Nat) (face : Vec3 Int)
    (h : faceElements b face = some b1) :
    (∃ x y z, floatToGLuint (f32OfInt (face.x - 1)) = some x ∧
        floatToGLuint (f32OfInt (face.y - 1)) = some y ∧
        floatToGLuint (f32OfInt (face.z - 1)) = some z ∧ elementNumbers face = [x, y, z]) ∧
      elementNumbers face ≠ [] ∧ b.pushAll (elementNumbers face) = some b1 := by
  unfold faceElements at h
  unfold elementNumbers
  cases hx : floatToGLuint (f32OfInt (face.x - 1)) with
  | none => simp [hx] at h
  | some x =>
    cases hy : floatToGLuint (f32OfInt (face.y - 1)) with
    | none => simp [hx, hy] at h
    | some y =>
      cases hz : floatToGLuint (f32OfInt (face.z - 1)) with
      | none => simp [hx, hy, hz] at h
      | some z =>
        simp only [hx, hy, hz, Option.bind_eq_bind, Option.some_bind, bind, pure] at h
        exact ⟨⟨x, y, z, rfl, rfl, rfl, rfl⟩, by simp, h⟩

theorem countToGLuint_mul (k n : Nat) (h : ((3 * k * n : Nat) : Int) ≤ INT_MAX) :
    countToGLuint ((3 * k * n : Nat) : Int) = k * n := by
  have hI : INT_MAX = 2147483647 := by norm_num [INT_MAX]
  rw [hI] at h
  unfold countToGLuint toGLuint
  have h1 : ((3 * k * n : Nat) : Int) / 3 = ((k * n : Nat) : Int) := by
    have : (3 * k * n : Nat) = 3 * (k * n) := by ring
    rw [this]
    push_cast
    exact Int.mul_ediv_cancel_left _ (by norm_num)
  rw [h1]
  have h2 : ((k * n : Nat) : Int) % (2 ^ 32 : Int) = ((k * n : Nat) : Int) := by
    apply Int.emod_eq_of_lt
    · exact Int.natCast_nonneg _
    · have : (3 * k * n : Nat) = 3 * (k * n) := by ring
      rw [this] at h
      push_cast at h ⊢
      omega
  rw [h2]
  exact Int.toNat_natCast _

/-! ## The blocks of `setupData` -/

theorem flatMap_cornerFloats_length {F : Type} (vec : List (Vec3 F)) (faces : List (Vec3 Int))
    (h : ∀ face ∈ faces, (fetchCorners vec face).isSome = true) :
    (faces.flatMap (cornerFloats vec)).length = 3 * 3 * faces.length :=
  flatMap_length_const _ 9 faces fun a ha => cornerFloats_length (h a ha)

theorem flatMap_generatedNormalFloats_length {F : Type} (L : FloatLib F) (vec : List (Vec3 F))
    (faces : List (Vec3 Int)) (h : ∀ face ∈ faces, (fetchCorners vec face).isSome = true) :
    (faces.flatMap (generatedNormalFloats L vec)).length = 3 * 3 * faces.length :=
  flatMap_length_const _ 9 faces fun a ha => generatedNormalFloats_length L (h a ha)

theorem count_bound_of_nonempty {α : Type} (l : List α) (k n : Nat)
    (hlen : l.length = 3 * k * n) (h : n ≠ 0 → (l.length : Int) ≤ INT_MAX) :
    ((3 * k * n : Nat) : Int) ≤ INT_MAX := by
  by_cases hn : n = 0
  · subst hn; norm_num [INT_MAX]
  · rw [← hlen]; exact h hn

/-- The block that builds both arrays from the faces and generates the normals: what it
leaves when it completes. -/
theorem setupGenerated_some {F : Type} (L : FloatLib F) (m m1 : Model F)
    (h : setupGenerated L m = some m1) :
    (∀ face ∈ m.faces, (fetchCorners m.vertices face).isSome = true) ∧
    (m.faces ≠ [] → 9 * m.faces.length ≤ nineTimes m.numFaces ∧
      ((9 * m.faces.length : Nat) : Int) ≤ INT_MAX) ∧
    m1 = { m with
      vertexData := some ⟨nineTimes m.numFaces, m.faces.flatMap (cornerFloats m.vertices)⟩
      normalData := some
        ⟨nineTimes m.numFaces, m.faces.flatMap (generatedNormalFloats L m.vertices)⟩
      numVertices := 3 * m.faces.length
      numNormals := 3 * m.faces.length } := by
  unfold setupGenerated at h
  cases hf : forEach (expandFaceWithNormal L m.vertices)
      (Buffer.alloc (nineTimes m.numFaces), Buffer.alloc (nineTimes m.numFaces)) m.faces with
  | none => simp [hf] at h
  | some p =>
    obtain ⟨vb, nb⟩ := p
    simp only [hf, Option.bind_eq_bind, Option.some_bind, bind, pure, Option.some.injEq] at h
    obtain ⟨i1, i2, i3, i4⟩ := forEach_expandFaceWithNormal L m.vertices m.faces _ _ vb nb hf
    simp only [Buffer.alloc, List.nil_append] at i2 i3 i4
    have l1 := flatMap_cornerFloats_length m.vertices m.faces i1
    have l2 := flatMap_generatedNormalFloats_length L m.vertices m.faces i1
    have hb : ((3 * 3 * m.faces.length : Nat) : Int) ≤ INT_MAX := by
      apply count_bound_of_nonempty _ 3 _ l1
      intro hne
      have := (i4 (by intro h0; rw [h0] at hne; exact hne rfl)).2.1
      rw [i2] at this
      exact this
    refine ⟨i1, ?_, ?_⟩
    · intro hne
      obtain ⟨j1, j2, -⟩ := i4 hne
      rw [i2] at j1 j2
      simp only [l1] at j1 j2
      constructor
      · omega
      · have : (9 * m.faces.length : Nat) = 3 * 3 * m.faces.length := by ring
        rw [this]; exact j2
    · rw [← h, i2, i3]
      simp only [Buffer.count, l1, l2, countToGLuint_mul 3 m.faces.length hb]

/-- The block for vertices, faces, normals and normal indices: what it leaves when it
completes. -/
theorem setupIndexed_some {F : Type} (m m1 : Model F) (h : setupIndexed m = some m1) :
    (∀ face ∈ m.faces, (fetchCorners m.vertices face).isSome = true) ∧
    (∀ ni ∈ m.normalIndices, (fetchCorners m.normals ni).isSome = true) ∧
    (m.faces ≠ [] → 9 * m.faces.length ≤ nineTimes m.numFaces ∧
      ((9 * m.faces.length : Nat) : Int) ≤ INT_MAX) ∧
    (m.normalIndices ≠ [] → 9 * m.normalIndices.length ≤ nineTimes m.numFaces ∧
      ((9 * m.normalIndices.length : Nat) : Int) ≤ INT_MAX) ∧
    m1 = { m with
      vertexData := some ⟨nineTimes m.numFaces, m.faces.flatMap (cornerFloats m.vertices)⟩
      normalData := some
        ⟨nineTimes m.numFaces, m.normalIndices.flatMap (cornerFloats m.normals)⟩
      numVertices := 3 * m.faces.length
      numNormals := 3 * m.normalIndices.length } := by
  unfold setupIndexed at h
  cases hf : forEach (expandCorners m.vertices) (Buffer.alloc (nineTimes m.numFaces)) m.faces with
  | none => simp [hf] at h
  | some vb =>
    simp only [hf, Option.bind_eq_bind, Option.some_bind, bind, pure] at h
    cases hn : forEach (expandCorners m.normals) (Buffer.alloc (nineTimes m.numFaces))
        m.normalIndices with
    | none => simp [hn] at h
    | some nb =>
      simp only [hn, Option.some_bind, Option.some.injEq] at h
      obtain ⟨i1, i2, i3⟩ := forEach_pushAll (expandCorners m.vertices) (cornerFloats m.vertices)
        (fun face => (fetchCorners m.vertices face).isSome = true)
        (expandCorners_some m.vertices) m.faces _ vb hf
      obtain ⟨k1, k2, k3⟩ := forEach_pushAll (expandCorners m.normals) (cornerFloats m.normals)
        (fun face => (fetchCorners m.normals face).isSome = true)
        (expandCorners_some m.normals) m.normalIndices _ nb hn
      simp only [Buffer.alloc, List.nil_append] at i2 i3 k2 k3
      have l1 := flatMap_cornerFloats_length m.vertices m.faces i1
      have l2 := flatMap_cornerFloats_length m.normals m.normalIndices k1
      have hb1 : ((3 * 3 * m.faces.length : Nat) : Int) ≤ INT_MAX := by
        apply count_bound_of_nonempty _ 3 _ l1
        intro hne
        have := (i3 (by intro h0; rw [h0] at hne; exact hne rfl)).2
        rw [i2] at this
        exact this
      have hb2 : ((3 * 3 * m.normalIndices.length : Nat) : Int) ≤ INT_MAX := by
        apply count_bound_of_nonempty _ 3 _ l2
        intro hne
        have := (k3 (by intro h0; rw [h0] at hne; exact hne rfl)).2
        rw [k2] at this
        exact this
      refine ⟨i1, k1, ?_, ?_, ?_⟩
      · intro hne
        obtain ⟨j1, j2⟩ := i3 hne
        rw [i2] at j1 j2
        simp only [l1] at j1 j2
        constructor
        · omega
        · have : (9 * m.faces.length : Nat) = 3 * 3 * m.faces.length := by ring
          rw [this]; exact j2
      · intro hne
        obtain ⟨j1, j2⟩ := k3 hne
        rw [k2] at j1 j2
        simp only [l2] at j1 j2
        constructor
        · omega
        · have : (9 * m.normalIndices.length : Nat) = 3 * 3 * m.normalIndices.length := by ring
          rw [this]; exact j2
      · rw [← h, i2, k2]
        simp only [Buffer.count, l1, l2, countToGLuint_mul 3 m.faces.length hb1,
          countToGLuint_mul 3 m.normalIndices.length hb2]

/-- The block for a model with vertices only: what it leaves when it completes. -/
theorem setupVerticesOnly_some {F : Type} (m m1 : Model F)
    (h : setupVerticesOnly m = some m1) :
    (m.vertices ≠ [] → 3 * m.vertices.length ≤ m.numVertices * 3 % GLUINT_MOD ∧
      ((3 * m.vertices.length : Nat) : Int) ≤ INT_MAX) ∧
    m1 = { m with
      vertexData := some ⟨m.numVertices * 3 % GLUINT_MOD, m.vertices.flatMap Vec3.toList⟩
      numVertices := m.vertices.length } := by
  unfold setupVerticesOnly at h
  cases hf : forEach (fun buf (v : Vec3 F) => buf.pushAll v.toList)
      (Buffer.alloc (m.numVertices * 3 % GLUINT_MOD)) m.vertices with
  | none => simp [hf] at h
  | some vb =>
    simp only [hf, Option.bind_eq_bind, Option.some_bind, bind, pure, Option.some.injEq] at h
    obtain ⟨-, i2, i3⟩ := forEach_pushAll (fun buf (v : Vec3 F) => buf.pushAll v.toList)
      Vec3.toList (fun _ => True)
      (fun b b1 a hh => ⟨trivial, by simp [Vec3.toList], hh⟩) m.vertices _ vb hf
    simp only [Buffer.alloc, List.nil_append] at i2 i3
    have l1 : (m.vertices.flatMap Vec3.toList).length = 3 * 1 * m.vertices.length :=
      flatMap_length_const _ 3 m.vertices (fun a _ => by simp [Vec3.toList]) |>.trans (by ring)
    have hb1 : ((3 * 1 * m.vertices.length : Nat) : Int) ≤ INT_MAX := by
      apply count_bound_of_nonempty _ 1 _ l1
      intro hne
      have := (i3 (by intro h0; rw [h0] at hne; exact hne rfl)).2
      rw [i2] at this
      exact this
    refine ⟨?_, ?_⟩
    · intro hne
      obtain ⟨j1, j2⟩ := i3 hne
      rw [i2] at j1 j2
      simp only [l1] at j1 j2
      constructor
      · omega
      · have : (3 * m.vertices.length : Nat) = 3 * 1 * m.vertices.length := by ring
        rw [this]; exact j2
    · rw [← h, i2]
      simp only [Buffer.count, l1, countToGLuint_mul 1 m.vertices.length hb1, one_mul]

/-- The block that builds `faceData`: what it leaves when it completes. -/
theorem setupFaceData_some {F : Type} (m m1 : Model F) (h : setupFaceData m = some m1) :
    (∀ face ∈ m.faces, ∃ x y z, floatToGLuint (f32OfInt (face.x - 1)) = some x ∧
        floatToGLuint (f32OfInt (face.y - 1)) = some y ∧
        floatToGLuint (f32OfInt (face.z - 1)) = some z ∧ elementNumbers face = [x, y, z]) ∧
    (m.faces ≠ [] → 3 * m.faces.length ≤ m.numFaces * 3 % GLUINT_MOD ∧
      ((3 * m.faces.length : Nat) : Int) ≤ INT_MAX) ∧
    m1 = { m with
      faceData := some ⟨m.numFaces * 3 % GLUINT_MOD, m.faces.flatMap elementNumbers⟩
      numFaces := m.faces.length } := by
  unfold setupFaceData at h
  cases hf : forEach faceElements (Buffer.alloc (m.numFaces * 3 % GLUINT_MOD)) m.faces with
  | none => simp [hf] at h
  | some fb =>
    simp only [hf, Option.bind_eq_bind, Option.some_bind, bind, pure, Option.some.injEq] at h
    obtain ⟨i1, i2, i3⟩ := forEach_pushAll faceElements elementNumbers
      (fun face => ∃ x y z, floatToGLuint (f32OfInt (face.x - 1)) = some x ∧
        floatToGLuint (f32OfInt (face.y - 1)) = some y ∧
        floatToGLuint (f32OfInt (face.z - 1)) = some z ∧ elementNumbers face = [x, y, z])
      elementNumbers_of_some m.faces _ fb hf
    simp only [Buffer.alloc, List.nil_append] at i2 i3
    have l1 : (m.faces.flatMap elementNumbers).length = 3 * 1 * m.faces.length :=
      flatMap_length_const _ 3 m.faces (fun a ha => by
        obtain ⟨x, y, z, -, -, -, e⟩ := i1 a ha
        rw [e]; rfl) |>.trans (by ring)
    have hb1 : ((3 * 1 * m.faces.length : Nat) : Int) ≤ INT_MAX := by
      apply count_bound_of_nonempty _ 1 _ l1
      intro hne
      have := (i3 (by intro h0; rw [h0] at hne; exact hne rfl)).2
      rw [i2] at this
      exact this
    refine ⟨i1, ?_, ?_⟩
    · intro hne
      obtain ⟨j1, j2⟩ := i3 hne
      rw [i2] at j1 j2
      simp only [l1] at j1 j2
      constructor
      · omega
      · have : (3 * m.faces.length : Nat) = 3 * 1 * m.faces.length := by ring
        rw [this]; exact j2
    · rw [← h, i2]
      simp only [Buffer.count, l1, countToGLuint_mul 1 m.faces.length hb1, one_mul]

theorem plainFaceItem_normalIndex {F : Type} {a b c : List Char} {it : Item F}
    (h : plainFaceItem a b c = some it) : it.normalIndex? = none := by
  unfold plainFaceItem at h
  cases h1 : atoi a <;> cases h2 : atoi b <;> cases h3 : atoi c <;>
    simp [h1, h2, h3] at h
  subst h; rfl

theorem slashedFaceItem_normalIndex {F : Type} {a b c : List Char} {it : Item F}
    (h : slashedFaceItem a b c = some it) : it.normalIndex?.isSome = true := by
  unfold slashedFaceItem at h
  simp only [Option.bind_eq_bind, Option.bind_eq_some, bind, pure] at h
  obtain ⟨_, _, _, _, _, _, _, _, _, _, _, _, _, _, _, _, _, _, h⟩ := h
  simp only [Option.some.injEq] at h
  subst h; rfl

theorem isFaceLine_tokens {line : List Char} (h : isFaceLine line = true) :
    ∃ a b c, tokenize line = [['f'], a, b, c] := by
  unfold isFaceLine at h
  rcases htk : tokenize line with _ | ⟨t0, _ | ⟨x, _ | ⟨y, _ | ⟨z, _ | ⟨w, rest⟩⟩⟩⟩⟩ <;>
    rw [htk] at h <;> simp at h
  exact ⟨x, y, z, by rw [h]⟩

theorem readItem_normalIndex_kind {F : Type} (L : FloatLib F) {line : List Char} {it : Item F}
    (h : readItem L line = some it) : it.normalIndex?.isSome = isSlashedFaceLine line := by
  unfold isSlashedFaceLine
  by_cases hfl : isFaceLine line = true
  · obtain ⟨a, b, c, htk⟩ := isFaceLine_tokens hfl
    rw [hfl, Bool.true_and]
    simp only [readItem, length_of_four_tokens htk, if_true, lineItem, htk, v_ne_f.symm,
      vn_ne_f.symm, if_false] at h
    by_cases hs : findSlashes line = none
    · simp only [hs, if_true] at h
      rw [plainFaceItem_normalIndex h, (findSlashes_eq_none line).1 hs]
      rfl
    · simp only [hs, if_false] at h
      rw [slashedFaceItem_normalIndex h]
      have : containsSlashes line ≠ false := fun h0 => hs ((findSlashes_eq_none line).2 h0)
      simpa using this.symm
  · have h1 := (readItem_kind L h).2.2
    simp only [Bool.not_eq_true] at hfl
    rw [hfl] at h1
    rw [hfl, Bool.false_and]
    cases it <;> simp [Item.face?, Item.normalIndex?] at h1 ⊢

/-- The normal-index count that `readModelFile` hands over is the number of face lines
written with `//`. -/
theorem normalIndex_count_of_read {F : Type} (L : FloatLib F) (m0 : Model F)
    (lines : List (List Char)) (flag : Bool) (m1 : Model F)
    (h : readModelFile L (initModel m0) (some lines) = Outcome.ok (flag, m1)) :
    m1.numNormalIndices = lines.countP isSlashedFaceLine := by
  obtain ⟨-, items, hitems, -, hm⟩ := (readModelFile_ok_iff L m0 lines flag m1).1 h
  subst hm
  simp only [modelOfItems, filterMap_length_eq_countP]
  exact countP_items_eq L _ _ (fun l it hh => readItem_normalIndex_kind L hh) lines items hitems

/-! ## `load` as `readModelFile` followed by `setupData` -/

theorem ofOption_eq_ok {α : Type} (o : Option α) (a : α) :
    Outcome.ofOption o = Outcome.ok a ↔ o = some a := by
  cases o <;> simp [Outcome.ofOption]

/-- When `load` returns, `readModelFile` returned a model with vertices and `setupData`
returned on it. -/
theorem load_ok {F : Type} (L : FloatLib F) (m : Model F) (lines : List (List Char))
    (m2 : Model F) (h : load L m (some lines) = Outcome.ok m2) :
    ∃ flag items, fileItems L lines = some items ∧
      readModelFile L (initModel m) (some lines)
        = Outcome.ok (flag, modelOfItems m.drawingMethod items) ∧
      hasVertices (modelOfItems m.drawingMethod items) = true ∧
      setupData L (modelOfItems m.drawingMethod items) = Outcome.ok m2 := by
  unfold load at h
  cases hr : readModelFile L (initModel m) (some lines) with
  | exit code => simp [hr] at h
  | undefined => simp [hr] at h
  | ok p =>
    obtain ⟨flag, m1⟩ := p
    simp only [hr] at h
    obtain ⟨-, items, hitems, -, hm⟩ := (readModelFile_ok_iff L m lines flag m1).1 hr
    subst hm
    by_cases hv : hasVertices (modelOfItems m.drawingMethod items) = true
    · simp only [hv, if_true] at h
      exact ⟨flag, items, hitems, rfl, hv, h⟩
    · simp [hv] at h

theorem modelOfItems_has {F : Type} (dm : DrawingMethod) (items : List (Item F)) :
    (hasVertices (modelOfItems dm items) = true ↔ items.filterMap Item.vertex? ≠ []) ∧
    (hasFaces (modelOfItems dm items) = true ↔ items.filterMap Item.face? ≠ []) ∧
    (hasNormals (modelOfItems dm items) = true ↔ items.filterMap Item.normal? ≠ []) ∧
    (hasNormalIndices (modelOfItems dm items) = true ↔
      items.filterMap Item.normalIndex? ≠ []) := by
  simp [hasVertices, hasFaces, hasNormals, hasNormalIndices, modelOfItems, List.length_pos]

theorem nineTimes_of_le {n : Nat} (h : ((9 * n : Nat) : Int) ≤ INT_MAX) : nineTimes n = 9 * n := by
  have hI : INT_MAX = 2147483647 := by norm_num [INT_MAX]
  rw [hI] at h
  have hM : GLUINT_MOD = 4294967296 := by norm_num [GLUINT_MOD]
  unfold nineTimes
  rw [hM]
  omega

/-! ## Sizes of the arrays -/

/-- Claim C3, counterexample.  The file whose only line is `v 1 2 3`, loaded with
`DRAWING_AS_ARRAYS`: `load` returns, the vertex array holds 3 floats, `getNumVertices()` is
1 and `getNumFaces()` is 0, so the array does not hold `3 * faceCount * 3 = 0` floats and
`getNumVertices()` is not `3 * getNumFaces()`. -/
theorem arrays_vertices_only_not_three_per_face :
    ∃ m2, load intLib (construct DrawingMethod.DRAWING_AS_ARRAYS) (some ["v 1 2 3".toList])
        = Outcome.ok m2 ∧
      m2.vertexData = some ⟨3, [1, 2, 3]⟩ ∧ getNumVertices m2 = 1 ∧ getNumFaces m2 = 0 ∧
      getNumVertices m2 ≠ 3 * getNumFaces m2 :=
  ⟨{ modelOfItems DrawingMethod.DRAWING_AS_ARRAYS [(Item.vertex ⟨1, 2, 3⟩ : Item Int)] with
      vertexData := some ⟨3, [1, 2, 3]⟩ },
    by decide, by decide, by decide, by decide, by decide⟩

/-- Claim C3, amended.  For every file that has at least one face line and either no
normal line or at least one face line written with `//`, loaded with `DRAWING_AS_ARRAYS`:
when `load` returns, the vertex array holds exactly `3 * faceCount * 3` floats, where
`faceCount` is the number of face lines of the file; `getNumFaces()` is `faceCount`,
`getNumVertices()` is `3 * getNumFaces()` and the length of the vertex array is
`3 * getNumVertices()`. -/
theorem arrays_vertex_data_nine_per_face {F : Type} (L : FloatLib F) (m : Model F)
    (lines : List (List Char)) (m2 : Model F)
    (hdm : m.drawingMethod = DrawingMethod.DRAWING_AS_ARRAYS)
    (hload : load L m (some lines) = Outcome.ok m2)
    (hfaces : 0 < lines.countP isFaceLine)
    (hbranch : lines.countP isNormalLine = 0 ∨ 0 < lines.countP isSlashedFaceLine) :
    ∃ buf, m2.vertexData = some buf ∧
      buf.cells.length = 3 * lines.countP isFaceLine * 3 ∧
      buf.cap = buf.cells.length ∧
      getNumFaces m2 = lines.countP isFaceLine ∧
      getNumVertices m2 = 3 * getNumFaces m2 ∧
      buf.cap = 3 * getNumVertices m2 := by
  obtain ⟨flag, items, hitems, hread, hv, hsetup⟩ := load_ok L m lines m2 hload
  obtain ⟨c1, c2, c3⟩ := counts_of_read L m lines flag _ hread
  have c4 := normalIndex_count_of_read L m lines flag _ hread
  set m1 := modelOfItems m.drawingMethod items with hm1
  have hfl : m1.faces.length = lines.countP isFaceLine := by
    rw [← c3]; rfl
  have hf : hasFaces m1 = true := by simp [hasFaces, c3, hfaces]
  have hne : m1.faces ≠ [] := by
    intro h0; rw [h0] at hfl; simp at hfl; omega
  have hd : m1.drawingMethod = DrawingMethod.DRAWING_AS_ARRAYS := hdm
  unfold setupData at hsetup
  simp only [hd, if_true, hv, hf, Bool.true_and] at hsetup
  by_cases hn : hasNormals m1 = true
  · have hni : hasNormalIndices m1 = true := by
      rcases hbranch with h0 | h0
      · simp [hasNormals, c2, h0] at hn
      · simp [hasNormalIndices, c4, h0]
    simp only [hn, hni, Bool.not_true, Bool.false_eq_true, if_false, Bool.and_self,
      if_true] at hsetup
    rw [ofOption_eq_ok] at hsetup
    obtain ⟨i1, -, i2, -, i3⟩ := setupIndexed_some m1 m2 hsetup
    obtain ⟨j1, j2⟩ := i2 hne
    have hl := flatMap_cornerFloats_length m1.vertices m1.faces i1
    have hnf : m1.numFaces = m1.faces.length := rfl
    refine ⟨_, by rw [i3], ?_, ?_, ?_, ?_, ?_⟩
    · simp only [hl, hfl]; ring
    · simp only [hl, hnf, nineTimes_of_le j2]
    · rw [i3]; exact c3
    · rw [i3]; simp only [getNumVertices, getNumFaces, hnf]
    · rw [i3]; simp only [getNumVertices, hnf, nineTimes_of_le j2]; omega
  · simp only [Bool.not_eq_true] at hn
    simp only [hn, Bool.not_false, if_true] at hsetup
    rw [ofOption_eq_ok] at hsetup
    obtain ⟨i1, i2, i3⟩ := setupGenerated_some L m1 m2 hsetup
    obtain ⟨j1, j2⟩ := i2 hne
    have hl := flatMap_cornerFloats_length m1.vertices m1.faces i1
    have hnf : m1.numFaces = m1.faces.length := rfl
    refine ⟨_, by rw [i3], ?_, ?_, ?_, ?_, ?_⟩
    · simp only [hl, hfl]; ring
    · simp only [hl, hnf, nineTimes_of_le j2]
    · rw [i3]; exact c3
    · rw [i3]; simp only [getNumVertices, getNumFaces, hnf]
    · rw [i3]; simp only [getNumVertices, hnf, nineTimes_of_le j2]; omega

/-- Witness of `arrays_vertex_data_nine_per_face`: four vertices and two faces. -/
theorem arrays_vertex_data_nine_per_face_witness :
    ∃ (m2 : Model Int) (buf : Buffer Int),
      load intLib (construct DrawingMethod.DRAWING_AS_ARRAYS)
        (some ["v 0 0 0".toList, "v 1 0 0".toList, "v 0 1 0".toList, "v 1 1 5".toList,
          "f 1 2 3".toList, "f 2 4 3".toList]) = Outcome.ok m2 ∧
      m2.vertexData = some buf ∧ buf.cells.length = 3 * 2 * 3 ∧ buf.cap = buf.cells.length ∧
      getNumFaces m2 = 2 ∧ getNumVertices m2 = 3 * getNumFaces m2 ∧
      buf.cap = 3 * getNumVertices m2 := by
  have hload : load intLib (construct DrawingMethod.DRAWING_AS_ARRAYS)
      (some ["v 0 0 0".toList, "v 1 0 0".toList, "v 0 1 0".toList, "v 1 1 5".toList,
        "f 1 2 3".toList, "f 2 4 3".toList])
      = Outcome.ok { modelOfItems DrawingMethod.DRAWING_AS_ARRAYS
          [(Item.vertex ⟨0, 0, 0⟩ : Item Int), Item.vertex ⟨1, 0, 0⟩, Item.vertex ⟨0, 1, 0⟩,
            Item.vertex ⟨1, 1, 5⟩, Item.face ⟨1, 2, 3⟩, Item.face ⟨2, 4, 3⟩] with
        vertexData := some ⟨18, [0, 0, 0, 1, 0, 0, 0, 1, 0, 1, 0, 0, 1, 1, 5, 0, 1, 0]⟩
        normalData := some ⟨18, [0, 0, 1, 0, 0, 1, 0, 0, 1, -5, -5, 1, -5, -5, 1, -5, -5, 1]⟩
        numVertices := 6
        numNormals := 6 } := by decide
  have hcount : ["v 0 0 0".toList, "v 1 0 0".toList, "v 0 1 0".toList, "v 1 1 5".toList,
      "f 1 2 3".toList, "f 2 4 3".toList].countP isFaceLine = 2 := by decide
  obtain ⟨buf, h1, h2, h3, h4, h5, h6⟩ := arrays_vertex_data_nine_per_face intLib
    (construct DrawingMethod.DRAWING_AS_ARRAYS) _ _ rfl hload (by decide) (by decide)
  rw [hcount] at h2 h4
  exact ⟨_, buf, hload, h1, h2, h3, h4, h5, h6⟩

/-- Claim C7, the code at the failing inputs.  Loaded with `DRAWING_AS_ARRAYS`, a file with
vertices and normals (`v 0 0 0`, `vn 0 0 1`) and a file with vertices, normals and faces
without normal indices (three `v` lines, `vn 0 0 1`, `f 1 2 3`) both make `load` return
with the vertex array still null, while `getNumVertices()` is 1 resp. 3 and
`getVertexDataSizeBytes()` is 12 resp. 36. -/
theorem arrays_supported_kinds_left_without_vertex_data :
    (∃ m2, load intLib (construct DrawingMethod.DRAWING_AS_ARRAYS)
        (some ["v 0 0 0".toList, "vn 0 0 1".toList]) = Outcome.ok m2 ∧
      m2.vertexData = none ∧ getNumVertices m2 = 1 ∧ getVertexDataSizeBytes m2 = 12) ∧
    (∃ m2, load intLib (construct DrawingMethod.DRAWING_AS_ARRAYS)
        (some ["v 0 0 0".toList, "v 1 0 0".toList, "v 0 1 0".toList, "vn 0 0 1".toList,
          "f 1 2 3".toList]) = Outcome.ok m2 ∧
      m2.vertexData = none ∧ getNumVertices m2 = 3 ∧ getVertexDataSizeBytes m2 = 36) :=
  ⟨⟨modelOfItems DrawingMethod.DRAWING_AS_ARRAYS
      [(Item.vertex ⟨0, 0, 0⟩ : Item Int), Item.normal ⟨0, 0, 1⟩],
      by decide, by decide, by decide, by decide⟩,
    ⟨modelOfItems DrawingMethod.DRAWING_AS_ARRAYS
      [(Item.vertex ⟨0, 0, 0⟩ : Item Int), Item.vertex ⟨1, 0, 0⟩, Item.vertex ⟨0, 1, 0⟩,
        Item.normal ⟨0, 0, 1⟩, Item.face ⟨1, 2, 3⟩],
      by decide, by decide, by decide, by decide⟩⟩

/-- Claim C2, the code at the failing input.  Loaded with `DRAWING_AS_ELEMENTS`, the file
with the four vertices `(0,0,0)`, `(1,0,0)`, `(0,1,0)`, `(1,1,5)` and the faces `1 2 3` and
`2 4 3` makes `load` return with a vertex array of 18 floats, the positions of the six
corners face after face: `getNumVertices()` is 6 while the file has 4 `v` lines, and the
vertices `(1,0,0)` and `(0,1,0)`, which both faces use, are there twice.  The face data is
`0 1 2 1 3 2`, the numbers of the file minus one. -/
theorem elements_vertex_data_repeats_shared_vertices :
    ∃ m2, load intLib (construct DrawingMethod.DRAWING_AS_ELEMENTS)
        (some ["v 0 0 0".toList, "v 1 0 0".toList, "v 0 1 0".toList, "v 1 1 5".toList,
          "f 1 2 3".toList, "f 2 4 3".toList]) = Outcome.ok m2 ∧
      m2.vertexData = some ⟨18, [0, 0, 0, 1, 0, 0, 0, 1, 0, 1, 0, 0, 1, 1, 5, 0, 1, 0]⟩ ∧
      getNumVertices m2 = 6 ∧
      ["v 0 0 0".toList, "v 1 0 0".toList, "v 0 1 0".toList, "v 1 1 5".toList,
          "f 1 2 3".toList, "f 2 4 3".toList].countP isVertexLine = 4 ∧
      m2.faceData = some ⟨6, [0, 1, 2, 1, 3, 2]⟩ :=
  ⟨{ modelOfItems DrawingMethod.DRAWING_AS_ELEMENTS
        [(Item.vertex ⟨0, 0, 0⟩ : Item Int), Item.vertex ⟨1, 0, 0⟩, Item.vertex ⟨0, 1, 0⟩,
          Item.vertex ⟨1, 1, 5⟩, Item.face ⟨1, 2, 3⟩, Item.face ⟨2, 4, 3⟩] with
      vertexData := some ⟨18, [0, 0, 0, 1, 0, 0, 0, 1, 0, 1, 0, 0, 1, 1, 5, 0, 1, 0]⟩
      normalData := some ⟨18, [0, 0, 1, 0, 0, 1, 0, 0, 1, -5, -5, 1, -5, -5, 1, -5, -5, 1]⟩
      faceData := some ⟨6, [0, 1, 2, 1, 3, 2]⟩
      numVertices := 6
      numNormals := 6 },
    by decide, by decide, by decide, by decide, by decide⟩

/-! ## The numbers of a face line, as written and as stored -/

theorem readDigits_append_nondigit (s : List Char) :
    ∀ (acc : Nat) (c : Char) (r : List Char), isdigit c = false →
      readDigits acc (s ++ c :: r) = readDigits acc s := by
  induction s with
  | nil => intro acc c r hc; simp [readDigits, hc]
  | cons d s ih =>
    intro acc c r hc
    by_cases hd : isdigit d = true
    · simp only [List.cons_append, readDigits, hd, if_true]
      exact ih _ c r hc
    · simp [readDigits, hd]

theorem decimalValue_cons_space {c : Char} (hc : isspace c = true) (s : List Char) :
    decimalValue (c :: s) = decimalValue s := by
  simp [decimalValue, List.dropWhile, hc]

theorem decimalValue_cons_nonspace {c : Char} (hc : isspace c = false) (s : List Char) :
    decimalValue (c :: s) =
      if c = '-' then -((readDigits 0 s : Nat) : Int)
      else if c = '+' then ((readDigits 0 s : Nat) : Int)
      else ((readDigits 0 (c :: s) : Nat) : Int) := by
  have hdw : List.dropWhile isspace (c :: s) = c :: s := by simp [List.dropWhile, hc]
  unfold decimalValue
  rw [hdw]
  split
  · rename_i h; simp at h; simp [h.1, h.2]
  · rename_i h; simp at h
    have : c ≠ '-' := by rw [h.1]; decide
    simp [h.1, h.2]
  · rename_i h1 h2
    have n1 : c ≠ '-' := fun h => h1 s (by rw [h])
    have n2 : c ≠ '+' := fun h => h2 s (by rw [h])
    simp [n1, n2]

theorem decimalValue_append_slash (pre : List Char) :
    ∀ r : List Char, decimalValue (pre ++ '/' :: r) = decimalValue pre := by
  have hsl : isdigit '/' = false := by decide
  induction pre with
  | nil =>
    intro r
    have : isspace '/' = false := by decide
    rw [List.nil_append, decimalValue_cons_nonspace this]
    simp [readDigits, hsl, decimalValue]
  | cons c pre ih =>
    intro r
    by_cases hc : isspace c = true
    · rw [List.cons_append, decimalValue_cons_space hc, decimalValue_cons_space hc, ih]
    · simp only [Bool.not_eq_true] at hc
      rw [List.cons_append, decimalValue_cons_nonspace hc, decimalValue_cons_nonspace hc,
        readDigits_append_nondigit pre 0 '/' r hsl]
      have := readDigits_append_nondigit (c :: pre) 0 '/' r hsl
      simp only [List.cons_append] at this
      rw [this]

theorem findSlashesFrom_some (t : List Char) :
    ∀ (i q : Nat), findSlashesFrom i t = some q →
      ∃ pre rest, t = pre ++ '/' :: '/' :: rest ∧ q = i + pre.length := by
  induction t with
  | nil => intro i q h; simp [findSlashesFrom] at h
  | cons a t ih =>
    intro i q h
    cases t with
    | nil => simp [findSlashesFrom] at h
    | cons b cs =>
      by_cases hab : a = '/' ∧ b = '/'
      · simp only [findSlashesFrom, hab, and_self, if_true, Option.some.injEq] at h
        exact ⟨[], cs, by simp [hab.1, hab.2], by simp [h]⟩
      · simp only [findSlashesFrom, hab, if_false] at h
        obtain ⟨pre, rest, h1, h2⟩ := ih (i + 1) q h
        exact ⟨a :: pre, rest, by simp [h1], by simp [h2]; omega⟩

theorem splitFaceToken_some {t ft nt : List Char} (h : splitFaceToken t = some (ft, nt)) :
    decimalValue ft = cornerVertexIndex t ∧
      (∀ x, cornerNormalIndex t = some x → decimalValue nt = x) := by
  unfold splitFaceToken at h
  unfold cornerVertexIndex cornerNormalIndex
  cases hf : findSlashes t with
  | none =>
    simp only [hf, substr, Nat.not_lt_zero, if_false, List.drop_zero, Option.bind_eq_bind,
      Option.some_bind, bind, pure] at h
    by_cases hl : t.length < 1
    · simp [hl] at h
    · simp only [hl, if_false, Option.some_bind, Option.some.injEq, Prod.mk.injEq] at h
      refine ⟨by rw [h.1], ?_⟩
      intro x hx; simp at hx
  | some p =>
    obtain ⟨pre, rest, h1, h2⟩ := findSlashesFrom_some t 0 p hf
    simp only [Nat.zero_add] at h2
    simp only [hf, substr, Nat.not_lt_zero, if_false, List.drop_zero, Option.bind_eq_bind,
      Option.some_bind, bind, pure] at h
    by_cases hl : t.length < p + 2
    · simp [hl] at h
    · simp only [hl, if_false, Option.some_bind, Option.some.injEq, Prod.mk.injEq] at h
      obtain ⟨e1, e2⟩ := h
      constructor
      · rw [← e1, h1, h2, List.take_left', decimalValue_append_slash]
        rfl
      · intro x hx
        simp only [Option.map_some', Option.some.injEq] at hx
        rw [← e2, ← hx]

theorem atoi_some {s : List Char} {v : Int} (h : atoi s = some v) :
    v = decimalValue s ∧ INT_MIN ≤ v ∧ v ≤ INT_MAX := by
  unfold atoi at h
  by_cases hr : INT_MIN ≤ decimalValue s ∧ decimalValue s ≤ INT_MAX
  · simp only [hr, and_self, if_true, Option.some.injEq] at h
    subst h
    exact ⟨rfl, hr.1, hr.2⟩
  · simp [hr] at h

theorem storedExactly_plain (v : Int) : StoredExactly v ((f32OfNat (toGLuint v) : Nat) : Int) := by
  intro h0 h1
  unfold FLOAT_EXACT_MAX at h1
  rw [toGLuint_of_nonneg h0 (by omega), f32OfNat_of_le (by omega)]
  omega

theorem storedExactly_slashed (v : Int) : StoredExactly v (f32OfInt v) := by
  intro h0 h1
  exact f32OfInt_of_le h0 h1

theorem plainFaceItem_refines {F : Type} {a b c : List Char} {it : Item F}
    (h : plainFaceItem a b c = some it) :
    ∃ f, it = Item.face f ∧
      StoredExactly3 ⟨cornerVertexIndex a, cornerVertexIndex b, cornerVertexIndex c⟩ f := by
  unfold plainFaceItem at h
  cases h1 : atoi a with
  | none => simp [h1] at h
  | some v1 =>
    cases h2 : atoi b with
    | none => simp [h1, h2] at h
    | some v2 =>
      cases h3 : atoi c with
      | none => simp [h1, h2, h3] at h
      | some v3 =>
        simp only [h1, h2, h3, Option.bind_eq_bind, Option.some_bind, bind, pure,
          Option.some.injEq] at h
        refine ⟨_, h.symm, ?_⟩
        unfold cornerVertexIndex
        rw [← (atoi_some h1).1, ← (atoi_some h2).1, ← (atoi_some h3).1]
        exact ⟨storedExactly_plain v1, storedExactly_plain v2, storedExactly_plain v3⟩

theorem slashedFaceItem_refines {F : Type} {a b c : List Char} {it : Item F}
    (h : slashedFaceItem a b c = some it) :
    ∃ f n, it = Item.faceWithNormals f n ∧
      StoredExactly3 ⟨cornerVertexIndex a, cornerVertexIndex b, cornerVertexIndex c⟩ f ∧
      ∀ x y z, cornerNormalIndex a = some x → cornerNormalIndex b = some y →
        cornerNormalIndex c = some z → StoredExactly3 ⟨x, y, z⟩ n := by
  unfold slashedFaceItem at h
  simp only [Option.bind_eq_bind, Option.bind_eq_some, bind, pure] at h
  obtain ⟨⟨fa, na⟩, ha, ⟨fb, nb⟩, hb, ⟨fc, nc⟩, hc, n1, hn1, n2, hn2, n3, hn3,
    f1, hf1, f2, hf2, f3, hf3, h⟩ := h
  simp only [Option.some.injEq] at h
  refine ⟨_, _, h.symm, ?_, ?_⟩
  · rw [← (splitFaceToken_some ha).1, ← (splitFaceToken_some hb).1,
      ← (splitFaceToken_some hc).1, ← (atoi_some hf1).1, ← (atoi_some hf2).1,
      ← (atoi_some hf3).1]
    exact ⟨storedExactly_slashed f1, storedExactly_slashed f2, storedExactly_slashed f3⟩
  · intro x y z hx hy hz
    rw [← (splitFaceToken_some ha).2 x hx, ← (splitFaceToken_some hb).2 y hy,
      ← (splitFaceToken_some hc).2 z hz, ← (atoi_some hn1).1, ← (atoi_some hn2).1,
      ← (atoi_some hn3).1]
    exact ⟨storedExactly_slashed n1, storedExactly_slashed n2, storedExactly_slashed n3⟩

/-- What a line contributes, against what the line writes in the words of the format. -/
theorem readItem_refines {F : Type} (L : FloatLib F) {line : List Char} {it : Item F}
    (h : readItem L line = some it) :
    it.vertex? = lineVertex L line ∧ it.normal? = lineNormal L line ∧
    (faceLineIndices line = none → it.face? = none) ∧
    (∀ idx, faceLineIndices line = some idx → ∃ f, it.face? = some f ∧ StoredExactly3 idx f) ∧
    (∀ nidx, faceLineNormalIndices line = some nidx →
      ∃ n, it.normalIndex? = some n ∧ StoredExactly3 nidx n) := by
  obtain ⟨k1, k2, k3⟩ := readItem_kind L h
  unfold isVertexLine at k1
  unfold isNormalLine at k2
  unfold isFaceLine at k3
  unfold lineVertex lineNormal faceLineIndices faceLineNormalIndices
  by_cases hlen : (tokenize line).length = 4
  · rcases htk : tokenize line with _ | ⟨t0, _ | ⟨x, _ | ⟨y, _ | ⟨z, _ | ⟨w, rest⟩⟩⟩⟩⟩ <;>
      rw [htk] at hlen <;> simp at hlen
    simp only [readItem, length_of_four_tokens htk, if_true, lineItem, htk] at h
    by_cases hv : t0 = ['v']
    · subst hv
      by_cases hz : z = ['v', 'n'] ∨ z = ['f']
      · simp [hz] at h
      · simp only [hz, if_true, if_false, Option.some.injEq] at h
        subst h
        simp [Item.vertex?, Item.normal?, Item.face?, Item.normalIndex?, v_ne_vn, v_ne_f]
    · by_cases hn : t0 = ['v', 'n']
      · subst hn
        by_cases hz : z = ['f']
        · simp [hz, v_ne_vn.symm] at h
        · simp only [v_ne_vn.symm, hz, if_true, if_false, Option.some.injEq] at h
          subst h
          simp [Item.vertex?, Item.normal?, Item.face?, Item.normalIndex?, v_ne_vn.symm, vn_ne_f]
      · by_cases hf : t0 = ['f']
        · subst hf
          simp only [v_ne_f.symm, vn_ne_f.symm, if_true, if_false] at h
          by_cases hs : findSlashes line = none
          · simp only [hs, if_true] at h
            obtain ⟨f, rfl, hst⟩ := plainFaceItem_refines h
            have hcs := (findSlashes_eq_none line).1 hs
            rw [← tokenize_any_containsSlashes, htk] at hcs
            simp only [List.any_cons, List.any_nil, Bool.or_false, Bool.or_eq_false_iff] at hcs
            have hx : cornerNormalIndex x = none := by
              simp [cornerNormalIndex, (findSlashes_eq_none x).2 hcs.2.1]
            simp [Item.vertex?, Item.normal?, Item.face?, Item.normalIndex?, v_ne_f.symm,
              vn_ne_f.symm, hst, hx]
          · simp only [hs, if_false] at h
            obtain ⟨f, n, rfl, hst, hnt⟩ := slashedFaceItem_refines h
            simp only [Item.vertex?, Item.normal?, Item.face?, Item.normalIndex?, v_ne_f.symm,
              vn_ne_f.symm, if_false, if_true, true_and, Option.some.injEq, reduceCtorEq,
              false_implies, forall_eq', exists_eq_left', hst]
            intro nidx hnidx
            cases hx : cornerNormalIndex x with
            | none => simp [hx] at hnidx
            | some vx =>
              cases hy : cornerNormalIndex y with
              | none => simp [hx, hy] at hnidx
              | some vy =>
                cases hz : cornerNormalIndex z with
                | none => simp [hx, hy, hz] at hnidx
                | some vz =>
                  simp only [hx, hy, hz, Option.some.injEq] at hnidx
                  subst hnidx
                  exact hnt vx vy vz hx hy hz
        · simp only [hv, hn, hf, if_false, Option.some.injEq] at h
          subst h
          simp [Item.vertex?, Item.normal?, Item.face?, Item.normalIndex?, hv, hn, hf]
  · have hnot : ∀ (α : Type) (g : List Char → List Char → List Char → List Char → Option α),
        (match tokenize line with
          | [t0, a, b, c] => g t0 a b c
          | _ => none) = none := by
      intro α g
      generalize tokenize line = tk at hlen
      rcases tk with _ | ⟨x, _ | ⟨y, _ | ⟨z, _ | ⟨w, _ | ⟨u, rest⟩⟩⟩⟩⟩ <;> simp at hlen ⊢
    have hnotb : ∀ (g : List Char → Bool),
        (match tokenize line with
          | [t0, _, _, _] => g t0
          | _ => false) = false := by
      intro g
      generalize tokenize line = tk at hlen
      rcases tk with _ | ⟨x, _ | ⟨y, _ | ⟨z, _ | ⟨w, _ | ⟨u, rest⟩⟩⟩⟩⟩ <;> simp at hlen ⊢
    rw [hnotb] at k1 k2 k3
    rw [hnot, hnot, hnot, hnot]
    have e1 : it.vertex? = none := by simpa using k1
    have e2 : it.normal? = none := by simpa using k2
    have e3 : it.face? = none := by simpa using k3
    refine ⟨e1, e2, fun _ => e3, ?_, ?_⟩
    · intro idx hidx; cases hidx
    · intro nidx hnidx; cases hnidx

/-! ## The vectors handed over, against the content of the file -/

theorem forall₂_filterMap_of_fileItems {F α β : Type} (L : FloatLib F)
    (g : List Char → Option α) (k : Item F → Option β) (R : α → β → Prop)
    (P : List Char → Prop)
    (hstep : ∀ l it, P l → readItem L l = some it →
      (g l = none ∧ k it = none) ∨ (∃ a b, g l = some a ∧ k it = some b ∧ R a b))
    (lines : List (List Char)) :
    ∀ items : List (Item F), (∀ l ∈ lines, P l) → fileItems L lines = some items →
      List.Forall₂ R (lines.filterMap g) (items.filterMap k) := by
  induction lines with
  | nil => intro items _ h; simp [fileItems] at h; subst h; simp
  | cons l ls ih =>
    intro items hP h
    obtain ⟨it, rest, h1, h2, rfl⟩ := (fileItems_cons L l ls items).1 h
    have ih2 := ih rest (fun x hx => hP x (List.mem_cons_of_mem l hx)) h2
    rcases hstep l it (hP l (List.mem_cons_self l ls)) h1 with ⟨e1, e2⟩ | ⟨a, b, e1, e2, hr⟩
    · simp only [List.filterMap_cons, e1, e2]
      exact ih2
    · simp only [List.filterMap_cons, e1, e2]
      exact List.Forall₂.cons hr ih2

theorem vertices_of_fileItems {F : Type} (L : FloatLib F) (lines : List (List Char))
    (items : List (Item F)) (h : fileItems L lines = some items) :
    items.filterMap Item.vertex? = fileVertices L lines ∧
      items.filterMap Item.normal? = fileNormals L lines := by
  constructor
  · have := forall₂_filterMap_of_fileItems L (lineVertex L) Item.vertex? (fun a b => a = b)
      (fun _ => True) (fun l it _ hh => by
        have e := (readItem_refines L hh).1
        cases hv : lineVertex L l with
        | none => left; exact ⟨rfl, by rw [e, hv]⟩
        | some v => right; exact ⟨v, v, rfl, by rw [e, hv], rfl⟩)
      lines items (fun _ _ => trivial) h
    rw [List.forall₂_eq_eq_eq] at this
    exact this.symm
  · have := forall₂_filterMap_of_fileItems L (lineNormal L) Item.normal? (fun a b => a = b)
      (fun _ => True) (fun l it _ hh => by
        have e := (readItem_refines L hh).2.1
        cases hv : lineNormal L l with
        | none => left; exact ⟨rfl, by rw [e, hv]⟩
        | some v => right; exact ⟨v, v, rfl, by rw [e, hv], rfl⟩)
      lines items (fun _ _ => trivial) h
    rw [List.forall₂_eq_eq_eq] at this
    exact this.symm

theorem faces_of_fileItems {F : Type} (L : FloatLib F) (lines : List (List Char))
    (items : List (Item F)) (h : fileItems L lines = some items) :
    List.Forall₂ StoredExactly3 (fileFaces lines) (items.filterMap Item.face?) :=
  forall₂_filterMap_of_fileItems L faceLineIndices Item.face? StoredExactly3
    (fun _ => True) (fun l it _ hh => by
      obtain ⟨-, -, r1, r2, -⟩ := readItem_refines L hh
      cases hv : faceLineIndices l with
      | none => left; exact ⟨rfl, r1 hv⟩
      | some idx =>
        right
        obtain ⟨f, hf, hs⟩ := r2 idx hv
        exact ⟨idx, f, rfl, hf, hs⟩)
    lines items (fun _ _ => trivial) h

theorem faceLineNormalIndices_isFaceLine {line : List Char} {nidx : Vec3 Int}
    (h : faceLineNormalIndices line = some nidx) : isFaceLine line = true := by
  unfold faceLineNormalIndices at h
  unfold isFaceLine
  rcases htk : tokenize line with _ | ⟨t0, _ | ⟨x, _ | ⟨y, _ | ⟨z, _ | ⟨w, rest⟩⟩⟩⟩⟩ <;>
    rw [htk] at h <;> simp at h ⊢
  by_cases hf : t0 = ['f']
  · exact hf
  · simp [hf] at h

theorem normalIndices_of_fileItems {F : Type} (L : FloatLib F) (lines : List (List Char))
    (items : List (Item F)) (h : fileItems L lines = some items)
    (hall : ∀ line ∈ lines, isFaceLine line = true → (faceLineNormalIndices line).isSome = true) :
    List.Forall₂ StoredExactly3 (fileNormalIndices lines) (items.filterMap Item.normalIndex?) :=
  forall₂_filterMap_of_fileItems L faceLineNormalIndices Item.normalIndex? StoredExactly3
    (fun line => isFaceLine line = true → (faceLineNormalIndices line).isSome = true)
    (fun l it hP hh => by
      obtain ⟨-, -, -, -, r3⟩ := readItem_refines L hh
      cases hv : faceLineNormalIndices l with
      | none =>
        left
        refine ⟨rfl, ?_⟩
        have hk := readItem_normalIndex_kind L hh
        by_cases hfl : isFaceLine l = true
        · have := hP hfl
          rw [hv] at this
          cases this
        · simp only [Bool.not_eq_true] at hfl
          simp only [isSlashedFaceLine, hfl, Bool.false_and] at hk
          simpa using hk
      | some nidx =>
        right
        obtain ⟨n, hn, hs⟩ := r3 nidx hv
        exact ⟨nidx, n, rfl, hn, hs⟩)
    lines items hall h

/-! ## Reading one face out of an array -/

theorem flatMap_chunk {α β : Type} (g : α → List β) (k : Nat) (l : List α) :
    ∀ (f : Nat) (hf : f < l.length), (∀ a ∈ l, (g a).length = k) →
      ((l.flatMap g).drop (k * f)).take k = g l[f] := by
  induction l with
  | nil => intro f hf; simp at hf
  | cons a l ih =>
    intro f hf hk
    have ha := hk a (List.mem_cons_self a l)
    cases f with
    | zero =>
      simp only [Nat.mul_zero, List.drop_zero, List.flatMap_cons, List.getElem_cons_zero]
      rw [← ha, List.take_left']
      rfl
    | succ f =>
      simp only [List.flatMap_cons, List.getElem_cons_succ]
      have hf2 : f < l.length := by simpa using hf
      rw [← ih f hf2 fun x hx => hk x (List.mem_cons_of_mem a hx)]
      congr 1
      have : k * (f + 1) = (g a).length + k * f := by rw [ha]; ring
      rw [this, List.drop_append]

theorem getElem?_of_chunk {β : Type} (cells chunk : List β) (k f j : Nat)
    (h : (cells.drop (k * f)).take k = chunk) (hj : j < k) :
    cells[k * f + j]? = chunk[j]? := by
  rw [← h, List.getElem?_take_of_lt hj, List.getElem?_drop]

/-! ## The element section -/

theorem element_of_stored {idx s : Int} {x : Nat} (hst : StoredExactly idx s)
    (h1 : 1 ≤ idx) (h2 : idx ≤ FLOAT_EXACT_MAX)
    (hx : floatToGLuint (f32OfInt (s - 1)) = some x) : (x : Int) = idx - 1 := by
  have hs : s = idx := hst (by omega) h2
  subst hs
  unfold FLOAT_EXACT_MAX at h2
  rw [f32OfInt_of_le (by omega) (by omega)] at hx
  unfold floatToGLuint at hx
  have hr : 0 ≤ s - 1 ∧ s - 1 < 2 ^ 32 := ⟨by omega, by norm_num; omega⟩
  simp only [hr, and_self, if_true, Option.some.injEq] at hx
  rw [← hx]
  omega

/-- When `setupData` returns in the element section, it ran the block that expands the
faces and then the block that builds the face data. -/
theorem setupData_elements_ok {F : Type} (L : FloatLib F) (m m2 : Model F)
    (hdm : m.drawingMethod = DrawingMethod.DRAWING_AS_ELEMENTS)
    (h : setupData L m = Outcome.ok m2) :
    ∃ m1, setupGenerated L m = some m1 ∧ setupFaceData m1 = some m2 := by
  unfold setupData at h
  have hd : ¬ m.drawingMethod = DrawingMethod.DRAWING_AS_ARRAYS := by rw [hdm]; decide
  simp only [hd, if_false] at h
  by_cases hvf : (hasVertices m && hasFaces m) = true
  · simp only [hvf, if_true] at h
    cases hg : setupGenerated L m with
    | none => simp [hg] at h
    | some m1 =>
      simp only [hg] at h
      by_cases hf1 : hasFaces m1 = true
      · simp only [hf1, if_true, ofOption_eq_ok] at h
        exact ⟨m1, rfl, h⟩
      · simp [hf1] at h
  · simp [hvf] at h

/-- Claim C1, amended.  For every file loaded with `DRAWING_AS_ELEMENTS` (the call of
`load` returns): the face data holds three numbers per face line of the file, and for every
face number `f` and each of the three vertex indices `i` of that face line, if
`1 ≤ i ≤ 16777216` then the face data holds `i - 1` at the matching position:
`faceData[3*f + k] == fileIndex(f, k) - 1`. -/
theorem elements_face_data_is_file_index_minus_one {F : Type} (L : FloatLib F) (m : Model F)
    (lines : List (List Char)) (m2 : Model F)
    (hdm : m.drawingMethod = DrawingMethod.DRAWING_AS_ELEMENTS)
    (hload : load L m (some lines) = Outcome.ok m2) :
    ∃ fd, m2.faceData = some fd ∧ fd.cells.length = 3 * (fileFaces lines).length ∧
      ∀ (f : Nat) (hf : f < (fileFaces lines).length),
        (1 ≤ (fileFaces lines)[f].x → (fileFaces lines)[f].x ≤ FLOAT_EXACT_MAX →
          ∃ n : Nat, fd.cells[3 * f]? = some n ∧ (n : Int) = (fileFaces lines)[f].x - 1) ∧
        (1 ≤ (fileFaces lines)[f].y → (fileFaces lines)[f].y ≤ FLOAT_EXACT_MAX →
          ∃ n : Nat, fd.cells[3 * f + 1]? = some n ∧ (n : Int) = (fileFaces lines)[f].y - 1) ∧
        (1 ≤ (fileFaces lines)[f].z → (fileFaces lines)[f].z ≤ FLOAT_EXACT_MAX →
          ∃ n : Nat, fd.cells[3 * f + 2]? = some n ∧ (n : Int) = (fileFaces lines)[f].z - 1) := by
  obtain ⟨flag, items, hitems, hread, hv, hsetup⟩ := load_ok L m lines m2 hload
  obtain ⟨m1, hg, hfd⟩ :=
    setupData_elements_ok L (modelOfItems m.drawingMethod items) m2 hdm hsetup
  obtain ⟨-, -, e1⟩ := setupGenerated_some L _ m1 hg
  obtain ⟨i1, -, e2⟩ := setupFaceData_some m1 m2 hfd
  have hfaces : m1.faces = items.filterMap Item.face? := by rw [e1]; rfl
  rw [hfaces] at i1 e2
  have hst := faces_of_fileItems L lines items hitems
  have hlen := hst.length_eq
  have hchunk : ∀ a ∈ items.filterMap (Item.face? (F := F)), (elementNumbers a).length = 3 := by
    intro a ha
    obtain ⟨x, y, z, -, -, -, e⟩ := i1 a ha
    rw [e]; rfl
  refine ⟨_, by rw [e2], ?_, ?_⟩
  · show ((items.filterMap (Item.face? (F := F))).flatMap elementNumbers).length = _
    rw [flatMap_length_const _ 3 _ hchunk, hlen]
  · intro f hf
    have hf2 : f < (items.filterMap (Item.face? (F := F))).length := by rw [← hlen]; exact hf
    have hrel : StoredExactly3 (fileFaces lines)[f] (items.filterMap (Item.face? (F := F)))[f] :=
      hst.get hf hf2
    obtain ⟨x, y, z, hx, hy, hz, e⟩ :=
      i1 _ (List.getElem_mem hf2)
    have hc := flatMap_chunk elementNumbers 3 _ f hf2 hchunk
    rw [e] at hc
    have c0 := getElem?_of_chunk _ _ 3 f 0 hc (by norm_num)
    have c1 := getElem?_of_chunk _ _ 3 f 1 hc (by norm_num)
    have c2 := getElem?_of_chunk _ _ 3 f 2 hc (by norm_num)
    simp only [add_zero, List.getElem?_cons_zero, List.getElem?_cons_succ] at c0 c1 c2
    refine ⟨fun h1 h2 => ⟨x, c0, element_of_stored hrel.1 h1 h2 hx⟩,
      fun h1 h2 => ⟨y, c1, element_of_stored hrel.2.1 h1 h2 hy⟩,
      fun h1 h2 => ⟨z, c2, element_of_stored hrel.2.2 h1 h2 hz⟩⟩

/-! ## When the blocks of `setupData` complete -/

theorem pushAll_of_room {α : Type} (vs : List α) :
    ∀ b : Buffer α, b.cells.length + vs.length ≤ b.cap →
      ((b.cells.length + vs.length : Nat) : Int) ≤ INT_MAX →
      b.pushAll vs = some ⟨b.cap, b.cells ++ vs⟩ := by
  induction vs with
  | nil => intro b _ _; simp [Buffer.pushAll]
  | cons v vs ih =>
    intro b h1 h2
    simp only [List.length_cons] at h1 h2
    have hc : b.cells.length < b.cap ∧ (b.cells.length : Int) < INT_MAX := by
      constructor
      · omega
      · push_cast at h2; omega
    rw [Buffer.pushAll, Buffer.push]
    simp only [hc, and_self, if_true, Option.some_bind]
    rw [ih]
    · simp
    · simp only [List.length_append, List.length_singleton]; omega
    · simp only [List.length_append, List.length_singleton]
      have : b.cells.length + 1 + vs.length = b.cells.length + (vs.length + 1) := by ring
      rw [this]; exact h2

theorem forEach_pushAll_of_room {α β : Type} (body : Buffer β → α → Option (Buffer β))
    (g : α → List β) (k : Nat) (l : List α)
    (hbody : ∀ b a, a ∈ l → body b a = b.pushAll (g a))
    (hk : ∀ a ∈ l, (g a).length = k) :
    ∀ b : Buffer β, b.cells.length + k * l.length ≤ b.cap →
      ((b.cells.length + k * l.length : Nat) : Int) ≤ INT_MAX →
      forEach body b l = some ⟨b.cap, b.cells ++ l.flatMap g⟩ := by
  induction l with
  | nil => intro b _ _; simp [forEach]
  | cons a l ih =>
    intro b h1 h2
    have ha := hk a (List.mem_cons_self a l)
    simp only [List.length_cons] at h1 h2
    have e : k * (l.length + 1) = k + k * l.length := by ring
    rw [e] at h1 h2
    rw [forEach_cons, hbody b a (List.mem_cons_self a l), pushAll_of_room]
    · simp only [Option.some_bind]
      rw [ih (fun b x hx => hbody b x (List.mem_cons_of_mem a hx))
        (fun x hx => hk x (List.mem_cons_of_mem a hx))]
      · simp
      · simp only [List.length_append, ha]; omega
      · simp only [List.length_append, ha]
        have : b.cells.length + k + k * l.length = b.cells.length + (k + k * l.length) := by ring
        rw [this]; exact h2
    · rw [ha]; omega
    · rw [ha]
      have h3 : ((b.cells.length + k : Nat) : Int) ≤ ((b.cells.length + (k + k * l.length) : Nat) : Int) := by
        push_cast; nlinarith [Nat.zero_le (k * l.length), Int.natCast_nonneg (k * l.length)]
      exact le_trans h3 h2

theorem expandCorners_of {F : Type} (vec : List (Vec3 F)) (b : Buffer F) (face : Vec3 Int)
    (h : (fetchCorners vec face).isSome = true) :
    expandCorners vec b face = b.pushAll (cornerFloats vec face) := by
  unfold expandCorners cornerFloats
  cases hf : fetchCorners vec face with
  | none => rw [hf] at h; cases h
  | some p => obtain ⟨x, y, z⟩ := p; rfl

theorem expandFaceWithNormal_of {F : Type} (L : FloatLib F) (vertices : List (Vec3 F))
    (vb nb : Buffer F) (face : Vec3 Int) (h : (fetchCorners vertices face).isSome = true) :
    expandFaceWithNormal L vertices (vb, nb) face =
      (vb.pushAll (cornerFloats vertices face)).bind fun vb1 =>
        (nb.pushAll (generatedNormalFloats L vertices face)).bind fun nb1 => some (vb1, nb1) := by
  unfold expandFaceWithNormal cornerFloats generatedNormalFloats
  cases hf : fetchCorners vertices face with
  | none => rw [hf] at h; cases h
  | some p => obtain ⟨x, y, z⟩ := p; rfl

theorem forEach_expandFaceWithNormal_of_room {F : Type} (L : FloatLib F)
    (vertices : List (Vec3 F)) (faces : List (Vec3 Int)) :
    ∀ (vb nb : Buffer F), (∀ face ∈ faces, (fetchCorners vertices face).isSome = true) →
      vb.cells.length + 9 * faces.length ≤ vb.cap →
      ((vb.cells.length + 9 * faces.length : Nat) : Int) ≤ INT_MAX →
      nb.cells.length + 9 * faces.length ≤ nb.cap →
      ((nb.cells.length + 9 * faces.length : Nat) : Int) ≤ INT_MAX →
      forEach (expandFaceWithNormal L vertices) (vb, nb) faces =
        some (⟨vb.cap, vb.cells ++ faces.flatMap (cornerFloats vertices)⟩,
          ⟨nb.cap, nb.cells ++ faces.flatMap (generatedNormalFloats L vertices)⟩) := by
  induction faces with
  | nil => intro vb nb _ _ _ _ _; simp [forEach]
  | cons a l ih =>
    intro vb nb hs h1 h2 h3 h4
    have ha := hs a (List.mem_cons_self a l)
    have l1 := cornerFloats_length ha
    have l2 := generatedNormalFloats_length L ha
    simp only [List.length_cons] at h1 h2 h3 h4
    have hI : INT_MAX = 2147483647 := by norm_num [INT_MAX]
    rw [hI] at h2 h4
    rw [forEach_cons, expandFaceWithNormal_of L vertices vb nb a ha,
      pushAll_of_room _ vb (by rw [l1]; omega) (by rw [l1, hI]; omega),
      pushAll_of_room _ nb (by rw [l2]; omega) (by rw [l2, hI]; omega)]
    simp only [Option.some_bind]
    rw [ih _ _ (fun x hx => hs x (List.mem_cons_of_mem a hx))]
    · simp
    · simp only [List.length_append, l1]; omega
    · simp only [List.length_append, l1, hI]; omega
    · simp only [List.length_append, l2]; omega
    · simp only [List.length_append, l2, hI]; omega

/-- The block that generates the normals completes whenever every face names three
vertices of the file and nine floats per face fit an `int` counter. -/
theorem setupGenerated_of {F : Type} (L : FloatLib F) (m : Model F)
    (hnum : m.numFaces = m.faces.length)
    (hs : ∀ face ∈ m.faces, (fetchCorners m.vertices face).isSome = true)
    (hroom : ((9 * m.faces.length : Nat) : Int) ≤ INT_MAX) :
    setupGenerated L m = some { m with
      vertexData := some ⟨9 * m.faces.length, m.faces.flatMap (cornerFloats m.vertices)⟩
      normalData := some
        ⟨9 * m.faces.length, m.faces.flatMap (generatedNormalFloats L m.vertices)⟩
      numVertices := 3 * m.faces.length
      numNormals := 3 * m.faces.length } := by
  have hn := nineTimes_of_le hroom
  have hb : ((3 * 3 * m.faces.length : Nat) : Int) ≤ INT_MAX := by
    have : (3 * 3 * m.faces.length : Nat) = 9 * m.faces.length := by ring
    rw [this]; exact hroom
  have key := forEach_expandFaceWithNormal_of_room L m.vertices m.faces
    (Buffer.alloc (9 * m.faces.length)) (Buffer.alloc (9 * m.faces.length)) hs
    (by simp [Buffer.alloc]) (by simpa [Buffer.alloc] using hroom)
    (by simp [Buffer.alloc]) (by simpa [Buffer.alloc] using hroom)
  simp only [Buffer.alloc, List.nil_append] at key
  unfold setupGenerated
  simp only [hnum, hn, key, Buffer.alloc, List.nil_append, Option.bind_eq_bind,
    Option.some_bind, bind, pure, Buffer.count,
    flatMap_cornerFloats_length m.vertices m.faces hs,
    flatMap_generatedNormalFloats_length L m.vertices m.faces hs,
    countToGLuint_mul 3 m.faces.length hb]

theorem threeTimes_of_le {n : Nat} (h : ((3 * n : Nat) : Int) ≤ INT_MAX) :
    n * 3 % GLUINT_MOD = 3 * n := by
  have hI : INT_MAX = 2147483647 := by norm_num [INT_MAX]
  rw [hI] at h
  have hM : GLUINT_MOD = 4294967296 := by norm_num [GLUINT_MOD]
  rw [hM]
  omega

theorem faceElements_of (b : Buffer Nat) (face : Vec3 Int)
    (h : (elementNumbers face).length = 3) :
    faceElements b face = b.pushAll (elementNumbers face) := by
  unfold faceElements
  unfold elementNumbers at h ⊢
  cases hx : floatToGLuint (f32OfInt (face.x - 1)) with
  | none => simp [hx] at h
  | some x =>
    cases hy : floatToGLuint (f32OfInt (face.y - 1)) with
    | none => simp [hx, hy] at h
    | some y =>
      cases hz : floatToGLuint (f32OfInt (face.z - 1)) with
      | none => simp [hx, hy, hz] at h
      | some z => rfl

/-- The block that builds the face data completes whenever every number of every face,
minus one, is a `GLuint` and three numbers per face fit an `int` counter. -/
theorem setupFaceData_of {F : Type} (m : Model F) (hnum : m.numFaces = m.faces.length)
    (hs : ∀ face ∈ m.faces, (elementNumbers face).length = 3)
    (hroom : ((3 * m.faces.length : Nat) : Int) ≤ INT_MAX) :
    setupFaceData m = some { m with
      faceData := some ⟨3 * m.faces.length, m.faces.flatMap elementNumbers⟩
      numFaces := m.faces.length } := by
  have hn := threeTimes_of_le hroom
  have hb : ((3 * 1 * m.faces.length : Nat) : Int) ≤ INT_MAX := by
    have : (3 * 1 * m.faces.length : Nat) = 3 * m.faces.length := by ring
    rw [this]; exact hroom
  have key := forEach_pushAll_of_room faceElements elementNumbers 3 m.faces
    (fun b a ha => faceElements_of b a (hs a ha)) hs (Buffer.alloc (3 * m.faces.length))
    (by simp [Buffer.alloc]) (by simpa [Buffer.alloc] using hroom)
  simp only [Buffer.alloc, List.nil_append] at key
  have hl : (m.faces.flatMap elementNumbers).length = 3 * 1 * m.faces.length :=
    (flatMap_length_const _ 3 m.faces hs).trans (by ring)
  unfold setupFaceData
  simp only [hnum, hn, key, Buffer.alloc, Option.bind_eq_bind, Option.some_bind, bind, pure,
    Buffer.count, hl, countToGLuint_mul 1 m.faces.length hb, one_mul]

/-- The block for vertices, faces, normals and normal indices completes whenever every
face names three vertices, every normal index names three normals, there are no more
normal indices than faces and nine floats per face fit an `int` counter. -/
theorem setupIndexed_of {F : Type} (m : Model F) (hnum : m.numFaces = m.faces.length)
    (hs : ∀ face ∈ m.faces, (fetchCorners m.vertices face).isSome = true)
    (hn : ∀ ni ∈ m.normalIndices, (fetchCorners m.normals ni).isSome = true)
    (hle : m.normalIndices.length ≤ m.faces.length)
    (hroom : ((9 * m.faces.length : Nat) : Int) ≤ INT_MAX) :
    setupIndexed m = some { m with
      vertexData := some ⟨9 * m.faces.length, m.faces.flatMap (cornerFloats m.vertices)⟩
      normalData := some
        ⟨9 * m.faces.length, m.normalIndices.flatMap (cornerFloats m.normals)⟩
      numVertices := 3 * m.faces.length
      numNormals := 3 * m.normalIndices.length } := by
  have h9 := nineTimes_of_le hroom
  have hI : INT_MAX = 2147483647 := by norm_num [INT_MAX]
  have hb : ((3 * 3 * m.faces.length : Nat) : Int) ≤ INT_MAX := by
    have : (3 * 3 * m.faces.length : Nat) = 9 * m.faces.length := by ring
    rw [this]; exact hroom
  have hb2 : ((3 * 3 * m.normalIndices.length : Nat) : Int) ≤ INT_MAX := by
    rw [hI] at hb ⊢; push_cast at hb ⊢; omega
  have key1 := forEach_pushAll_of_room (expandCorners m.vertices) (cornerFloats m.vertices) 9
    m.faces (fun b a ha => expandCorners_of m.vertices b a (hs a ha))
    (fun a ha => cornerFloats_length (hs a ha)) (Buffer.alloc (9 * m.faces.length))
    (by simp [Buffer.alloc]) (by simpa [Buffer.alloc] using hroom)
  have key2 := forEach_pushAll_of_room (expandCorners m.normals) (cornerFloats m.normals) 9
    m.normalIndices (fun b a ha => expandCorners_of m.normals b a (hn a ha))
    (fun a ha => cornerFloats_length (hn a ha)) (Buffer.alloc (9 * m.faces.length))
    (by simp only [Buffer.alloc, List.length_nil]; omega)
    (by simp only [Buffer.alloc, List.length_nil]; rw [hI] at hroom ⊢; push_cast at hroom ⊢; omega)
  simp only [Buffer.alloc, List.nil_append] at key1 key2
  unfold setupIndexed
  simp only [hnum, h9, key1, key2, Buffer.alloc, Option.bind_eq_bind, Option.some_bind, bind,
    pure, Buffer.count, flatMap_cornerFloats_length m.vertices m.faces hs,
    flatMap_cornerFloats_length m.normals m.normalIndices hn,
    countToGLuint_mul 3 m.faces.length hb, countToGLuint_mul 3 m.normalIndices.length hb2]

/-! ## Files with more than `2 ^ 24` vertices -/

theorem fileItems_replicate {F : Type} (L : FloatLib F) (l : List Char) (it : Item F)
    (h : readItem L l = some it) (n : Nat) :
    fileItems L (List.replicate n l) = some (List.replicate n it) := by
  induction n with
  | zero => rfl
  | succ n ih =>
    rw [List.replicate_succ, List.replicate_succ]
    exact (fileItems_cons L l _ _).2 ⟨it, _, h, ih, rfl⟩

theorem fileItems_manyVertices (n : Nat) (tail : List (List Char)) (items : List (Item Int))
    (h : fileItems intLib tail = some items) :
    fileItems intLib (manyVertices n tail)
      = some (List.replicate n (Item.vertex ⟨0, 0, 0⟩) ++ items) :=
  (fileItems_append intLib _ _ _).2
    ⟨_, _, fileItems_replicate intLib "v 0 0 0".toList (Item.vertex ⟨0, 0, 0⟩) (by decide) n, h,
      rfl⟩

theorem modelOfItems_manyVertices (dm : DrawingMethod) (n : Nat) (items : List (Item Int)) :
    modelOfItems dm (List.replicate n (Item.vertex ⟨0, 0, 0⟩) ++ items) =
      { modelOfItems dm items with
        vertices := List.replicate n ⟨0, 0, 0⟩ ++ (modelOfItems dm items).vertices
        numVertices := n + (modelOfItems dm items).numVertices } := by
  have h1 : (Item.vertex (⟨0, 0, 0⟩ : Vec3 Int)).vertex? = some ⟨0, 0, 0⟩ := rfl
  have h2 : (Item.vertex (⟨0, 0, 0⟩ : Vec3 Int)).normal? = none := rfl
  have h3 : (Item.vertex (⟨0, 0, 0⟩ : Vec3 Int)).face? = none := rfl
  have h4 : (Item.vertex (⟨0, 0, 0⟩ : Vec3 Int)).normalIndex? = none := rfl
  simp only [modelOfItems, List.filterMap_append, List.filterMap_replicate_of_some h1,
    List.filterMap_replicate_of_none h2, List.filterMap_replicate_of_none h3,
    List.filterMap_replicate_of_none h4, List.nil_append, List.length_append,
    List.length_replicate]

/-- Reading a file that starts with `n` vertex lines. -/
theorem readModelFile_manyVertices (dm : DrawingMethod) (n : Nat) (tail : List (List Char))
    (items : List (Item Int)) (h : fileItems intLib tail = some items)
    (hclean : items.any Item.isMalformed = false)
    (hlen : ((n + tail.length : Nat) : Int) ≤ INT_MAX) :
    readModelFile intLib (initModel (construct dm)) (some (manyVertices n tail))
      = Outcome.ok (true,
        { modelOfItems dm items with
          vertices := List.replicate n ⟨0, 0, 0⟩ ++ (modelOfItems dm items).vertices
          numVertices := n + (modelOfItems dm items).numVertices }) := by
  refine (readModelFile_ok_iff intLib _ _ _ _).2
    ⟨?_, _, fileItems_manyVertices n tail items h, ?_, ?_⟩
  · simpa only [manyVertices, List.length_append, List.length_replicate] using hlen
  · have hm : (Item.vertex (⟨0, 0, 0⟩ : Vec3 Int)).isMalformed = false := rfl
    simp only [List.any_append, hclean, Bool.or_false, Bool.true_eq, Bool.not_eq_eq_eq_not,
      Bool.not_true, List.any_eq_false, List.mem_replicate]
    rintro x ⟨-, rfl⟩
    simp [hm]
  · exact (modelOfItems_manyVertices dm n items).symm

theorem fetch_manyVertices (n k : Nat) (rest : List (Vec3 Int)) (h1 : 1 ≤ k) (h2 : k ≤ n) :
    fetch (List.replicate n (⟨0, 0, 0⟩ : Vec3 Int) ++ rest) k = some ⟨0, 0, 0⟩ := by
  unfold fetch
  have hc : 1 ≤ k ∧ k ≤ (List.replicate n (⟨0, 0, 0⟩ : Vec3 Int) ++ rest).length := by
    simp only [List.length_append, List.length_replicate]; omega
  rw [if_pos hc, List.getElem?_append_left (by simp only [List.length_replicate]; omega),
    List.getElem?_replicate_of_lt (by omega)]

theorem fetch_manyVertices_last (n : Nat) (v : Vec3 Int) (rest : List (Vec3 Int)) :
    (List.replicate n (⟨0, 0, 0⟩ : Vec3 Int) ++ v :: rest)[n]? = some v := by
  rw [List.getElem?_append_right (by simp only [List.length_replicate]; exact le_refl n)]
  simp only [List.length_replicate, Nat.sub_self, List.getElem?_cons_zero]

theorem fetchCorners_manyVertices (n : Nat) (rest : List (Vec3 Int)) (a b c : Nat)
    (ha : 1 ≤ a ∧ a ≤ n) (hb : 1 ≤ b ∧ b ≤ n) (hc : 1 ≤ c ∧ c ≤ n) (hn : n < 4294967296) :
    fetchCorners (List.replicate n (⟨0, 0, 0⟩ : Vec3 Int) ++ rest) ⟨(a : Int), (b : Int), (c : Int)⟩
      = some (⟨0, 0, 0⟩, ⟨0, 0, 0⟩, ⟨0, 0, 0⟩) := by
  have fa : floatToGLuint (a : Int) = some a := by
    unfold floatToGLuint
    rw [if_pos ⟨by omega, by norm_num; omega⟩]
    simp
  have fb : floatToGLuint (b : Int) = some b := by
    unfold floatToGLuint
    rw [if_pos ⟨by omega, by norm_num; omega⟩]
    simp
  have fc : floatToGLuint (c : Int) = some c := by
    unfold floatToGLuint
    rw [if_pos ⟨by omega, by norm_num; omega⟩]
    simp
  unfold fetchCorners
  simp only [fa, fb, fc, fetch_manyVertices n a rest ha.1 ha.2,
    fetch_manyVertices n b rest hb.1 hb.2, fetch_manyVertices n c rest hc.1 hc.2,
    Option.bind_eq_bind, Option.some_bind, bind, pure]

theorem readModelFile_largeModelRead (dm : DrawingMethod) (n : Nat) (h2 : n < 2147483645) :
    readModelFile intLib (initModel (construct dm))
        (some (manyVertices n ["v 1 0 0".toList, "f 16777217 1 2".toList]))
      = Outcome.ok (true, largeModelRead dm n) :=
  readModelFile_manyVertices dm n _ [Item.vertex ⟨1, 0, 0⟩, Item.face ⟨16777216, 1, 2⟩]
    (by decide) (by decide)
    (by simp only [List.length_cons, List.length_nil, INT_MAX]; push_cast; omega)

theorem setupGenerated_largeModelRead (dm : DrawingMethod) (n : Nat) (h1 : 16777216 ≤ n)
    (h2 : n < 2147483647) :
    setupGenerated intLib (largeModelRead dm n) = some (largeModelExpanded dm n) := by
  have hfc := fetchCorners_manyVertices n [⟨1, 0, 0⟩] 16777216 1 2 ⟨by omega, h1⟩
    ⟨by omega, by omega⟩ ⟨by omega, by omega⟩ (by omega)
  have hfc2 : fetchCorners (largeModelRead dm n).vertices ⟨16777216, 1, 2⟩
      = some (⟨0, 0, 0⟩, ⟨0, 0, 0⟩, ⟨0, 0, 0⟩) := hfc
  have hs : ∀ face ∈ (largeModelRead dm n).faces,
      (fetchCorners (largeModelRead dm n).vertices face).isSome = true := by
    intro face hf
    have : face = ⟨16777216, 1, 2⟩ := List.mem_singleton.1 hf
    rw [this, hfc2]
    rfl
  have hroom : ((9 * (largeModelRead dm n).faces.length : Nat) : Int) ≤ INT_MAX := by
    show ((9 * 1 : Nat) : Int) ≤ INT_MAX
    decide
  rw [setupGenerated_of intLib _ rfl hs hroom]
  have c1 : (largeModelRead dm n).faces.flatMap (cornerFloats (largeModelRead dm n).vertices)
      = [0, 0, 0, 0, 0, 0, 0, 0, 0] := by
    show [(⟨16777216, 1, 2⟩ : Vec3 Int)].flatMap (cornerFloats (largeModelRead dm n).vertices) = _
    simp only [List.flatMap_cons, List.flatMap_nil, List.append_nil, cornerFloats, hfc2]
    rfl
  have c2 : (largeModelRead dm n).faces.flatMap
      (generatedNormalFloats intLib (largeModelRead dm n).vertices)
      = [0, 0, 0, 0, 0, 0, 0, 0, 0] := by
    show [(⟨16777216, 1, 2⟩ : Vec3 Int)].flatMap
      (generatedNormalFloats intLib (largeModelRead dm n).vertices) = _
    simp only [List.flatMap_cons, List.flatMap_nil, List.append_nil, generatedNormalFloats, hfc2]
    decide
  rw [c1, c2]
  rfl

theorem setupFaceData_largeModelExpanded (dm : DrawingMethod) (n : Nat) :
    setupFaceData (largeModelExpanded dm n)
      = some { largeModelExpanded dm n with faceData := some ⟨3, [16777215, 0, 1]⟩ } := by
  have hs : ∀ face ∈ (largeModelExpanded dm n).faces, (elementNumbers face).length = 3 := by
    intro face hf
    have : face = ⟨16777216, 1, 2⟩ := List.mem_singleton.1 hf
    rw [this]
    decide
  have hroom : ((3 * (largeModelExpanded dm n).faces.length : Nat) : Int) ≤ INT_MAX := by
    show ((3 * 1 : Nat) : Int) ≤ INT_MAX
    decide
  rw [setupFaceData_of _ rfl hs hroom]
  have c1 : (largeModelExpanded dm n).faces.flatMap elementNumbers = [16777215, 0, 1] := by
    show [(⟨16777216, 1, 2⟩ : Vec3 Int)].flatMap elementNumbers = _
    decide
  rw [c1]
  rfl

/-- Loading, with `DRAWING_AS_ARRAYS`, `n ≥ 16777216` lines `v 0 0 0` followed by the lines
`v 1 0 0` and `f 16777217 1 2`: the vertex array holds the position `(0, 0, 0)` for each of
the three corners. -/
theorem load_arrays_manyVertices (n : Nat) (h1 : 16777216 ≤ n) (h2 : n < 2147483645) :
    load intLib (construct DrawingMethod.DRAWING_AS_ARRAYS)
        (some (manyVertices n ["v 1 0 0".toList, "f 16777217 1 2".toList]))
      = Outcome.ok (largeModelExpanded DrawingMethod.DRAWING_AS_ARRAYS n) := by
  have hv : hasVertices (largeModelRead DrawingMethod.DRAWING_AS_ARRAYS n) = true :=
    decide_eq_true (Nat.succ_pos n)
  have hf : hasFaces (largeModelRead DrawingMethod.DRAWING_AS_ARRAYS n) = true := rfl
  have hn : hasNormals (largeModelRead DrawingMethod.DRAWING_AS_ARRAYS n) = false := rfl
  have hd : (largeModelRead DrawingMethod.DRAWING_AS_ARRAYS n).drawingMethod
      = DrawingMethod.DRAWING_AS_ARRAYS := rfl
  unfold load
  rw [readModelFile_largeModelRead _ n h2]
  show (if hasVertices (largeModelRead DrawingMethod.DRAWING_AS_ARRAYS n) = true then
    setupData intLib (largeModelRead DrawingMethod.DRAWING_AS_ARRAYS n) else Outcome.exit (-1)) = _
  rw [if_pos hv]
  unfold setupData
  rw [if_pos hd, hv, hf, hn, if_pos (by rfl), setupGenerated_largeModelRead _ n h1 (by omega)]
  rfl

/-- Loading, with `DRAWING_AS_ELEMENTS`, `n ≥ 16777216` lines `v 0 0 0` followed by the
lines `v 1 0 0` and `f 16777217 1 2`: the face data is `16777215 0 1`. -/
theorem load_elements_manyVertices (n : Nat) (h1 : 16777216 ≤ n) (h2 : n < 2147483645) :
    load intLib (construct DrawingMethod.DRAWING_AS_ELEMENTS)
        (some (manyVertices n ["v 1 0 0".toList, "f 16777217 1 2".toList]))
      = Outcome.ok { largeModelExpanded DrawingMethod.DRAWING_AS_ELEMENTS n with
          faceData := some ⟨3, [16777215, 0, 1]⟩ } := by
  have hv : hasVertices (largeModelRead DrawingMethod.DRAWING_AS_ELEMENTS n) = true :=
    decide_eq_true (Nat.succ_pos n)
  have hf : hasFaces (largeModelRead DrawingMethod.DRAWING_AS_ELEMENTS n) = true := rfl
  have hf2 : hasFaces (largeModelExpanded DrawingMethod.DRAWING_AS_ELEMENTS n) = true := rfl
  have hd : ¬ (largeModelRead DrawingMethod.DRAWING_AS_ELEMENTS n).drawingMethod
      = DrawingMethod.DRAWING_AS_ARRAYS := by
    show ¬ DrawingMethod.DRAWING_AS_ELEMENTS = DrawingMethod.DRAWING_AS_ARRAYS
    decide
  unfold load
  rw [readModelFile_largeModelRead _ n h2]
  show (if hasVertices (largeModelRead DrawingMethod.DRAWING_AS_ELEMENTS n) = true then
    setupData intLib (largeModelRead DrawingMethod.DRAWING_AS_ELEMENTS n)
    else Outcome.exit (-1)) = _
  rw [if_pos hv]
  unfold setupData
  rw [if_neg hd, hv, hf, if_pos (by rfl), setupGenerated_largeModelRead _ n h1 (by omega)]
  show (if hasFaces (largeModelExpanded DrawingMethod.DRAWING_AS_ELEMENTS n) = true then
    Outcome.ofOption (setupFaceData (largeModelExpanded DrawingMethod.DRAWING_AS_ELEMENTS n))
    else Outcome.exit (-1)) = _
  rw [if_pos hf2, setupFaceData_largeModelExpanded]
  rfl

theorem fileFaces_manyVertices (n : Nat) (tail : List (List Char)) :
    fileFaces (manyVertices n tail) = fileFaces tail := by
  have h : faceLineIndices "v 0 0 0".toList = none := by decide
  simp only [fileFaces, manyVertices, List.filterMap_append,
    List.filterMap_replicate_of_none h, List.nil_append]

theorem fileVertices_manyVertices (n : Nat) (tail : List (List Char)) :
    fileVertices intLib (manyVertices n tail)
      = List.replicate n ⟨0, 0, 0⟩ ++ fileVertices intLib tail := by
  have h : lineVertex intLib "v 0 0 0".toList = some ⟨0, 0, 0⟩ := by decide
  simp only [fileVertices, manyVertices, List.filterMap_append,
    List.filterMap_replicate_of_some h]

/-- Claim C1, counterexample.  The file `largeFile` has 16777217 vertex lines and the face
line `f 16777217 1 2`.  Loaded with `DRAWING_AS_ELEMENTS`, `load` returns and the face data
is `16777215 0 1`: at position `3*0 + 0` it holds 16777215, not `16777217 - 1`.  The number
16777217 was stored in a `float` as 16777216. -/
theorem elements_face_data_of_index_above_float_range :
    fileFaces largeFile = [⟨16777217, 1, 2⟩] ∧
    (fileVertices intLib largeFile).length = 16777217 ∧
    ∃ m2 fd, load intLib (construct DrawingMethod.DRAWING_AS_ELEMENTS) (some largeFile)
        = Outcome.ok m2 ∧
      m2.faceData = some fd ∧ fd.cells[3 * 0 + 0]? = some 16777215 ∧
      ((16777215 : Nat) : Int) ≠ 16777217 - 1 := by
  refine ⟨?_, ?_, _, _, load_elements_manyVertices 16777216 (le_refl _) (by norm_num), rfl,
    rfl, by decide⟩
  · rw [largeFile, fileFaces_manyVertices]
    decide
  · rw [largeFile, fileVertices_manyVertices, List.length_append, List.length_replicate]
    decide

/-- Witness of `elements_face_data_is_file_index_minus_one`: four vertices and the faces
`1 2 3` and `2 4 3`. -/
theorem elements_face_data_is_file_index_minus_one_witness :
    ∃ (m2 : Model Int) (fd : Buffer Nat),
      load intLib (construct DrawingMethod.DRAWING_AS_ELEMENTS)
        (some ["v 0 0 0".toList, "v 1 0 0".toList, "v 0 1 0".toList, "v 1 1 5".toList,
          "f 1 2 3".toList, "f 2 4 3".toList]) = Outcome.ok m2 ∧
      m2.faceData = some fd ∧ fd.cells.length = 3 * 2 ∧
      ∃ n : Nat, fd.cells[3 * 1 + 1]? = some n ∧ (n : Int) = 4 - 1 := by
  have hload : load intLib (construct DrawingMethod.DRAWING_AS_ELEMENTS)
      (some ["v 0 0 0".toList, "v 1 0 0".toList, "v 0 1 0".toList, "v 1 1 5".toList,
        "f 1 2 3".toList, "f 2 4 3".toList])
      = Outcome.ok { modelOfItems DrawingMethod.DRAWING_AS_ELEMENTS
          [(Item.vertex ⟨0, 0, 0⟩ : Item Int), Item.vertex ⟨1, 0, 0⟩, Item.vertex ⟨0, 1, 0⟩,
            Item.vertex ⟨1, 1, 5⟩, Item.face ⟨1, 2, 3⟩, Item.face ⟨2, 4, 3⟩] with
        vertexData := some ⟨18, [0, 0, 0, 1, 0, 0, 0, 1, 0, 1, 0, 0, 1, 1, 5, 0, 1, 0]⟩
        normalData := some ⟨18, [0, 0, 1, 0, 0, 1, 0, 0, 1, -5, -5, 1, -5, -5, 1, -5, -5, 1]⟩
        faceData := some ⟨6, [0, 1, 2, 1, 3, 2]⟩
        numVertices := 6
        numNormals := 6 } := by decide
  have hfaces : fileFaces ["v 0 0 0".toList, "v 1 0 0".toList, "v 0 1 0".toList,
      "v 1 1 5".toList, "f 1 2 3".toList, "f 2 4 3".toList] = [⟨1, 2, 3⟩, ⟨2, 4, 3⟩] := by
    decide
  obtain ⟨fd, h1, h2, h3⟩ := elements_face_data_is_file_index_minus_one intLib
    (construct DrawingMethod.DRAWING_AS_ELEMENTS) _ _ rfl hload
  have h4 := (h3 1 (by rw [hfaces]; decide)).2.1
  simp only [hfaces, List.length_cons, List.length_nil] at h2
  simp only [hfaces, List.getElem_cons_succ, List.getElem_cons_zero] at h4
  exact ⟨_, fd, hload, h1, h2, h4 (by decide) (by decide)⟩

/-! ## The array section: positions and generated normals -/

theorem fetch_of_getElem? {α : Type} (vec : List α) (i : Int) (p : α) (h1 : 1 ≤ i)
    (hp : vec[(i - 1).toNat]? = some p) : fetch vec i.toNat = some p := by
  have hlt : (i - 1).toNat < vec.length := by
    by_contra hc
    rw [List.getElem?_eq_none (by omega)] at hp
    cases hp
  unfold fetch
  have e : i.toNat - 1 = (i - 1).toNat := by omega
  rw [if_pos ⟨by omega, by omega⟩, e, hp]

theorem fetchCorners_of_indices {α : Type} (vec : List α) (face : Vec3 Int) (p1 p2 p3 : α)
    (hx : 1 ≤ face.x ∧ face.x ≤ FLOAT_EXACT_MAX) (hy : 1 ≤ face.y ∧ face.y ≤ FLOAT_EXACT_MAX)
    (hz : 1 ≤ face.z ∧ face.z ≤ FLOAT_EXACT_MAX)
    (h1 : vec[(face.x - 1).toNat]? = some p1) (h2 : vec[(face.y - 1).toNat]? = some p2)
    (h3 : vec[(face.z - 1).toNat]? = some p3) :
    fetchCorners vec face = some (p1, p2, p3) := by
  unfold FLOAT_EXACT_MAX at hx hy hz
  have fx : floatToGLuint face.x = some face.x.toNat := by
    unfold floatToGLuint
    rw [if_pos ⟨by omega, by norm_num; omega⟩]
  have fy : floatToGLuint face.y = some face.y.toNat := by
    unfold floatToGLuint
    rw [if_pos ⟨by omega, by norm_num; omega⟩]
  have fz : floatToGLuint face.z = some face.z.toNat := by
    unfold floatToGLuint
    rw [if_pos ⟨by omega, by norm_num; omega⟩]
  unfold fetchCorners
  simp only [fx, fy, fz, fetch_of_getElem? vec face.x p1 hx.1 h1,
    fetch_of_getElem? vec face.y p2 hy.1 h2, fetch_of_getElem? vec face.z p3 hz.1 h3,
    Option.bind_eq_bind, Option.some_bind, bind, pure]

theorem stored_face_eq {idx s : Vec3 Int} (h : StoredExactly3 idx s)
    (hx : 1 ≤ idx.x ∧ idx.x ≤ FLOAT_EXACT_MAX) (hy : 1 ≤ idx.y ∧ idx.y ≤ FLOAT_EXACT_MAX)
    (hz : 1 ≤ idx.z ∧ idx.z ≤ FLOAT_EXACT_MAX) : s = idx := by
  obtain ⟨h1, h2, h3⟩ := h
  have e1 := h1 (by omega) hx.2
  have e2 := h2 (by omega) hy.2
  have e3 := h3 (by omega) hz.2
  cases s; cases idx
  simp only at e1 e2 e3
  rw [e1, e2, e3]

/-- Claim C4, amended.  For every file that has no well-formed `vn` line, loaded with
`DRAWING_AS_ARRAYS` (the call of `load` returns), and for every face `f` of the file whose
three vertex indices lie between 1 and 16777216 and name the positions `p1`, `p2`, `p3` of
the file (index minus one in the list of its vertices, in the order of the face line): the
nine floats stored for the face in the vertex data are `p1`, `p2`, `p3` in that order, and
the nine floats stored for it in the normal data are three times
`normalize(cross(p2 - p1, p3 - p1))`. -/
theorem arrays_generated_normal_per_face {F : Type} (L : FloatLib F) (m : Model F)
    (lines : List (List Char)) (m2 : Model F)
    (hdm : m.drawingMethod = DrawingMethod.DRAWING_AS_ARRAYS)
    (hload : load L m (some lines) = Outcome.ok m2)
    (hnovn : ∀ line ∈ lines, isNormalLine line = false)
    (f : Nat) (hf : f < (fileFaces lines).length) (p1 p2 p3 : Vec3 F)
    (hx : 1 ≤ (fileFaces lines)[f].x ∧ (fileFaces lines)[f].x ≤ FLOAT_EXACT_MAX)
    (hy : 1 ≤ (fileFaces lines)[f].y ∧ (fileFaces lines)[f].y ≤ FLOAT_EXACT_MAX)
    (hz : 1 ≤ (fileFaces lines)[f].z ∧ (fileFaces lines)[f].z ≤ FLOAT_EXACT_MAX)
    (h1 : (fileVertices L lines)[((fileFaces lines)[f].x - 1).toNat]? = some p1)
    (h2 : (fileVertices L lines)[((fileFaces lines)[f].y - 1).toNat]? = some p2)
    (h3 : (fileVertices L lines)[((fileFaces lines)[f].z - 1).toNat]? = some p3) :
    ∃ vb nb, m2.vertexData = some vb ∧ m2.normalData = some nb ∧
      (vb.cells.drop (9 * f)).take 9 = p1.toList ++ p2.toList ++ p3.toList ∧
      (nb.cells.drop (9 * f)).take 9 =
        (L.normalize (L.cross (L.vsub p2 p1) (L.vsub p3 p1))).toList
          ++ (L.normalize (L.cross (L.vsub p2 p1) (L.vsub p3 p1))).toList
          ++ (L.normalize (L.cross (L.vsub p2 p1) (L.vsub p3 p1))).toList := by
  obtain ⟨flag, items, hitems, hread, hv, hsetup⟩ := load_ok L m lines m2 hload
  obtain ⟨-, c2, -⟩ := counts_of_read L m lines flag _ hread
  have hst := faces_of_fileItems L lines items hitems
  have hlen := hst.length_eq
  have hf2 : f < (items.filterMap (Item.face? (F := F))).length := by rw [← hlen]; exact hf
  have hverts := (vertices_of_fileItems L lines items hitems).1
  set m1 := modelOfItems m.drawingMethod items with hm1
  have hfaces : m1.faces = items.filterMap Item.face? := rfl
  have hvs : m1.vertices = fileVertices L lines := hverts
  have hhf : hasFaces m1 = true := by
    have : 0 < m1.numFaces := by
      show 0 < (items.filterMap (Item.face? (F := F))).length
      omega
    simp [hasFaces, this]
  have hhn : hasNormals m1 = false := by
    have : lines.countP isNormalLine = 0 := by
      rw [List.countP_eq_zero]
      intro a ha
      simp [hnovn a ha]
    simp [hasNormals, c2, this]
  have hd : m1.drawingMethod = DrawingMethod.DRAWING_AS_ARRAYS := hdm
  unfold setupData at hsetup
  simp only [hd, if_true, hv, hhf, hhn, Bool.true_and, Bool.not_false, ofOption_eq_ok] at hsetup
  obtain ⟨i1, -, e1⟩ := setupGenerated_some L m1 m2 hsetup
  rw [hfaces, hvs] at i1 e1
  have hrel : StoredExactly3 (fileFaces lines)[f] (items.filterMap (Item.face? (F := F)))[f] :=
    hst.get hf hf2
  have hface := stored_face_eq hrel hx hy hz
  have hfc := fetchCorners_of_indices (fileVertices L lines) (fileFaces lines)[f] p1 p2 p3
    hx hy hz h1 h2 h3
  have hc1 := flatMap_chunk (cornerFloats (fileVertices L lines)) 9 _ f hf2
    (fun a ha => cornerFloats_length (i1 a ha))
  have hc2 := flatMap_chunk (generatedNormalFloats L (fileVertices L lines)) 9 _ f hf2
    (fun a ha => generatedNormalFloats_length L (i1 a ha))
  rw [hface] at hc1 hc2
  refine ⟨_, _, by rw [e1], by rw [e1], ?_, ?_⟩
  · rw [hc1]; simp only [cornerFloats, hfc]
  · rw [hc2]; simp only [generatedNormalFloats, hfc]

theorem manyVertices_forall (P : List Char → Prop) (n : Nat) (tail : List (List Char))
    (h0 : P "v 0 0 0".toList) (ht : ∀ l ∈ tail, P l) : ∀ l ∈ manyVertices n tail, P l := by
  intro l hl
  rcases List.mem_append.1 hl with h | h
  · rw [(List.mem_replicate.1 h).2]; exact h0
  · exact ht l h

/-- Claim C4, counterexample.  The file `largeFile` has 16777217 vertex lines, no `vn`
line, and the face line `f 16777217 1 2`, whose indices are all in range and name the
positions `(1, 0, 0)`, `(0, 0, 0)`, `(0, 0, 0)`.  Loaded with `DRAWING_AS_ARRAYS`, `load`
returns and the nine floats stored for the face in the vertex data are all zero: the first
position stored is `(0, 0, 0)`, that of vertex 16777216, not `(1, 0, 0)`. -/
theorem arrays_position_of_index_above_float_range :
    fileFaces largeFile = [⟨16777217, 1, 2⟩] ∧
    (∀ line ∈ largeFile, isNormalLine line = false) ∧
    (fileVertices intLib largeFile)[16777216]? = some ⟨1, 0, 0⟩ ∧
    (fileVertices intLib largeFile)[0]? = some ⟨0, 0, 0⟩ ∧
    (fileVertices intLib largeFile)[1]? = some ⟨0, 0, 0⟩ ∧
    ∃ m2 vb, load intLib (construct DrawingMethod.DRAWING_AS_ARRAYS) (some largeFile)
        = Outcome.ok m2 ∧
      m2.vertexData = some vb ∧
      (vb.cells.drop (9 * 0)).take 9 = [0, 0, 0, 0, 0, 0, 0, 0, 0] ∧
      (vb.cells.drop (9 * 0)).take 9 ≠
        (⟨1, 0, 0⟩ : Vec3 Int).toList ++ (⟨0, 0, 0⟩ : Vec3 Int).toList
          ++ (⟨0, 0, 0⟩ : Vec3 Int).toList := by
  have hv := fileVertices_manyVertices 16777216 ["v 1 0 0".toList, "f 16777217 1 2".toList]
  have ht : fileVertices intLib ["v 1 0 0".toList, "f 16777217 1 2".toList] = [⟨1, 0, 0⟩] := by
    decide
  rw [ht] at hv
  refine ⟨?_, ?_, ?_, ?_, ?_, _, _, load_arrays_manyVertices 16777216 (le_refl _) (by norm_num),
    rfl, rfl, by decide⟩
  · rw [largeFile, fileFaces_manyVertices]
    decide
  · exact manyVertices_forall (fun l => isNormalLine l = false) _ _ (by decide) (by decide)
  · rw [largeFile, hv]
    exact fetch_manyVertices_last 16777216 ⟨1, 0, 0⟩ []
  · rw [largeFile, hv, List.getElem?_append_left (by rw [List.length_replicate]; norm_num),
      List.getElem?_replicate_of_lt (by norm_num)]
  · rw [largeFile, hv, List.getElem?_append_left (by rw [List.length_replicate]; norm_num),
      List.getElem?_replicate_of_lt (by norm_num)]

/-- Witness of `arrays_generated_normal_per_face`: the second face of a file with four
vertices and the faces `1 2 3` and `2 4 3`. -/
theorem arrays_generated_normal_per_face_witness :
    ∃ (m2 : Model Int) (vb nb : Buffer Int),
      load intLib (construct DrawingMethod.DRAWING_AS_ARRAYS)
        (some ["v 0 0 0".toList, "v 1 0 0".toList, "v 0 1 0".toList, "v 1 1 5".toList,
          "f 1 2 3".toList, "f 2 4 3".toList]) = Outcome.ok m2 ∧
      m2.vertexData = some vb ∧ m2.normalData = some nb ∧
      (vb.cells.drop (9 * 1)).take 9 = [1, 0, 0, 1, 1, 5, 0, 1, 0] ∧
      (nb.cells.drop (9 * 1)).take 9 = [-5, -5, 1, -5, -5, 1, -5, -5, 1] := by
  have hload : load intLib (construct DrawingMethod.DRAWING_AS_ARRAYS)
      (some ["v 0 0 0".toList, "v 1 0 0".toList, "v 0 1 0".toList, "v 1 1 5".toList,
        "f 1 2 3".toList, "f 2 4 3".toList])
      = Outcome.ok { modelOfItems DrawingMethod.DRAWING_AS_ARRAYS
          [(Item.vertex ⟨0, 0, 0⟩ : Item Int), Item.vertex ⟨1, 0, 0⟩, Item.vertex ⟨0, 1, 0⟩,
            Item.vertex ⟨1, 1, 5⟩, Item.face ⟨1, 2, 3⟩, Item.face ⟨2, 4, 3⟩] with
        vertexData := some ⟨18, [0, 0, 0, 1, 0, 0, 0, 1, 0, 1, 0, 0, 1, 1, 5, 0, 1, 0]⟩
        normalData := some ⟨18, [0, 0, 1, 0, 0, 1, 0, 0, 1, -5, -5, 1, -5, -5, 1, -5, -5, 1]⟩
        numVertices := 6
        numNormals := 6 } := by decide
  obtain ⟨vb, nb, h1, h2, h3, h4⟩ := arrays_generated_normal_per_face intLib
    (construct DrawingMethod.DRAWING_AS_ARRAYS) _ _ rfl hload (by decide) 1 (by decide)
    ⟨1, 0, 0⟩ ⟨1, 1, 5⟩ ⟨0, 1, 0⟩ (by decide) (by decide) (by decide) (by decide) (by decide)
    (by decide)
  exact ⟨_, vb, nb, hload, h1, h2, h3, h4⟩

/-! ## The array section: positions and normals named by the face lines -/

theorem getElem_of_getElem? {α : Type} {l : List α} {i : Nat} {a : α} (h : l[i]? = some a) :
    ∃ hi : i < l.length, l[i] = a := by
  have hi : i < l.length := by
    by_contra hc
    rw [List.getElem?_eq_none (by omega)] at h
    cases h
  refine ⟨hi, ?_⟩
  rw [List.getElem?_eq_getElem hi] at h
  exact Option.some.inj h

/-- Claim C6, amended.  For every file loaded with `DRAWING_AS_ARRAYS` (the call of `load`
returns) in which every face line is written `f a//x b//y c//z`, and for every face `f` of
the file whose three vertex indices and three normal indices lie between 1 and 16777216
and name the positions `p1`, `p2`, `p3` and the normals `n1`, `n2`, `n3` of the file (index
minus one in the list of its vertices, resp. of its normals): the nine floats stored for
the face in the vertex data are `p1`, `p2`, `p3`, and the nine floats stored for it in the
normal data are `n1`, `n2`, `n3`. -/
theorem arrays_named_positions_and_normals {F : Type} (L : FloatLib F) (m : Model F)
    (lines : List (List Char)) (m2 : Model F)
    (hdm : m.drawingMethod = DrawingMethod.DRAWING_AS_ARRAYS)
    (hload : load L m (some lines) = Outcome.ok m2)
    (hall : ∀ line ∈ lines, isFaceLine line = true →
      (faceLineNormalIndices line).isSome = true)
    (f : Nat) (idx nidx : Vec3 Int) (p1 p2 p3 n1 n2 n3 : Vec3 F)
    (hidx : (fileFaces lines)[f]? = some idx)
    (hnidx : (fileNormalIndices lines)[f]? = some nidx)
    (hx : 1 ≤ idx.x ∧ idx.x ≤ FLOAT_EXACT_MAX) (hy : 1 ≤ idx.y ∧ idx.y ≤ FLOAT_EXACT_MAX)
    (hz : 1 ≤ idx.z ∧ idx.z ≤ FLOAT_EXACT_MAX)
    (gx : 1 ≤ nidx.x ∧ nidx.x ≤ FLOAT_EXACT_MAX) (gy : 1 ≤ nidx.y ∧ nidx.y ≤ FLOAT_EXACT_MAX)
    (gz : 1 ≤ nidx.z ∧ nidx.z ≤ FLOAT_EXACT_MAX)
    (h1 : (fileVertices L lines)[(idx.x - 1).toNat]? = some p1)
    (h2 : (fileVertices L lines)[(idx.y - 1).toNat]? = some p2)
    (h3 : (fileVertices L lines)[(idx.z - 1).toNat]? = some p3)
    (g1 : (fileNormals L lines)[(nidx.x - 1).toNat]? = some n1)
    (g2 : (fileNormals L lines)[(nidx.y - 1).toNat]? = some n2)
    (g3 : (fileNormals L lines)[(nidx.z - 1).toNat]? = some n3) :
    ∃ vb nb, m2.vertexData = some vb ∧ m2.normalData = some nb ∧
      (vb.cells.drop (9 * f)).take 9 = p1.toList ++ p2.toList ++ p3.toList ∧
      (nb.cells.drop (9 * f)).take 9 = n1.toList ++ n2.toList ++ n3.toList := by
  obtain ⟨flag, items, hitems, hread, hv, hsetup⟩ := load_ok L m lines m2 hload
  have hst := faces_of_fileItems L lines items hitems
  have hsn := normalIndices_of_fileItems L lines items hitems hall
  obtain ⟨hverts, hnorms⟩ := vertices_of_fileItems L lines items hitems
  obtain ⟨hf, ef⟩ := getElem_of_getElem? hidx
  obtain ⟨hfn, efn⟩ := getElem_of_getElem? hnidx
  have hf2 : f < (items.filterMap (Item.face? (F := F))).length := by
    rw [← hst.length_eq]; exact hf
  have hfn2 : f < (items.filterMap (Item.normalIndex? (F := F))).length := by
    rw [← hsn.length_eq]; exact hfn
  have hface : (items.filterMap (Item.face? (F := F)))[f] = idx := by
    have := hst.get hf hf2
    simp only [List.get_eq_getElem, ef] at this
    exact stored_face_eq this hx hy hz
  have hni : (items.filterMap (Item.normalIndex? (F := F)))[f] = nidx := by
    have := hsn.get hfn hfn2
    simp only [List.get_eq_getElem, efn] at this
    exact stored_face_eq this gx gy gz
  set m1 := modelOfItems m.drawingMethod items with hm1
  have hhf : hasFaces m1 = true := by
    have : 0 < m1.numFaces := by
      show 0 < (items.filterMap (Item.face? (F := F))).length
      omega
    simp [hasFaces, this]
  have hhni : hasNormalIndices m1 = true := by
    have : 0 < m1.numNormalIndices := by
      show 0 < (items.filterMap (Item.normalIndex? (F := F))).length
      omega
    simp [hasNormalIndices, this]
  have hhn : hasNormals m1 = true := by
    obtain ⟨hi, -⟩ := getElem_of_getElem? g1
    have : 0 < m1.numNormals := by
      show 0 < (items.filterMap (Item.normal? (F := F))).length
      rw [hnorms]; omega
    simp [hasNormals, this]
  have hd : m1.drawingMethod = DrawingMethod.DRAWING_AS_ARRAYS := hdm
  unfold setupData at hsetup
  simp only [hd, if_true, hv, hhf, hhn, hhni, Bool.true_and, Bool.not_true, Bool.false_eq_true,
    if_false, Bool.and_self, ofOption_eq_ok] at hsetup
  obtain ⟨i1, i2, -, -, e1⟩ := setupIndexed_some m1 m2 hsetup
  have hfc := fetchCorners_of_indices (fileVertices L lines) idx p1 p2 p3 hx hy hz h1 h2 h3
  have hnc := fetchCorners_of_indices (fileNormals L lines) nidx n1 n2 n3 gx gy gz g1 g2 g3
  have hc1 := flatMap_chunk (cornerFloats m1.vertices) 9 m1.faces f hf2
    (fun a ha => cornerFloats_length (i1 a ha))
  have hc2 := flatMap_chunk (cornerFloats m1.normals) 9 m1.normalIndices f hfn2
    (fun a ha => cornerFloats_length (i2 a ha))
  have e2 : m1.faces[f] = idx := hface
  have e3 : m1.normalIndices[f] = nidx := hni
  have e4 : m1.vertices = fileVertices L lines := hverts
  have e5 : m1.normals = fileNormals L lines := hnorms
  rw [e2, e4] at hc1
  rw [e3, e5] at hc2
  refine ⟨_, _, by rw [e1], by rw [e1], ?_, ?_⟩
  · simp only [e4]; rw [hc1]; simp only [cornerFloats, hfc]
  · simp only [e5]; rw [hc2]; simp only [cornerFloats, hnc]

theorem readModelFile_largeModelWithNormalsRead (n : Nat) (h2 : n < 2147483644) :
    readModelFile intLib (initModel (construct DrawingMethod.DRAWING_AS_ARRAYS))
        (some (manyVertices n
          ["v 1 0 0".toList, "vn 0 0 1".toList, "f 16777217//1 1//1 2//1".toList]))
      = Outcome.ok (true, largeModelWithNormalsRead n) :=
  readModelFile_manyVertices DrawingMethod.DRAWING_AS_ARRAYS n _
    [Item.vertex ⟨1, 0, 0⟩, Item.normal ⟨0, 0, 1⟩,
      Item.faceWithNormals ⟨16777216, 1, 2⟩ ⟨1, 1, 1⟩]
    (by decide) (by decide)
    (by simp only [List.length_cons, List.length_nil, INT_MAX]; push_cast; omega)

theorem setupIndexed_largeModelWithNormalsRead (n : Nat) (h1 : 16777216 ≤ n)
    (h2 : n < 2147483647) :
    setupIndexed (largeModelWithNormalsRead n) = some (largeModelWithNormalsExpanded n) := by
  have hfc := fetchCorners_manyVertices n [⟨1, 0, 0⟩] 16777216 1 2 ⟨by omega, h1⟩
    ⟨by omega, by omega⟩ ⟨by omega, by omega⟩ (by omega)
  have hfc2 : fetchCorners (largeModelWithNormalsRead n).vertices ⟨16777216, 1, 2⟩
      = some (⟨0, 0, 0⟩, ⟨0, 0, 0⟩, ⟨0, 0, 0⟩) := hfc
  have hs : ∀ face ∈ (largeModelWithNormalsRead n).faces,
      (fetchCorners (largeModelWithNormalsRead n).vertices face).isSome = true := by
    intro face hf
    have : face = ⟨16777216, 1, 2⟩ := List.mem_singleton.1 hf
    rw [this, hfc2]
    rfl
  have hn : ∀ ni ∈ (largeModelWithNormalsRead n).normalIndices,
      (fetchCorners (largeModelWithNormalsRead n).normals ni).isSome = true := by
    intro ni hni
    have : ni = ⟨1, 1, 1⟩ := List.mem_singleton.1 hni
    rw [this]
    show (fetchCorners [(⟨0, 0, 1⟩ : Vec3 Int)] ⟨1, 1, 1⟩).isSome = true
    decide
  have hroom : ((9 * (largeModelWithNormalsRead n).faces.length : Nat) : Int) ≤ INT_MAX := by
    show ((9 * 1 : Nat) : Int) ≤ INT_MAX
    decide
  rw [setupIndexed_of _ rfl hs hn (le_refl 1) hroom]
  have c1 : (largeModelWithNormalsRead n).faces.flatMap
      (cornerFloats (largeModelWithNormalsRead n).vertices) = [0, 0, 0, 0, 0, 0, 0, 0, 0] := by
    show [(⟨16777216, 1, 2⟩ : Vec3 Int)].flatMap
      (cornerFloats (largeModelWithNormalsRead n).vertices) = _
    simp only [List.flatMap_cons, List.flatMap_nil, List.append_nil, cornerFloats, hfc2]
    rfl
  have c2 : (largeModelWithNormalsRead n).normalIndices.flatMap
      (cornerFloats (largeModelWithNormalsRead n).normals) = [0, 0, 1, 0, 0, 1, 0, 0, 1] := by
    show [(⟨1, 1, 1⟩ : Vec3 Int)].flatMap (cornerFloats [(⟨0, 0, 1⟩ : Vec3 Int)]) = _
    decide
  rw [c1, c2]
  rfl

/-- Loading, with `DRAWING_AS_ARRAYS`, `n ≥ 16777216` lines `v 0 0 0` followed by the lines
`v 1 0 0`, `vn 0 0 1` and `f 16777217//1 1//1 2//1`. -/
theorem load_arrays_manyVertices_withNormals (n : Nat) (h1 : 16777216 ≤ n)
    (h2 : n < 2147483644) :
    load intLib (construct DrawingMethod.DRAWING_AS_ARRAYS)
        (some (manyVertices n
          ["v 1 0 0".toList, "vn 0 0 1".toList, "f 16777217//1 1//1 2//1".toList]))
      = Outcome.ok (largeModelWithNormalsExpanded n) := by
  have hv : hasVertices (largeModelWithNormalsRead n) = true :=
    decide_eq_true (Nat.succ_pos n)
  have hf : hasFaces (largeModelWithNormalsRead n) = true := rfl
  have hn : hasNormals (largeModelWithNormalsRead n) = true := rfl
  have hni : hasNormalIndices (largeModelWithNormalsRead n) = true := rfl
  have hd : (largeModelWithNormalsRead n).drawingMethod = DrawingMethod.DRAWING_AS_ARRAYS := rfl
  unfold load
  rw [readModelFile_largeModelWithNormalsRead n h2]
  show (if hasVertices (largeModelWithNormalsRead n) = true then
    setupData intLib (largeModelWithNormalsRead n) else Outcome.exit (-1)) = _
  rw [if_pos hv]
  unfold setupData
  rw [if_pos hd, hv, hf, hn, hni, if_neg (by decide), if_pos (by rfl),
    setupIndexed_largeModelWithNormalsRead n h1 (by omega)]
  rfl

theorem fileNormals_manyVertices (n : Nat) (tail : List (List Char)) :
    fileNormals intLib (manyVertices n tail) = fileNormals intLib tail := by
  have h : lineNormal intLib "v 0 0 0".toList = none := by decide
  simp only [fileNormals, manyVertices, List.filterMap_append,
    List.filterMap_replicate_of_none h, List.nil_append]

theorem fileNormalIndices_manyVertices (n : Nat) (tail : List (List Char)) :
    fileNormalIndices (manyVertices n tail) = fileNormalIndices tail := by
  have h : faceLineNormalIndices "v 0 0 0".toList = none := by decide
  simp only [fileNormalIndices, manyVertices, List.filterMap_append,
    List.filterMap_replicate_of_none h, List.nil_append]

/-- Claim C6, counterexample.  The file `largeFileWithNormals` has 16777217 vertex lines,
one normal line and the face line `f 16777217//1 1//1 2//1`; every face line is written
with `//`, and all its vertex and normal indices are in range.  Loaded with
`DRAWING_AS_ARRAYS`, `load` returns and the nine floats stored for the face in the vertex
data are all zero: entry `3*0 + 0` is `(0, 0, 0)`, the vertex number 16777216, not the
vertex `(1, 0, 0)` that the index 16777217 names. -/
theorem arrays_named_position_of_index_above_float_range :
    fileFaces largeFileWithNormals = [⟨16777217, 1, 2⟩] ∧
    fileNormalIndices largeFileWithNormals = [⟨1, 1, 1⟩] ∧
    (∀ line ∈ largeFileWithNormals, isFaceLine line = true →
      (faceLineNormalIndices line).isSome = true) ∧
    (fileVertices intLib largeFileWithNormals).length = 16777217 ∧
    (fileVertices intLib largeFileWithNormals)[16777217 - 1]? = some ⟨1, 0, 0⟩ ∧
    fileNormals intLib largeFileWithNormals = [⟨0, 0, 1⟩] ∧
    ∃ m2 vb, load intLib (construct DrawingMethod.DRAWING_AS_ARRAYS) (some largeFileWithNormals)
        = Outcome.ok m2 ∧
      m2.vertexData = some vb ∧
      (vb.cells.drop (9 * 0 + 3 * 0)).take 3 = [0, 0, 0] ∧
      (vb.cells.drop (9 * 0 + 3 * 0)).take 3 ≠ (⟨1, 0, 0⟩ : Vec3 Int).toList := by
  have hv := fileVertices_manyVertices 16777216
    ["v 1 0 0".toList, "vn 0 0 1".toList, "f 16777217//1 1//1 2//1".toList]
  have ht : fileVertices intLib
      ["v 1 0 0".toList, "vn 0 0 1".toList, "f 16777217//1 1//1 2//1".toList]
      = [⟨1, 0, 0⟩] := by decide
  rw [ht] at hv
  refine ⟨?_, ?_, ?_, ?_, ?_, ?_, _, _,
    load_arrays_manyVertices_withNormals 16777216 (le_refl _) (by norm_num), rfl, rfl,
    by decide⟩
  · rw [largeFileWithNormals, fileFaces_manyVertices]
    decide
  · rw [largeFileWithNormals, fileNormalIndices_manyVertices]
    decide
  · exact manyVertices_forall
      (fun l => isFaceLine l = true → (faceLineNormalIndices l).isSome = true) _ _
      (by decide) (by decide)
  · rw [largeFileWithNormals, hv, List.length_append, List.length_replicate]
    rfl
  · rw [largeFileWithNormals, hv]
    exact fetch_manyVertices_last 16777216 ⟨1, 0, 0⟩ []
  · rw [largeFileWithNormals, fileNormals_manyVertices]
    decide

/-- Witness of `arrays_named_positions_and_normals`: a triangle with one normal per
corner. -/
theorem arrays_named_positions_and_normals_witness :
    ∃ (m2 : Model Int) (vb nb : Buffer Int),
      load intLib (construct DrawingMethod.DRAWING_AS_ARRAYS)
        (some ["v 0 0 0".toList, "v 1 0 0".toList, "v 0 1 0".toList, "vn 0 0 1".toList,
          "vn 0 1 0".toList, "f 3//1 1//2 2//1".toList]) = Outcome.ok m2 ∧
      m2.vertexData = some vb ∧ m2.normalData = some nb ∧
      (vb.cells.drop (9 * 0)).take 9 = [0, 1, 0, 0, 0, 0, 1, 0, 0] ∧
      (nb.cells.drop (9 * 0)).take 9 = [0, 0, 1, 0, 1, 0, 0, 0, 1] := by
  have hload : load intLib (construct DrawingMethod.DRAWING_AS_ARRAYS)
      (some ["v 0 0 0".toList, "v 1 0 0".toList, "v 0 1 0".toList, "vn 0 0 1".toList,
        "vn 0 1 0".toList, "f 3//1 1//2 2//1".toList])
      = Outcome.ok { modelOfItems DrawingMethod.DRAWING_AS_ARRAYS
          [(Item.vertex ⟨0, 0, 0⟩ : Item Int), Item.vertex ⟨1, 0, 0⟩, Item.vertex ⟨0, 1, 0⟩,
            Item.normal ⟨0, 0, 1⟩, Item.normal ⟨0, 1, 0⟩,
            Item.faceWithNormals ⟨3, 1, 2⟩ ⟨1, 2, 1⟩] with
        vertexData := some ⟨9, [0, 1, 0, 0, 0, 0, 1, 0, 0]⟩
        normalData := some ⟨9, [0, 0, 1, 0, 1, 0, 0, 0, 1]⟩
        numVertices := 3
        numNormals := 3 } := by decide
  obtain ⟨vb, nb, h1, h2, h3, h4⟩ := arrays_named_positions_and_normals intLib
    (construct DrawingMethod.DRAWING_AS_ARRAYS) _ _ rfl hload (by decide) 0 ⟨3, 1, 2⟩ ⟨1, 2, 1⟩
    ⟨0, 1, 0⟩ ⟨0, 0, 0⟩ ⟨1, 0, 0⟩ ⟨0, 0, 1⟩ ⟨0, 1, 0⟩ ⟨0, 0, 1⟩
    (by decide) (by decide) (by decide) (by decide) (by decide) (by decide) (by decide)
    (by decide) (by decide) (by decide) (by decide) (by decide) (by decide) (by decide)
  exact ⟨_, vb, nb, hload, h1, h2, h3, h4⟩

/-! ## The array section: a file with vertices only -/


/-- Claim C11.  For every file without a well-formed `f` line and without a well-formed
`vn` line, loaded with `DRAWING_AS_ARRAYS` (the call of `load` returns, which it only does
for a file with at least one well-formed `v` line): `getNumVertices()` is the number of
well-formed `v` lines; the vertex array holds exactly the coordinates of those lines in file
order, so that for every `i` below that number the floats `3*i`, `3*i+1`, `3*i+2` are the
`x`, `y`, `z` of the `i`-th `v` line; and no normal data is produced (the normal array stays
null and `getNumNormals()` is 0). -/
theorem arrays_vertices_only_data_in_file_order {F : Type} (L : FloatLib F) (m : Model F)
    (lines : List (List Char)) (m2 : Model F)
    (hdm : m.drawingMethod = DrawingMethod.DRAWING_AS_ARRAYS)
    (hload : load L m (some lines) = Outcome.ok m2)
    (hnof : ∀ line ∈ lines, isFaceLine line = false)
    (hnovn : ∀ line ∈ lines, isNormalLine line = false) :
    0 < lines.countP isVertexLine ∧
    getNumVertices m2 = lines.countP isVertexLine ∧
    (fileVertices L lines).length = lines.countP isVertexLine ∧
    (∃ buf, m2.vertexData = some buf ∧
      buf.cells = (fileVertices L lines).flatMap Vec3.toList ∧
      buf.cells.length = 3 * getNumVertices m2 ∧
      buf.cap = 3 * getNumVertices m2 ∧
      ∀ i (hi : i < (fileVertices L lines).length),
        buf.cells[3 * i]? = some (fileVertices L lines)[i].x ∧
        buf.cells[3 * i + 1]? = some (fileVertices L lines)[i].y ∧
        buf.cells[3 * i + 2]? = some (fileVertices L lines)[i].z) ∧
    m2.normalData = none ∧ getNumNormals m2 = 0 := by
  obtain ⟨flag, items, hitems, hread, hv, hsetup⟩ := load_ok L m lines m2 hload
  obtain ⟨c1, c2, c3⟩ := counts_of_read L m lines flag _ hread
  have hverts := (vertices_of_fileItems L lines items hitems).1
  set m1 := modelOfItems m.drawingMethod items with hm1
  have hvs : m1.vertices = fileVertices L lines := hverts
  have hnum : m1.numVertices = m1.vertices.length := rfl
  have hf0 : lines.countP isFaceLine = 0 := by
    rw [List.countP_eq_zero]; intro a ha; simp [hnof a ha]
  have hn0 : lines.countP isNormalLine = 0 := by
    rw [List.countP_eq_zero]; intro a ha; simp [hnovn a ha]
  have hhf : hasFaces m1 = false := by simp [hasFaces, c3, hf0]
  have hhn : hasNormals m1 = false := by simp [hasNormals, c2, hn0]
  have hpos : 0 < lines.countP isVertexLine := by
    rw [← c1]; simpa [hasVertices] using hv
  have hd : m1.drawingMethod = DrawingMethod.DRAWING_AS_ARRAYS := hdm
  unfold setupData at hsetup
  simp only [hd, if_true, hv, hhf, hhn, Bool.true_and, Bool.not_false, Bool.false_and,
    Bool.and_false, Bool.false_eq_true, if_false, Bool.and_self, ofOption_eq_ok] at hsetup
  obtain ⟨i1, e1⟩ := setupVerticesOnly_some m1 m2 hsetup
  have hlen : m1.vertices.length = lines.countP isVertexLine := by rw [← hnum]; exact c1
  have hne : m1.vertices ≠ [] := by
    intro h0; rw [h0] at hlen; simp at hlen; omega
  obtain ⟨j1, j2⟩ := i1 hne
  have hcap : m1.numVertices * 3 % GLUINT_MOD = 3 * m1.vertices.length := by
    rw [hnum]
    have := threeTimes_of_le j2
    simpa [Nat.mul_comm] using this
  have hcells : (m1.vertices.flatMap Vec3.toList).length = 3 * m1.vertices.length :=
    flatMap_length_const _ 3 m1.vertices (fun a _ => by simp [Vec3.toList])
  refine ⟨hpos, ?_, ?_, ⟨_, by rw [e1], ?_, ?_, ?_, ?_⟩, ?_, ?_⟩
  · rw [e1]; exact hlen
  · rw [← hvs]; exact hlen
  · simp only [hvs]
  · rw [e1]; simp only [getNumVertices, hcells]
  · rw [e1]; simp only [getNumVertices, hcap]
  · intro i hi
    have hi2 : i < m1.vertices.length := by rw [hvs]; exact hi
    have hc := flatMap_chunk (Vec3.toList (α := F)) 3 m1.vertices i hi2
      (fun a _ => by simp [Vec3.toList])
    have g0 := getElem?_of_chunk _ _ 3 i 0 hc (by norm_num)
    have g1 := getElem?_of_chunk _ _ 3 i 1 hc (by norm_num)
    have g2 := getElem?_of_chunk _ _ 3 i 2 hc (by norm_num)
    simp only [Vec3.toList, Nat.add_zero] at g0 g1 g2
    simp only [List.getElem?_cons_zero, List.getElem?_cons_succ, hvs] at g0 g1 g2
    simp only [hvs]
    exact ⟨g0, g1, g2⟩
  · rw [e1]; rfl
  · rw [e1]; exact c2.trans hn0

/-- Witness of `arrays_vertices_only_data_in_file_order`: a file with the lines `v 1 2 3`,
an empty line and `v 4 5 6`. -/
theorem arrays_vertices_only_data_in_file_order_witness :
    ∃ (m2 : Model Int) (buf : Buffer Int),
      load intLib (construct DrawingMethod.DRAWING_AS_ARRAYS)
        (some ["v 1 2 3".toList, [], "v 4 5 6".toList]) = Outcome.ok m2 ∧
      getNumVertices m2 = 2 ∧ m2.vertexData = some buf ∧ buf.cells = [1, 2, 3, 4, 5, 6] ∧
      buf.cap = 3 * getNumVertices m2 ∧ m2.normalData = none ∧ getNumNormals m2 = 0 := by
  have hload : load intLib (construct DrawingMethod.DRAWING_AS_ARRAYS)
      (some ["v 1 2 3".toList, [], "v 4 5 6".toList])
      = Outcome.ok { modelOfItems DrawingMethod.DRAWING_AS_ARRAYS
          [(Item.vertex ⟨1, 2, 3⟩ : Item Int), Item.skip, Item.vertex ⟨4, 5, 6⟩] with
        vertexData := some ⟨6, [1, 2, 3, 4, 5, 6]⟩ } := by decide
  have hcount : ["v 1 2 3".toList, [], "v 4 5 6".toList].countP isVertexLine = 2 := by decide
  have hfile : fileVertices intLib ["v 1 2 3".toList, [], "v 4 5 6".toList]
      = [⟨1, 2, 3⟩, ⟨4, 5, 6⟩] := by decide
  obtain ⟨-, h1, -, ⟨buf, h2, h3, -, h4, -⟩, h5, h6⟩ :=
    arrays_vertices_only_data_in_file_order intLib
      (construct DrawingMethod.DRAWING_AS_ARRAYS) _ _ rfl hload (by decide) (by decide)
  rw [hcount] at h1
  rw [hfile] at h3
  exact ⟨_, buf, hload, h1, h2, h3, h4, h5, h6⟩

/-! ## The array section: the number of normals against the number of vertices -/

/-- What the array section leaves in the two counts for a file with faces: when the file
has no well-formed `vn` line both counts are three times the number of face lines; when it
has a `vn` line and a face line written with `//`, `getNumVertices()` is three times the
number of face lines and `getNumNormals()` is three times the number of face lines written
with `//`. -/
theorem arrays_counts_after_setupData {F : Type} (L : FloatLib F) (m : Model F)
    (lines : List (List Char)) (m2 : Model F)
    (hdm : m.drawingMethod = DrawingMethod.DRAWING_AS_ARRAYS)
    (hload : load L m (some lines) = Outcome.ok m2)
    (hfaces : 0 < lines.countP isFaceLine) :
    (lines.countP isNormalLine = 0 →
      getNumVertices m2 = 3 * lines.countP isFaceLine ∧
      getNumNormals m2 = 3 * lines.countP isFaceLine) ∧
    (0 < lines.countP isNormalLine → 0 < lines.countP isSlashedFaceLine →
      getNumVertices m2 = 3 * lines.countP isFaceLine ∧
      getNumNormals m2 = 3 * lines.countP isSlashedFaceLine) := by
  obtain ⟨flag, items, hitems, hread, hv, hsetup⟩ := load_ok L m lines m2 hload
  obtain ⟨c1, c2, c3⟩ := counts_of_read L m lines flag _ hread
  have c4 := normalIndex_count_of_read L m lines flag _ hread
  set m1 := modelOfItems m.drawingMethod items with hm1
  have hnf : m1.numFaces = m1.faces.length := rfl
  have hnn : m1.numNormalIndices = m1.normalIndices.length := rfl
  have hf : hasFaces m1 = true := by simp [hasFaces, c3, hfaces]
  have hd : m1.drawingMethod = DrawingMethod.DRAWING_AS_ARRAYS := hdm
  unfold setupData at hsetup
  simp only [hd, if_true, hv, hf, Bool.true_and] at hsetup
  constructor
  · intro h0
    have hn : hasNormals m1 = false := by simp [hasNormals, c2, h0]
    simp only [hn, Bool.not_false, if_true, ofOption_eq_ok] at hsetup
    obtain ⟨-, -, i3⟩ := setupGenerated_some L m1 m2 hsetup
    rw [i3]
    simp only [getNumVertices, getNumNormals, ← hnf, c3, and_self]
  · intro h0 h1
    have hn : hasNormals m1 = true := by simp [hasNormals, c2, h0]
    have hni : hasNormalIndices m1 = true := by simp [hasNormalIndices, c4, h1]
    simp only [hn, hni, Bool.not_true, Bool.false_eq_true, if_false, Bool.and_self,
      if_true, ofOption_eq_ok] at hsetup
    obtain ⟨-, -, -, -, i3⟩ := setupIndexed_some m1 m2 hsetup
    rw [i3]
    simp only [getNumVertices, getNumNormals, ← hnf, ← hnn, c3, c4, and_self]

/-- Claim C12, the code at the failing input.  Loaded with `DRAWING_AS_ARRAYS`, the file
`v 0 0 0`, `v 1 0 0`, `v 0 1 0`, `vn 0 0 1`, `f 1 2 3`, `f 1//1 2//1 3//1`, which mixes the
two ways of writing a face line: `load` returns, the vertex array holds the 18 floats of
both faces, the normal array holds the 9 floats of the one face written with `//`,
`getNumVertices()` is 6 and `getNumNormals()` is 3, `getVertexDataSizeBytes()` is 72 and
`getNormalDataSizeBytes()` is 36. -/
theorem arrays_mixed_face_lines_counts_differ :
    ∃ m2, load intLib (construct DrawingMethod.DRAWING_AS_ARRAYS)
        (some ["v 0 0 0".toList, "v 1 0 0".toList, "v 0 1 0".toList, "vn 0 0 1".toList,
          "f 1 2 3".toList, "f 1//1 2//1 3//1".toList]) = Outcome.ok m2 ∧
      m2.vertexData = some ⟨18, [0, 0, 0, 1, 0, 0, 0, 1, 0, 0, 0, 0, 1, 0, 0, 0, 1, 0]⟩ ∧
      m2.normalData = some ⟨18, [0, 0, 1, 0, 0, 1, 0, 0, 1]⟩ ∧
      getNumVertices m2 = 6 ∧ getNumNormals m2 = 3 ∧
      getVertexDataSizeBytes m2 = 72 ∧ getNormalDataSizeBytes m2 = 36 ∧
      getNumNormals m2 ≠ getNumVertices m2 :=
  ⟨{ modelOfItems DrawingMethod.DRAWING_AS_ARRAYS
        [(Item.vertex ⟨0, 0, 0⟩ : Item Int), Item.vertex ⟨1, 0, 0⟩, Item.vertex ⟨0, 1, 0⟩,
          Item.normal ⟨0, 0, 1⟩, Item.face ⟨1, 2, 3⟩,
          Item.faceWithNormals ⟨1, 2, 3⟩ ⟨1, 1, 1⟩] with
      vertexData := some ⟨18, [0, 0, 0, 1, 0, 0, 0, 1, 0, 0, 0, 0, 1, 0, 0, 0, 1, 0]⟩
      normalData := some ⟨18, [0, 0, 1, 0, 0, 1, 0, 0, 1]⟩
      numVertices := 6
      numNormals := 3 },
    by decide, by decide, by decide, by decide, by decide, by decide, by decide, by decide⟩

/-! ## The data arrays of a loaded model -/

theorem flatMap_toList_length {F : Type} (l : List (Vec3 F)) :
    (l.flatMap Vec3.toList).length = 3 * l.length :=
  flatMap_length_const _ 3 l (fun a _ => by simp [Vec3.toList])

/-- The data arrays that `load` leaves are populated whenever they are not null: the vertex
array holds `3 * getNumVertices()` floats, the normal array `3 * getNumNormals()`, and the
counts are positive. -/
theorem load_populated {F : Type} (L : FloatLib F) (m : Model F) (lines : List (List Char))
    (m2 : Model F) (hload : load L m (some lines) = Outcome.ok m2) :
    (m2.vertexData ≠ none → Populated m2.vertexData m2.numVertices ∧ 0 < m2.numVertices) ∧
    (m2.normalData ≠ none → Populated m2.normalData m2.numNormals ∧ 0 < m2.numNormals) := by
  obtain ⟨flag, items, hitems, hread, hv, hsetup⟩ := load_ok L m lines m2 hload
  set m1 := modelOfItems m.drawingMethod items with hm1
  have hnf : m1.numFaces = m1.faces.length := rfl
  have hnv : m1.numVertices = m1.vertices.length := rfl
  have hnn : m1.numNormalIndices = m1.normalIndices.length := rfl
  have hvd : m1.vertexData = none := rfl
  have hnd : m1.normalData = none := rfl
  have hI : INT_MAX = 2147483647 := by norm_num [INT_MAX]
  -- the block that generates the normals, shared by both drawing methods
  have gen : ∀ m3 : Model F, hasFaces m1 = true → setupGenerated L m1 = some m3 →
      (Populated m3.vertexData m3.numVertices ∧ 0 < m3.numVertices) ∧
      (Populated m3.normalData m3.numNormals ∧ 0 < m3.numNormals) := by
    intro m3 hf hg
    obtain ⟨i1, i2, i3⟩ := setupGenerated_some L m1 m3 hg
    have hpos : 0 < m1.faces.length := by
      rw [← hnf]; simpa [hasFaces] using hf
    obtain ⟨j1, j2⟩ := i2 (by intro h0; rw [h0] at hpos; simp at hpos)
    have l1 := flatMap_cornerFloats_length m1.vertices m1.faces i1
    have l2 := flatMap_generatedNormalFloats_length L m1.vertices m1.faces i1
    rw [i3]
    refine ⟨⟨⟨_, rfl, ?_, ?_, ?_⟩, by simp only; omega⟩, ⟨⟨_, rfl, ?_, ?_, ?_⟩, by simp only; omega⟩⟩
    · simp only [l1]; ring
    · simp only [l1]; omega
    · rw [hI] at j2 ⊢; push_cast at j2 ⊢; omega
    · simp only [l2]; ring
    · simp only [l2]; omega
    · rw [hI] at j2 ⊢; push_cast at j2 ⊢; omega
  by_cases hd : m1.drawingMethod = DrawingMethod.DRAWING_AS_ARRAYS
  · unfold setupData at hsetup
    simp only [hd, if_true, hv, Bool.true_and] at hsetup
    by_cases hf : hasFaces m1 = true
    · simp only [hf, Bool.true_and, Bool.not_true, Bool.false_and, Bool.and_false] at hsetup
      by_cases hn : hasNormals m1 = true
      · simp only [hn, Bool.not_true, Bool.false_eq_true, if_false, Bool.true_and] at hsetup
        by_cases hni : hasNormalIndices m1 = true
        · simp only [hni, if_true, ofOption_eq_ok] at hsetup
          obtain ⟨i1, i2, i3, i4, i5⟩ := setupIndexed_some m1 m2 hsetup
          have hpos : 0 < m1.faces.length := by
            rw [← hnf]; simpa [hasFaces] using hf
          have hpos2 : 0 < m1.normalIndices.length := by
            rw [← hnn]; simpa [hasNormalIndices] using hni
          obtain ⟨j1, j2⟩ := i3 (by intro h0; rw [h0] at hpos; simp at hpos)
          obtain ⟨k1, k2⟩ := i4 (by intro h0; rw [h0] at hpos2; simp at hpos2)
          have l1 := flatMap_cornerFloats_length m1.vertices m1.faces i1
          have l2 := flatMap_cornerFloats_length m1.normals m1.normalIndices i2
          rw [i5]
          refine ⟨fun _ => ⟨⟨_, rfl, ?_, ?_, ?_⟩, by simp only; omega⟩,
            fun _ => ⟨⟨_, rfl, ?_, ?_, ?_⟩, by simp only; omega⟩⟩
          · simp only [l1]; ring
          · simp only [l1]; omega
          · rw [hI] at j2 ⊢; push_cast at j2 ⊢; omega
          · simp only [l2]; ring
          · simp only [l2]; omega
          · rw [hI] at k2 ⊢; push_cast at k2 ⊢; omega
        · simp only [hni, Bool.false_eq_true, if_false, Outcome.ok.injEq] at hsetup
          rw [← hsetup]
          exact ⟨fun h => absurd hvd h, fun h => absurd hnd h⟩
      · simp only [Bool.not_eq_true] at hn
        simp only [hn, Bool.not_false, if_true, ofOption_eq_ok] at hsetup
        obtain ⟨g1, g2⟩ := gen m2 hf hsetup
        exact ⟨fun _ => g1, fun _ => g2⟩
    · simp only [Bool.not_eq_true] at hf
      simp only [hf, Bool.false_and, Bool.false_eq_true, if_false, Bool.not_false,
        Bool.true_and] at hsetup
      by_cases hn : hasNormals m1 = true
      · simp only [hn, Bool.not_true, Bool.false_eq_true, if_false, Outcome.ok.injEq] at hsetup
        rw [← hsetup]
        exact ⟨fun h => absurd hvd h, fun h => absurd hnd h⟩
      · simp only [Bool.not_eq_true] at hn
        simp only [hn, Bool.not_false, if_true, ofOption_eq_ok] at hsetup
        obtain ⟨i1, e1⟩ := setupVerticesOnly_some m1 m2 hsetup
        have hpos : 0 < m1.vertices.length := by
          rw [← hnv]; simpa [hasVertices] using hv
        obtain ⟨j1, j2⟩ := i1 (by intro h0; rw [h0] at hpos; simp at hpos)
        rw [e1]
        refine ⟨fun _ => ⟨⟨_, rfl, ?_, ?_, ?_⟩, by simp only; omega⟩, fun h => absurd hnd h⟩
        · simp only [flatMap_toList_length]
        · simp only [flatMap_toList_length]; omega
        · exact j2
  · have hd2 : m1.drawingMethod = DrawingMethod.DRAWING_AS_ELEMENTS := by
      cases hh : m1.drawingMethod with
      | DRAWING_AS_ARRAYS => exact absurd hh hd
      | DRAWING_AS_ELEMENTS => rfl
    obtain ⟨m3, hg, hfd⟩ := setupData_elements_ok L m1 m2 hd2 hsetup
    have hf : hasFaces m1 = true := by
      unfold setupData at hsetup
      simp only [hd, if_false] at hsetup
      by_cases hvf : (hasVertices m1 && hasFaces m1) = true
      · simp only [Bool.and_eq_true] at hvf; exact hvf.2
      · simp [hvf] at hsetup
    obtain ⟨g1, g2⟩ := gen m3 hf hg
    obtain ⟨-, -, e⟩ := setupFaceData_some m3 m2 hfd
    rw [e]
    exact ⟨fun _ => g1, fun _ => g2⟩

/-! ## The copy constructor -/

theorem memcpyFloats_populated {F : Type} (data : Option (Buffer F)) (num : Nat) (buf : Buffer F)
    (hp : Populated data num) (hd : data = some buf) (hmax : num ≤ MAX_ENTRIES_IN_GLUINT_BYTES) :
    memcpyFloats (Buffer.alloc (num * 3 % GLUINT_MOD)) data
        ((num * 3 % GLUINT_MOD * 4) % GLUINT_MOD)
      = some ⟨3 * num, buf.cells⟩ := by
  obtain ⟨b, e1, e2, e3, -⟩ := hp
  rw [hd] at e1
  cases e1
  have hM : GLUINT_MOD = 4294967296 := by norm_num [GLUINT_MOD]
  unfold MAX_ENTRIES_IN_GLUINT_BYTES at hmax
  have h1 : num * 3 % GLUINT_MOD = 3 * num := by rw [hM]; omega
  have h2 : (3 * num * 4) % GLUINT_MOD / 4 = 3 * num := by rw [hM]; omega
  unfold memcpyFloats
  simp only [hd, h1, h2, Buffer.alloc]
  have hc : 3 * num ≤ buf.cap ∧ 3 * num ≤ 3 * num := ⟨by omega, le_refl _⟩
  rw [if_pos hc, ← e2, List.take_length]

/-- Claim C13, counterexample.  The file whose only line is `v 1 2 3` loads with
`DRAWING_AS_ARRAYS` (the vertex array holds its 3 floats, `getNumVertices()` is 1), and copy
construction from the loaded model does not complete: it ends in `exit(-1)` at the test
`numNormals > 0`. -/
theorem copy_of_model_without_normals_exits :
    ∃ source, load intLib (construct DrawingMethod.DRAWING_AS_ARRAYS) (some ["v 1 2 3".toList])
        = Outcome.ok source ∧
      source.vertexData = some ⟨3, [1, 2, 3]⟩ ∧ getNumVertices source = 1 ∧
      copyConstruct source = Outcome.exit (-1) :=
  ⟨{ modelOfItems DrawingMethod.DRAWING_AS_ARRAYS [(Item.vertex ⟨1, 2, 3⟩ : Item Int)] with
      vertexData := some ⟨3, [1, 2, 3]⟩ },
    by decide, by decide, by decide, by decide⟩

/-- Claim C13, amended.  For every successfully loaded source model whose vertex array and
normal array are both populated (not null) and hold at most 357913941 entries each, so that
their sizes in bytes are `GLuint`s: copy construction completes and yields a model with the
same drawing method and the same vertex, normal, normal-index and face counts as the
source, whose vertex data and normal data are new arrays of `3 * getNumVertices()` and
`3 * getNumNormals()` floats, element by element equal to the source's. -/
theorem copy_construct_copies_counts_and_data {F : Type} (L : FloatLib F) (m : Model F)
    (lines : List (List Char)) (source : Model F)
    (hload : load L m (some lines) = Outcome.ok source)
    (vb nb : Buffer F) (hvd : source.vertexData = some vb) (hnd : source.normalData = some nb)
    (hvmax : getNumVertices source ≤ MAX_ENTRIES_IN_GLUINT_BYTES)
    (hnmax : getNumNormals source ≤ MAX_ENTRIES_IN_GLUINT_BYTES) :
    ∃ copy cvb cnb, copyConstruct source = Outcome.ok copy ∧
      copy.drawingMethod = source.drawingMethod ∧
      getNumVertices copy = getNumVertices source ∧
      getNumNormals copy = getNumNormals source ∧
      getNumNormalIndices copy = getNumNormalIndices source ∧
      getNumFaces copy = getNumFaces source ∧
      copy.vertexData = some cvb ∧ cvb.cap = 3 * getNumVertices source ∧
      cvb.cells.length = 3 * getNumVertices source ∧ cvb.cells = vb.cells ∧
      copy.normalData = some cnb ∧ cnb.cap = 3 * getNumNormals source ∧
      cnb.cells.length = 3 * getNumNormals source ∧ cnb.cells = nb.cells := by
  obtain ⟨hv, hn⟩ := load_populated L m lines source hload
  obtain ⟨pv, posv⟩ := hv (by rw [hvd]; exact Option.some_ne_none _)
  obtain ⟨pn, posn⟩ := hn (by rw [hnd]; exact Option.some_ne_none _)
  have ev := memcpyFloats_populated _ _ vb pv hvd hvmax
  have en := memcpyFloats_populated _ _ nb pn hnd hnmax
  have lv : vb.cells.length = 3 * source.numVertices := by
    obtain ⟨b, e1, e2, -⟩ := pv
    rw [hvd] at e1; cases e1; exact e2
  have ln : nb.cells.length = 3 * source.numNormals := by
    obtain ⟨b, e1, e2, -⟩ := pn
    rw [hnd] at e1; cases e1; exact e2
  refine ⟨{ drawingMethod := source.drawingMethod
            vertices := []
            normals := []
            normalIndices := []
            faces := []
            vertexData := some ⟨3 * source.numVertices, vb.cells⟩
            normalData := some ⟨3 * source.numNormals, nb.cells⟩
            faceData := none
            numVertices := source.numVertices
            numNormals := source.numNormals
            numNormalIndices := source.numNormalIndices
            numFaces := source.numFaces },
    ⟨3 * source.numVertices, vb.cells⟩, ⟨3 * source.numNormals, nb.cells⟩, ?_,
    rfl, rfl, rfl, rfl, rfl, rfl, rfl, lv, rfl, rfl, rfl, ln, rfl⟩
  unfold copyConstruct
  simp only [initModel, getVertexDataSizeBytes, getNormalDataSizeBytes, posv, posn, if_true,
    ev, en]

/-- Witness of `copy_construct_copies_counts_and_data`: the model loaded with
`DRAWING_AS_ARRAYS` from three vertices and the face `f 1 2 3`. -/
theorem copy_construct_copies_counts_and_data_witness :
    ∃ (source copy : Model Int) (cvb cnb : Buffer Int),
      load intLib (construct DrawingMethod.DRAWING_AS_ARRAYS)
        (some ["v 0 0 0".toList, "v 1 0 0".toList, "v 0 1 0".toList, "f 1 2 3".toList])
        = Outcome.ok source ∧
      copyConstruct source = Outcome.ok copy ∧
      copy.drawingMethod = DrawingMethod.DRAWING_AS_ARRAYS ∧
      getNumVertices copy = 3 ∧ getNumNormals copy = 3 ∧ getNumFaces copy = 1 ∧
      copy.vertexData = some cvb ∧ cvb.cells = [0, 0, 0, 1, 0, 0, 0, 1, 0] ∧
      copy.normalData = some cnb ∧ cnb.cells = [0, 0, 1, 0, 0, 1, 0, 0, 1] := by
  have hload : load intLib (construct DrawingMethod.DRAWING_AS_ARRAYS)
      (some ["v 0 0 0".toList, "v 1 0 0".toList, "v 0 1 0".toList, "f 1 2 3".toList])
      = Outcome.ok { modelOfItems DrawingMethod.DRAWING_AS_ARRAYS
          [(Item.vertex ⟨0, 0, 0⟩ : Item Int), Item.vertex ⟨1, 0, 0⟩, Item.vertex ⟨0, 1, 0⟩,
            Item.face ⟨1, 2, 3⟩] with
        vertexData := some ⟨9, [0, 0, 0, 1, 0, 0, 0, 1, 0]⟩
        normalData := some ⟨9, [0, 0, 1, 0, 0, 1, 0, 0, 1]⟩
        numVertices := 3
        numNormals := 3 } := by decide
  obtain ⟨copy, cvb, cnb, h0, h1, h2, h3, -, h5, h6, -, -, h7, h8, -, -, h9⟩ :=
    copy_construct_copies_counts_and_data intLib (construct DrawingMethod.DRAWING_AS_ARRAYS)
      _ _ hload ⟨9, [0, 0, 0, 1, 0, 0, 0, 1, 0]⟩ ⟨9, [0, 0, 1, 0, 0, 1, 0, 0, 1]⟩ rfl rfl
      (by decide) (by decide)
  exact ⟨_, copy, cvb, cnb, hload, h0, h1, h2, h3, h5, h6, h7, h8, h9⟩

/-! ## Arrays of more than `2 ^ 32` bytes -/

theorem fileItems_manyFaces (n : Nat) :
    fileItems intLib (manyFaces n)
      = some ([Item.vertex ⟨0, 0, 0⟩, Item.vertex ⟨1, 0, 0⟩, Item.vertex ⟨0, 1, 0⟩]
          ++ List.replicate n (Item.face ⟨1, 2, 3⟩)) :=
  (fileItems_append intLib _ _ _).2
    ⟨_, _, by decide,
      fileItems_replicate intLib "f 1 2 3".toList (Item.face ⟨1, 2, 3⟩) (by decide) n, rfl⟩

theorem modelOfItems_manyFaces (n : Nat) :
    modelOfItems DrawingMethod.DRAWING_AS_ARRAYS
        ([Item.vertex ⟨0, 0, 0⟩, Item.vertex ⟨1, 0, 0⟩, Item.vertex ⟨0, 1, 0⟩]
          ++ List.replicate n (Item.face (⟨1, 2, 3⟩ : Vec3 Int)))
      = manyFacesRead n := by
  have h1 : (Item.face (⟨1, 2, 3⟩ : Vec3 Int) : Item Int).vertex? = none := rfl
  have h2 : (Item.face (⟨1, 2, 3⟩ : Vec3 Int) : Item Int).normal? = none := rfl
  have h3 : (Item.face (⟨1, 2, 3⟩ : Vec3 Int) : Item Int).face? = some ⟨1, 2, 3⟩ := rfl
  have h4 : (Item.face (⟨1, 2, 3⟩ : Vec3 Int) : Item Int).normalIndex? = none := rfl
  simp only [modelOfItems, manyFacesRead, List.filterMap_append,
    List.filterMap_replicate_of_some h3, List.filterMap_replicate_of_none h1,
    List.filterMap_replicate_of_none h2, List.filterMap_replicate_of_none h4,
    List.length_append, List.length_replicate]
  simp [Item.vertex?, Item.normal?, Item.face?, Item.normalIndex?]

theorem readModelFile_manyFaces (n : Nat) (h : n < 2147483645) :
    readModelFile intLib (initModel (construct DrawingMethod.DRAWING_AS_ARRAYS))
        (some (manyFaces n)) = Outcome.ok (true, manyFacesRead n) := by
  refine (readModelFile_ok_iff intLib _ _ _ _).2 ⟨?_, _, fileItems_manyFaces n, ?_, ?_⟩
  · simp only [manyFaces, List.length_append, List.length_replicate, List.length_cons,
      List.length_nil, INT_MAX]
    push_cast
    omega
  · have hm : (Item.face (⟨1, 2, 3⟩ : Vec3 Int) : Item Int).isMalformed = false := rfl
    simp only [List.any_append, Bool.true_eq, Bool.not_eq_eq_eq_not, Bool.not_true,
      Bool.or_eq_false_iff, List.any_eq_false, List.mem_replicate]
    refine ⟨by decide, ?_⟩
    rintro x ⟨-, rfl⟩
    simp [hm]
  · exact (modelOfItems_manyFaces n).symm

theorem setupGenerated_manyFacesRead (n : Nat) (h : n ≤ 238609294) :
    setupGenerated intLib (manyFacesRead n) = some (manyFacesLoaded n) := by
  have hlen : (manyFacesRead n).faces.length = n := List.length_replicate _ _
  have hs : ∀ face ∈ (manyFacesRead n).faces,
      (fetchCorners (manyFacesRead n).vertices face).isSome = true := by
    intro face hf
    have : face = ⟨1, 2, 3⟩ := (List.mem_replicate.1 hf).2
    rw [this]
    show (fetchCorners [(⟨0, 0, 0⟩ : Vec3 Int), ⟨1, 0, 0⟩, ⟨0, 1, 0⟩]
      (⟨1, 2, 3⟩ : Vec3 Int)).isSome = true
    decide
  have hroom : ((9 * (manyFacesRead n).faces.length : Nat) : Int) ≤ INT_MAX := by
    rw [hlen]
    simp only [INT_MAX]
    push_cast
    omega
  rw [setupGenerated_of intLib _ hlen.symm hs hroom, hlen]
  have c1 : (manyFacesRead n).faces.flatMap (cornerFloats (manyFacesRead n).vertices)
      = (List.replicate n [0, 0, 0, 1, 0, 0, 0, 1, 0]).flatten := by
    show (List.replicate n (⟨1, 2, 3⟩ : Vec3 Int)).flatMap
      (cornerFloats [⟨0, 0, 0⟩, ⟨1, 0, 0⟩, ⟨0, 1, 0⟩]) = _
    rw [List.flatMap_replicate]
    rfl
  have c2 : (manyFacesRead n).faces.flatMap
      (generatedNormalFloats intLib (manyFacesRead n).vertices)
      = (List.replicate n [0, 0, 1, 0, 0, 1, 0, 0, 1]).flatten := by
    show (List.replicate n (⟨1, 2, 3⟩ : Vec3 Int)).flatMap
      (generatedNormalFloats intLib [⟨0, 0, 0⟩, ⟨1, 0, 0⟩, ⟨0, 1, 0⟩]) = _
    rw [List.flatMap_replicate]
    have : generatedNormalFloats intLib [⟨0, 0, 0⟩, ⟨1, 0, 0⟩, ⟨0, 1, 0⟩] (⟨1, 2, 3⟩ : Vec3 Int)
        = [0, 0, 1, 0, 0, 1, 0, 0, 1] := by decide
    rw [this]
  rw [c1, c2]
  rfl

/-- Loading, with `DRAWING_AS_ARRAYS`, three vertices followed by `n ≥ 1` lines
`f 1 2 3`. -/
theorem load_manyFaces (n : Nat) (h1 : 1 ≤ n) (h2 : n ≤ 238609294) :
    load intLib (construct DrawingMethod.DRAWING_AS_ARRAYS) (some (manyFaces n))
      = Outcome.ok (manyFacesLoaded n) := by
  have hv : hasVertices (manyFacesRead n) = true := rfl
  have hf : hasFaces (manyFacesRead n) = true := decide_eq_true h1
  have hn : hasNormals (manyFacesRead n) = false := rfl
  have hd : (manyFacesRead n).drawingMethod = DrawingMethod.DRAWING_AS_ARRAYS := rfl
  unfold load
  rw [readModelFile_manyFaces n (by omega)]
  show (if hasVertices (manyFacesRead n) = true then setupData intLib (manyFacesRead n)
    else Outcome.exit (-1)) = _
  rw [if_pos hv]
  unfold setupData
  rw [if_pos hd, hv, hf, hn, if_pos (by rfl), setupGenerated_manyFacesRead n h2]
  rfl

theorem take_eight_of_flatten {α : Type} (n : Nat) (h1 : 1 ≤ n) (a b c d e f g h i : α) :
    (List.replicate n [a, b, c, d, e, f, g, h, i]).flatten.take 8 = [a, b, c, d, e, f, g, h] := by
  obtain ⟨k, rfl⟩ : ∃ k, n = k + 1 := ⟨n - 1, by omega⟩
  rw [List.replicate_succ, List.flatten_cons, List.take_append_of_le_length (by simp)]
  rfl

/-- Copy construction from the model `manyFacesLoaded n` for a number of faces between
119304648 and 238609294: the sizes in bytes wrap around modulo `2 ^ 32`. -/
theorem copyConstruct_manyFacesLoaded (n : Nat) (h1 : n = 119304648) :
    copyConstruct (manyFacesLoaded n) = Outcome.ok (manyFacesCopied n) := by
  have hM : GLUINT_MOD = 4294967296 := by norm_num [GLUINT_MOD]
  have hpos : 0 < 3 * n := by omega
  have hcap : 3 * n * 3 % GLUINT_MOD = 9 * n := by rw [hM]; omega
  have hbytes : (9 * n * 4) % GLUINT_MOD / 4 = 8 := by rw [hM]; omega
  have hle : 8 ≤ 9 * n := by omega
  have e1 : memcpyFloats (Buffer.alloc (3 * n * 3 % GLUINT_MOD))
      (some ⟨9 * n, (List.replicate n [(0 : Int), 0, 0, 1, 0, 0, 0, 1, 0]).flatten⟩)
      ((3 * n * 3 % GLUINT_MOD * 4) % GLUINT_MOD) = some ⟨9 * n, [0, 0, 0, 1, 0, 0, 0, 1]⟩ := by
    unfold memcpyFloats
    simp only [hcap, hbytes, Buffer.alloc]
    rw [if_pos ⟨hle, hle⟩, take_eight_of_flatten n (by omega)]
  have e2 : memcpyFloats (Buffer.alloc (3 * n * 3 % GLUINT_MOD))
      (some ⟨9 * n, (List.replicate n [(0 : Int), 0, 1, 0, 0, 1, 0, 0, 1]).flatten⟩)
      ((3 * n * 3 % GLUINT_MOD * 4) % GLUINT_MOD) = some ⟨9 * n, [0, 0, 1, 0, 0, 1, 0, 0]⟩ := by
    unfold memcpyFloats
    simp only [hcap, hbytes, Buffer.alloc]
    rw [if_pos ⟨hle, hle⟩, take_eight_of_flatten n (by omega)]
  unfold copyConstruct
  simp only [manyFacesLoaded, manyFacesRead, initModel, getVertexDataSizeBytes,
    getNormalDataSizeBytes, hpos, if_true, e1, e2, manyFacesCopied]

/-- Claim C13, the bound of the amended claim.  The file with three vertices and 119304648
lines `f 1 2 3` loads with `DRAWING_AS_ARRAYS` into a model with 357913944 vertices, whose
vertex array of 1073741832 floats has the size 4294967328 bytes, which
`getVertexDataSizeBytes()` reports as the `GLuint` 32.  Copy construction completes, but the
vertex array of the copy has only its first eight floats copied from the source. -/
theorem copy_of_large_model_copies_eight_floats :
    load intLib (construct DrawingMethod.DRAWING_AS_ARRAYS) (some (manyFaces 119304648))
      = Outcome.ok (manyFacesLoaded 119304648) ∧
    getNumVertices (manyFacesLoaded 119304648) = 357913944 ∧
    getVertexDataSizeBytes (manyFacesLoaded 119304648) = 32 ∧
    copyConstruct (manyFacesLoaded 119304648) = Outcome.ok (manyFacesCopied 119304648) ∧
    getNumVertices (manyFacesCopied 119304648) = 357913944 ∧
    (manyFacesCopied 119304648).vertexData = some ⟨1073741832, [0, 0, 0, 1, 0, 0, 0, 1]⟩ :=
  ⟨load_manyFaces 119304648 (by norm_num) (by norm_num), rfl, by decide,
    copyConstruct_manyFacesLoaded 119304648 rfl, rfl, rfl⟩

/-! ## `Model::scale` -/

theorem scaleCell_at {F : Type} (L : FloatLib F) (done rest : List F) (v factor : F)
    (h : done.length + 1 < GLUINT_MOD) :
    scaleCell L (done ++ v :: rest) done.length factor
      = some ((done ++ [L.mul v factor]) ++ rest, done.length + 1) := by
  unfold scaleCell
  have h1 : (done ++ v :: rest)[done.length]? = some v := by
    rw [List.getElem?_append_right (le_refl _)]; simp
  rw [h1]
  simp only [Option.some.injEq, Prod.mk.injEq]
  constructor
  · rw [List.set_append_right _ _ (le_refl _)]; simp
  · exact Nat.mod_eq_of_lt h

theorem scaleUniformLoop_eq {F : Type} (L : FloatLib F) (s : F) (bound : Nat) :
    ∀ (fuel loop : Nat) (cells : List F),
      scaleUniformLoop L s bound fuel loop cells = scaleAxesLoop L s s s bound fuel loop cells := by
  intro fuel
  induction fuel with
  | zero => intro loop cells; rfl
  | succ fuel ih =>
    intro loop cells
    unfold scaleUniformLoop scaleAxesLoop
    simp only [ih]

theorem length_three_mul_succ {α : Type} {rest : List α} {k : Nat}
    (h : rest.length = 3 * (k + 1)) :
    ∃ x y z r, rest = x :: y :: z :: r ∧ r.length = 3 * k := by
  match rest, h with
  | x :: y :: z :: r, h =>
    refine ⟨x, y, z, r, rfl, ?_⟩
    simp only [List.length_cons] at h
    omega

/-- The loop of `scale(float, float, float)` on an array that holds `k` more vertices from
cell `loop` on: it completes and has scaled each of them. -/
theorem scaleAxesLoop_spec {F : Type} (L : FloatLib F) (xs ys zs : F) (bound : Nat)
    (hb : bound < GLUINT_MOD) :
    ∀ (k : Nat) (rest : List F), rest.length = 3 * k →
      ∀ (fuel : Nat) (done : List F), k ≤ fuel → bound = done.length + 3 * k →
        scaleAxesLoop L xs ys zs bound fuel done.length (done ++ rest)
          = some (done ++ scaledCells L xs ys zs rest) := by
  intro k
  induction k with
  | zero =>
    intro rest hr fuel done _ hbd
    have : rest = [] := List.length_eq_zero.1 (by simpa using hr)
    subst this
    have hlt : ¬ done.length < bound := by omega
    cases fuel <;> simp [scaleAxesLoop, hlt, scaledCells]
  | succ k ih =>
    intro rest hr fuel done hf hbd
    obtain ⟨x, y, z, r, rfl, hr2⟩ := length_three_mul_succ hr
    obtain ⟨f, rfl⟩ : ∃ f, fuel = f + 1 := ⟨fuel - 1, by omega⟩
    have hlt : done.length < bound := by omega
    have e1 := scaleCell_at L done (y :: z :: r) x xs (by omega)
    have e2 := scaleCell_at L (done ++ [L.mul x xs]) (z :: r) y ys
      (by simp only [List.length_append, List.length_singleton]; omega)
    have e3 := scaleCell_at L ((done ++ [L.mul x xs]) ++ [L.mul y ys]) r z zs
      (by simp only [List.length_append, List.length_singleton]; omega)
    simp only [List.length_append, List.length_singleton] at e1 e2 e3
    have ih2 := ih r hr2 f (((done ++ [L.mul x xs]) ++ [L.mul y ys]) ++ [L.mul z zs])
      (by omega) (by simp only [List.length_append, List.length_singleton]; omega)
    simp only [List.length_append, List.length_singleton] at ih2
    unfold scaleAxesLoop
    simp only [hlt, if_true, e1, e2, e3, Option.bind_eq_bind, Option.some_bind, bind, ih2,
      scaledCells]
    simp

theorem scaledCells_length {F : Type} (L : FloatLib F) (xs ys zs : F) :
    ∀ (k : Nat) (cells : List F), cells.length = 3 * k →
      (scaledCells L xs ys zs cells).length = cells.length := by
  intro k
  induction k with
  | zero =>
    intro cells h
    have : cells = [] := List.length_eq_zero.1 (by simpa using h)
    subst this
    rfl
  | succ k ih =>
    intro cells h
    obtain ⟨x, y, z, r, rfl, hr⟩ := length_three_mul_succ h
    simp only [scaledCells, List.length_cons, ih r hr]

theorem scaledCells_getElem? {F : Type} (L : FloatLib F) (xs ys zs : F) :
    ∀ (i : Nat) (cells : List F), 3 * i + 2 < cells.length →
      ∃ x y z, cells[3 * i]? = some x ∧ cells[3 * i + 1]? = some y ∧
        cells[3 * i + 2]? = some z ∧
        (scaledCells L xs ys zs cells)[3 * i]? = some (L.mul x xs) ∧
        (scaledCells L xs ys zs cells)[3 * i + 1]? = some (L.mul y ys) ∧
        (scaledCells L xs ys zs cells)[3 * i + 2]? = some (L.mul z zs) := by
  intro i
  induction i with
  | zero =>
    intro cells h
    match cells, h with
    | x :: y :: z :: r, _ =>
      exact ⟨x, y, z, by simp, by simp, by simp, by simp [scaledCells], by simp [scaledCells],
        by simp [scaledCells]⟩
  | succ i ih =>
    intro cells h
    match cells, h with
    | x :: y :: z :: r, h =>
      simp only [List.length_cons] at h
      obtain ⟨a, b, c, h1, h2, h3, h4, h5, h6⟩ := ih r (by omega)
      have e0 : 3 * (i + 1) = 3 * i + 1 + 1 + 1 := by ring
      have e1 : 3 * (i + 1) + 1 = (3 * i + 1) + 1 + 1 + 1 := by ring
      have e2 : 3 * (i + 1) + 2 = (3 * i + 2) + 1 + 1 + 1 := by ring
      refine ⟨a, b, c, ?_, ?_, ?_, ?_, ?_, ?_⟩
      · rw [e0]; simpa only [List.getElem?_cons_succ] using h1
      · rw [e1]; simpa only [List.getElem?_cons_succ] using h2
      · rw [e2]; simpa only [List.getElem?_cons_succ] using h3
      · rw [e0]; simpa only [scaledCells, List.getElem?_cons_succ] using h4
      · rw [e1]; simpa only [scaledCells, List.getElem?_cons_succ] using h5
      · rw [e2]; simpa only [scaledCells, List.getElem?_cons_succ] using h6

/-- On a populated vertex array `scale(float, float, float)` completes and writes the
scaled cells. -/
theorem scaleAxes_of_populated {F : Type} (L : FloatLib F) (m : Model F) (xs ys zs : F)
    (buf : Buffer F) (hvd : m.vertexData = some buf)
    (hlen : buf.cells.length = 3 * m.numVertices)
    (hmax : ((3 * m.numVertices : Nat) : Int) ≤ INT_MAX) :
    scaleAxes L m xs ys zs
      = some { m with vertexData := some ⟨buf.cap, scaledCells L xs ys zs buf.cells⟩ } := by
  have hI : INT_MAX = 2147483647 := by norm_num [INT_MAX]
  have hM : GLUINT_MOD = 4294967296 := by norm_num [GLUINT_MOD]
  rw [hI] at hmax
  push_cast at hmax
  have hbound : m.numVertices * 3 % GLUINT_MOD = 3 * m.numVertices := by rw [hM]; omega
  have hloop := scaleAxesLoop_spec L xs ys zs (3 * m.numVertices) (by rw [hM]; omega)
    m.numVertices buf.cells hlen (3 * m.numVertices) [] (by omega) (by simp)
  simp only [List.length_nil, List.nil_append] at hloop
  unfold scaleAxes onVertexData
  simp only [hvd, hbound, hloop, Option.map_some']

/-- The vertex array of a model stays populated under `scale`. -/
theorem scaleAxes_populated {F : Type} (L : FloatLib F) (m m2 : Model F) (xs ys zs : F)
    (hp : Populated m.vertexData m.numVertices) (h : scaleAxes L m xs ys zs = some m2) :
    Populated m2.vertexData m2.numVertices := by
  obtain ⟨buf, hvd, hlen, hcap, hmax⟩ := hp
  rw [scaleAxes_of_populated L m xs ys zs buf hvd hlen hmax] at h
  cases h
  refine ⟨_, rfl, ?_, ?_, hmax⟩
  · show (scaledCells L xs ys zs buf.cells).length = 3 * m.numVertices
    rw [scaledCells_length L xs ys zs m.numVertices buf.cells hlen]; exact hlen
  · show (scaledCells L xs ys zs buf.cells).length ≤ buf.cap
    rw [scaledCells_length L xs ys zs m.numVertices buf.cells hlen]; exact hcap

/-- Claim C14.  For every model with populated vertex data (the vertex array is allocated
and holds the `3 * getNumVertices()` floats of its vertices) and all factors `xs`, `ys`,
`zs`: `scale(xs, ys, zs)` returns and leaves the model as it was except for the cells of the
vertex array, where the `x`, `y`, `z` of every vertex `i` below `getNumVertices()` have been
replaced by `x * xs`, `y * ys`, `z * zs`; the normal data, the face data, the four counts,
the drawing method and the size of the vertex array are unchanged; and `scale(s)` gives the
same result as `scale(s, s, s)` for every `s`. -/
theorem scale_multiplies_every_vertex {F : Type} (L : FloatLib F) (m : Model F) (xs ys zs : F)
    (hp : Populated m.vertexData m.numVertices) :
    ∃ buf m2 buf2, m.vertexData = some buf ∧ scaleAxes L m xs ys zs = some m2 ∧
      m2.vertexData = some buf2 ∧ buf2.cap = buf.cap ∧
      buf2.cells = scaledCells L xs ys zs buf.cells ∧
      buf2.cells.length = buf.cells.length ∧
      (∀ i, i < getNumVertices m →
        ∃ x y z, buf.cells[3 * i]? = some x ∧ buf.cells[3 * i + 1]? = some y ∧
          buf.cells[3 * i + 2]? = some z ∧
          buf2.cells[3 * i]? = some (L.mul x xs) ∧
          buf2.cells[3 * i + 1]? = some (L.mul y ys) ∧
          buf2.cells[3 * i + 2]? = some (L.mul z zs)) ∧
      m2 = { m with vertexData := some buf2 } ∧
      m2.normalData = m.normalData ∧ m2.faceData = m.faceData ∧
      getNumVertices m2 = getNumVertices m ∧ getNumNormals m2 = getNumNormals m ∧
      getNumNormalIndices m2 = getNumNormalIndices m ∧ getNumFaces m2 = getNumFaces m ∧
      m2.drawingMethod = m.drawingMethod ∧
      ∀ s, scale L m s = scaleAxes L m s s s := by
  obtain ⟨buf, hvd, hlen, hcap, hmax⟩ := hp
  have hrun := scaleAxes_of_populated L m xs ys zs buf hvd hlen hmax
  refine ⟨buf, _, ⟨buf.cap, scaledCells L xs ys zs buf.cells⟩, hvd, hrun, rfl, rfl, rfl,
    scaledCells_length L xs ys zs m.numVertices buf.cells hlen, ?_, rfl, rfl, rfl, rfl, rfl,
    rfl, rfl, rfl, ?_⟩
  · intro i hi
    exact scaledCells_getElem? L xs ys zs i buf.cells (by
      simp only [getNumVertices] at hi; omega)
  · intro s
    unfold scale scaleAxes
    have e : scaleUniformLoop L s (m.numVertices * 3 % GLUINT_MOD)
        (m.numVertices * 3 % GLUINT_MOD) 0
        = scaleAxesLoop L s s s (m.numVertices * 3 % GLUINT_MOD)
          (m.numVertices * 3 % GLUINT_MOD) 0 :=
      funext (scaleUniformLoop_eq L s _ _ 0)
    simp only [e]

/-- Witness of `scale_multiplies_every_vertex`: a model with the two vertices `(1, 2, 3)` and
`(4, 5, 6)`, scaled by `(2, 3, 5)`. -/
theorem scale_multiplies_every_vertex_witness :
    ∃ (m m2 : Model Int),
      load intLib (construct DrawingMethod.DRAWING_AS_ARRAYS)
        (some ["v 1 2 3".toList, "v 4 5 6".toList]) = Outcome.ok m ∧
      m.vertexData = some ⟨6, [1, 2, 3, 4, 5, 6]⟩ ∧
      scaleAxes intLib m 2 3 5 = some m2 ∧
      m2.vertexData = some ⟨6, [2, 6, 15, 8, 15, 30]⟩ ∧
      m2 = { m with vertexData := some ⟨6, [2, 6, 15, 8, 15, 30]⟩ } ∧
      scale intLib m 7 = scaleAxes intLib m 7 7 7 := by
  have hload : load intLib (construct DrawingMethod.DRAWING_AS_ARRAYS)
      (some ["v 1 2 3".toList, "v 4 5 6".toList])
      = Outcome.ok { modelOfItems DrawingMethod.DRAWING_AS_ARRAYS
          [(Item.vertex ⟨1, 2, 3⟩ : Item Int), Item.vertex ⟨4, 5, 6⟩] with
        vertexData := some ⟨6, [1, 2, 3, 4, 5, 6]⟩ } := by decide
  obtain ⟨buf, m2, buf2, h1, h2, h3, h4, h5, -, -, h6, -, -, -, -, -, -, -, h7⟩ :=
    scale_multiplies_every_vertex intLib
      { modelOfItems DrawingMethod.DRAWING_AS_ARRAYS
          [(Item.vertex ⟨1, 2, 3⟩ : Item Int), Item.vertex ⟨4, 5, 6⟩] with
        vertexData := some ⟨6, [1, 2, 3, 4, 5, 6]⟩ } 2 3 5
      ⟨⟨6, [1, 2, 3, 4, 5, 6]⟩, rfl, by decide, by decide, by decide⟩
  have hb : buf = ⟨6, [1, 2, 3, 4, 5, 6]⟩ := (Option.some.inj h1).symm
  subst hb
  have hb2 : buf2 = ⟨6, [2, 6, 15, 8, 15, 30]⟩ := by
    cases buf2 with
    | mk cap cells =>
      simp only at h4 h5
      rw [h4, h5]
      decide
  subst hb2
  exact ⟨_, m2, hload, rfl, h2, h3, h6, h7 7⟩

/-- Copy construction from a model that `load` left without data arrays (claim C7): the
file `v 0 0 0`, `vn 0 0 1` loads with `DRAWING_AS_ARRAYS` into a model with one vertex, one
normal and both arrays null, and the `memcpy` from the null vertex array has no defined
behaviour. -/
theorem copy_of_model_with_null_arrays_undefined :
    ∃ source, load intLib (construct DrawingMethod.DRAWING_AS_ARRAYS)
        (some ["v 0 0 0".toList, "vn 0 0 1".toList]) = Outcome.ok source ∧
      getNumVertices source = 1 ∧ getNumNormals source = 1 ∧
      source.vertexData = none ∧ source.normalData = none ∧
      copyConstruct source = Outcome.undefined :=
  ⟨modelOfItems DrawingMethod.DRAWING_AS_ARRAYS
      [(Item.vertex ⟨0, 0, 0⟩ : Item Int), Item.normal ⟨0, 0, 1⟩],
    by decide, by decide, by decide, by decide, by decide, by decide⟩

end ObjModel

/-! # Theorems about the camera -/

namespace CameraModel

open ObjModel (Vec3)

/-! ## Comparisons -/

theorem lt_num_num (a b : ℚ) : (FloatVal.num a).lt (FloatVal.num b) = decide (a < b) := rfl

theorem le_num_num (a b : ℚ) : (FloatVal.num a).le (FloatVal.num b) = decide (a ≤ b) := rfl

theorem lt_nan_left (v : FloatVal) : FloatVal.nan.lt v = false := by cases v <;> rfl

theorem lt_nan_right (v : FloatVal) : v.lt FloatVal.nan = false := by cases v <;> rfl

theorem le_nan_left (v : FloatVal) : FloatVal.nan.le v = false := by cases v <;> rfl

theorem le_nan_right (v : FloatVal) : v.le FloatVal.nan = false := by cases v <;> rfl

/-- For operands other than NaN, `b <= a` holds exactly when `a < b` fails. -/
theorem le_of_not_lt {a b : FloatVal} (ha : a ≠ FloatVal.nan) (hb : b ≠ FloatVal.nan)
    (h : a.lt b = false) : b.le a = true := by
  cases a <;> cases b <;> simp_all [FloatVal.lt, FloatVal.le]

/-! ## Pitch -/

theorem handleMouseMove_rotation_x (E : FloatEnv) (c : Camera) (mouseX mouseY : FloatVal) :
    (handleMouseMove E c mouseX mouseY).rotation.x
      = clamp (E.single.add c.rotation.x (vertMovement E c mouseY)) (FloatVal.num (-90))
          (FloatVal.num 90) := by
  have h90 : (FloatVal.num 90).lt (FloatVal.num (-90)) = false := by
    rw [lt_num_num]; norm_num
  unfold handleMouseMove clamp vertMovement FloatVal.gt
  simp only
  split_ifs <;> simp_all

theorem clamp_pitch_range (v : FloatVal) (hv : v ≠ FloatVal.nan) :
    (FloatVal.num (-90)).le (clamp v (FloatVal.num (-90)) (FloatVal.num 90)) = true ∧
    (clamp v (FloatVal.num (-90)) (FloatVal.num 90)).le (FloatVal.num 90) = true := by
  unfold clamp
  by_cases h1 : v.lt (FloatVal.num (-90)) = true
  · rw [if_pos h1]
    constructor <;> (rw [le_num_num]; norm_num)
  · rw [if_neg h1]
    simp only [Bool.not_eq_true] at h1
    by_cases h2 : (FloatVal.num 90).lt v = true
    · rw [if_pos h2]
      constructor <;> (rw [le_num_num]; norm_num)
    · rw [if_neg h2]
      simp only [Bool.not_eq_true] at h2
      exact ⟨le_of_not_lt hv (by simp) h1, le_of_not_lt (by simp) hv h2⟩

theorem clamp_nan (lo hi : FloatVal) : clamp FloatVal.nan lo hi = FloatVal.nan := by
  unfold clamp
  rw [lt_nan_left, lt_nan_right]
  rfl

theorem ofRat_ne_nan (fmt : FloatFormat) (q : ℚ) : fmt.ofRat q ≠ FloatVal.nan := by
  unfold FloatFormat.ofRat
  split_ifs <;> simp

/-- The sum of a finite number and a value other than NaN is not NaN. -/
theorem add_num_ne_nan (fmt : FloatFormat) (q : ℚ) (v : FloatVal) (hv : v ≠ FloatVal.nan) :
    fmt.add (FloatVal.num q) v ≠ FloatVal.nan := by
  cases v with
  | nan => exact absurd rfl hv
  | negInf => simp [FloatFormat.add]
  | posInf => simp [FloatFormat.add]
  | num b => exact ofRat_ne_nan fmt _

/-- Claim C15, amended.  After every call of `Camera::handleMouseMove`, for every prior
rotation, mouse position and sensitivity: `rotation.x` equals
`clamp(old rotation.x + (mouseY - windowMidY) * pitchSensitivity, -90, 90)`; it is NaN
exactly when that sum is NaN; and whenever the sum is not NaN, as it is for every finite
prior `rotation.x` and every mouse movement `(mouseY - windowMidY) * pitchSensitivity` other
than NaN, `-90 <= rotation.x <= 90`. -/
theorem pitch_clamped_unless_nan (E : FloatEnv) (c : Camera) (mouseX mouseY : FloatVal) :
    (handleMouseMove E c mouseX mouseY).rotation.x
      = clamp (E.single.add c.rotation.x (vertMovement E c mouseY)) (FloatVal.num (-90))
          (FloatVal.num 90) ∧
    ((handleMouseMove E c mouseX mouseY).rotation.x = FloatVal.nan ↔
      E.single.add c.rotation.x (vertMovement E c mouseY) = FloatVal.nan) ∧
    (E.single.add c.rotation.x (vertMovement E c mouseY) ≠ FloatVal.nan →
      (FloatVal.num (-90)).le (handleMouseMove E c mouseX mouseY).rotation.x = true ∧
      (handleMouseMove E c mouseX mouseY).rotation.x.le (FloatVal.num 90) = true) ∧
    ((∃ q, c.rotation.x = FloatVal.num q) → vertMovement E c mouseY ≠ FloatVal.nan →
      E.single.add c.rotation.x (vertMovement E c mouseY) ≠ FloatVal.nan) := by
  have hx := handleMouseMove_rotation_x E c mouseX mouseY
  refine ⟨hx, ?_, ?_, ?_⟩
  · rw [hx]
    constructor
    · intro h
      by_contra hne
      have := (clamp_pitch_range _ hne).1
      rw [h, le_nan_right] at this
      exact Bool.false_ne_true this
    · intro h
      rw [h, clamp_nan]
  · intro hne
    rw [hx]
    exact clamp_pitch_range _ hne
  · rintro ⟨q, hq⟩ hv
    rw [hq]
    exact add_num_ne_nan E.single q _ hv

/-! ## Running the camera without rounding -/

theorem add_nan_left (fmt : FloatFormat) (v : FloatVal) : fmt.add FloatVal.nan v = FloatVal.nan := by
  cases v <;> rfl

theorem add_nan_right (fmt : FloatFormat) (v : FloatVal) :
    fmt.add v FloatVal.nan = FloatVal.nan := by
  cases v <;> rfl

theorem exact_single_ofRat (q : ℚ) (h1 : -FLT_MAX ≤ q) (h2 : q ≤ FLT_MAX) :
    exactEnv.single.ofRat q = FloatVal.num q := by
  unfold FloatFormat.ofRat
  simp only [exactEnv]
  rw [if_neg (not_lt.2 h2), if_neg (not_lt.2 h1)]

theorem exact_double_ofRat (q : ℚ) (h1 : -DBL_MAX ≤ q) (h2 : q ≤ DBL_MAX) :
    exactEnv.double.ofRat q = FloatVal.num q := by
  unfold FloatFormat.ofRat
  simp only [exactEnv]
  rw [if_neg (not_lt.2 h2), if_neg (not_lt.2 h1)]

theorem exact_single_add (a b r : ℚ) (h : a + b = r) (h1 : -1000000 ≤ r) (h2 : r ≤ 1000000) :
    exactEnv.single.add (FloatVal.num a) (FloatVal.num b) = FloatVal.num r := by
  subst h
  exact exact_single_ofRat _ (le_trans (by norm_num [FLT_MAX]) h1)
    (le_trans h2 (by norm_num [FLT_MAX]))

theorem exact_single_sub (a b r : ℚ) (h : a - b = r) (h1 : -1000000 ≤ r) (h2 : r ≤ 1000000) :
    exactEnv.single.sub (FloatVal.num a) (FloatVal.num b) = FloatVal.num r :=
  exact_single_add a (-b) r (by rw [← h]; ring) h1 h2

theorem exact_single_mul (a b r : ℚ) (h : a * b = r) (h1 : -1000000 ≤ r) (h2 : r ≤ 1000000) :
    exactEnv.single.mul (FloatVal.num a) (FloatVal.num b) = FloatVal.num r := by
  subst h
  exact exact_single_ofRat _ (le_trans (by norm_num [FLT_MAX]) h1)
    (le_trans h2 (by norm_num [FLT_MAX]))

theorem exact_single_convert (r : ℚ) (h1 : -1000000 ≤ r) (h2 : r ≤ 1000000) :
    exactEnv.single.convert (FloatVal.num r) = FloatVal.num r :=
  exact_single_ofRat _ (le_trans (by norm_num [FLT_MAX]) h1)
    (le_trans h2 (by norm_num [FLT_MAX]))

theorem exact_double_sub (a b r : ℚ) (h : a - b = r) (h1 : -1000000 ≤ r) (h2 : r ≤ 1000000) :
    exactEnv.double.sub (FloatVal.num a) (FloatVal.num b) = FloatVal.num r := by
  subst h
  have : a - b = a + -b := by ring
  rw [this] at h1 h2 ⊢
  exact exact_double_ofRat _ (le_trans (by norm_num [DBL_MAX]) h1)
    (le_trans h2 (by norm_num [DBL_MAX]))

theorem exact_double_mul (a b r : ℚ) (h : a * b = r) (h1 : -1000000 ≤ r) (h2 : r ≤ 1000000) :
    exactEnv.double.mul (FloatVal.num a) (FloatVal.num b) = FloatVal.num r := by
  subst h
  exact exact_double_ofRat _ (le_trans (by norm_num [DBL_MAX]) h1)
    (le_trans h2 (by norm_num [DBL_MAX]))

/-- Claim C15, counterexample.  In a window of 800 by 600 pixels with the mouse in the middle
of the window: a camera whose prior `rotation.x` is NaN has `rotation.x` NaN after
`handleMouseMove`, and so has a camera at rest whose pitch sensitivity is positive infinity
(the movement is `0 * inf`); NaN is not between -90 and 90, since `-90 <= NaN` is false.
The run does not depend on the rounding of the formats. -/
theorem pitch_not_clamped_when_nan :
    (handleMouseMove exactEnv
        { restCamera with rotation := ⟨FloatVal.nan, FloatVal.num 0, FloatVal.num 0⟩ }
        (FloatVal.num 400) (FloatVal.num 300)).rotation.x = FloatVal.nan ∧
    (handleMouseMove exactEnv { restCamera with pitchSensitivity := FloatVal.posInf }
        (FloatVal.num 400) (FloatVal.num 300)).rotation.x = FloatVal.nan ∧
    (FloatVal.num (-90)).le FloatVal.nan = false ∧
    FloatVal.nan.le (FloatVal.num 90) = false := by
  refine ⟨?_, ?_, rfl, rfl⟩
  · rw [handleMouseMove_rotation_x]
    show clamp (exactEnv.single.add FloatVal.nan _) _ _ = _
    rw [add_nan_left, clamp_nan]
  · rw [handleMouseMove_rotation_x]
    have hv : vertMovement exactEnv { restCamera with pitchSensitivity := FloatVal.posInf }
        (FloatVal.num 300) = FloatVal.nan := by
      show exactEnv.single.convert (exactEnv.double.mul
        (exactEnv.double.sub (FloatVal.num 300) (FloatVal.num ((300 : Int) : ℚ)))
        FloatVal.posInf) = FloatVal.nan
      rw [exact_double_sub _ _ 0 (by norm_num) (by norm_num) (by norm_num)]
      rfl
    rw [hv, add_nan_right, clamp_nan]

/-- Witness of `pitch_clamped_unless_nan`: the camera at rest, the mouse 700 pixels below
the middle of the window; the sum is 175 and the pitch becomes 90. -/
theorem pitch_clamped_unless_nan_witness :
    (handleMouseMove exactEnv restCamera (FloatVal.num 400) (FloatVal.num 1000)).rotation.x
      = FloatVal.num 90 ∧
    (FloatVal.num (-90)).le
      (handleMouseMove exactEnv restCamera (FloatVal.num 400) (FloatVal.num 1000)).rotation.x
      = true ∧
    (handleMouseMove exactEnv restCamera (FloatVal.num 400) (FloatVal.num 1000)).rotation.x.le
      (FloatVal.num 90) = true := by
  have hv : vertMovement exactEnv restCamera (FloatVal.num 1000) = FloatVal.num 175 := by
    show exactEnv.single.convert (exactEnv.double.mul
      (exactEnv.double.sub (FloatVal.num 1000) (FloatVal.num ((300 : Int) : ℚ)))
      (FloatVal.num (1 / 4))) = FloatVal.num 175
    rw [exact_double_sub _ _ 700 (by norm_num) (by norm_num) (by norm_num),
      exact_double_mul _ _ 175 (by norm_num) (by norm_num) (by norm_num),
      exact_single_convert _ (by norm_num) (by norm_num)]
  have hsum : exactEnv.single.add restCamera.rotation.x
      (vertMovement exactEnv restCamera (FloatVal.num 1000)) = FloatVal.num 175 := by
    rw [hv]
    exact exact_single_add 0 175 175 (by norm_num) (by norm_num) (by norm_num)
  obtain ⟨h1, -, h3, -⟩ :=
    pitch_clamped_unless_nan exactEnv restCamera (FloatVal.num 400) (FloatVal.num 1000)
  rw [hsum] at h1 h3
  refine ⟨?_, h3 (by simp)⟩
  rw [h1]
  unfold clamp
  rw [lt_num_num, lt_num_num]
  norm_num

/-! ## Yaw -/

theorem handleMouseMove_rotation_y (E : FloatEnv) (c : Camera) (mouseX mouseY : FloatVal) :
    (handleMouseMove E c mouseX mouseY).rotation.y
      = wrapYaw E (E.single.add c.rotation.y (horizMovement E c mouseX)) := by
  unfold handleMouseMove wrapYaw horizMovement
  simp only
  split_ifs <;> simp_all

/-- Claim C16, the code at the failing input.  A camera with `rotation.y` 0 and the yaw
sensitivity `0.25f`, in a window whose middle is at `x = 400`, receives the mouse position
`x = 4400`: the horizontal movement is `4000 * 0.25 = 1000`, `rotation.y` becomes 1000, one
turn is taken off, and `handleMouseMove` leaves `rotation.y` at 640, above 360.  Every value
of the run is an integer that `float` and `double` hold exactly. -/
theorem yaw_above_360_after_large_movement :
    (FloatVal.num 0).le restCamera.rotation.y = true ∧
    restCamera.rotation.y.le (FloatVal.num 360) = true ∧
    horizMovement exactEnv restCamera (FloatVal.num 4400) = FloatVal.num 1000 ∧
    (handleMouseMove exactEnv restCamera (FloatVal.num 4400) (FloatVal.num 300)).rotation.y
      = FloatVal.num 640 ∧
    (FloatVal.num 640).le (FloatVal.num 360) = false := by
  have hh : horizMovement exactEnv restCamera (FloatVal.num 4400) = FloatVal.num 1000 := by
    show exactEnv.single.convert (exactEnv.double.mul
      (exactEnv.double.sub (FloatVal.num 4400) (FloatVal.num ((400 : Int) : ℚ)))
      (FloatVal.num (1 / 4))) = FloatVal.num 1000
    rw [exact_double_sub _ _ 4000 (by norm_num) (by norm_num) (by norm_num),
      exact_double_mul _ _ 1000 (by norm_num) (by norm_num) (by norm_num),
      exact_single_convert _ (by norm_num) (by norm_num)]
  refine ⟨?_, ?_, hh, ?_, ?_⟩
  · show (FloatVal.num 0).le (FloatVal.num 0) = true
    rw [le_num_num]; norm_num
  · show (FloatVal.num 0).le (FloatVal.num 360) = true
    rw [le_num_num]; norm_num
  · rw [handleMouseMove_rotation_y, hh]
    show wrapYaw exactEnv (exactEnv.single.add (FloatVal.num 0) (FloatVal.num 1000)) = _
    rw [exact_single_add 0 1000 1000 (by norm_num) (by norm_num) (by norm_num)]
    unfold wrapYaw FloatVal.gt
    have h1 : (FloatVal.num 1000).lt (FloatVal.num 0) = false := by
      rw [lt_num_num]; norm_num
    have h2 : (FloatVal.num 360).lt (FloatVal.num 1000) = true := by
      rw [lt_num_num]; norm_num
    simp only [h1, h2, Bool.false_eq_true, if_false, if_true]
    exact exact_single_sub 1000 360 640 (by norm_num) (by norm_num) (by norm_num)
  · rw [le_num_num]; norm_num

/-- A number between two integers of at most 24 bits rounds to a number between them, which
is a finite number of the format. -/
theorem ofRat_between (fmt : FloatFormat) (hv : fmt.Valid) (q : ℚ) (lo hi : Int)
    (hlo : |lo| ≤ 2 ^ 24) (hhi : |hi| ≤ 2 ^ 24) (h1 : (lo : ℚ) ≤ q) (h2 : q ≤ (hi : ℚ)) :
    fmt.ofRat q = FloatVal.num (fmt.round q) ∧ (lo : ℚ) ≤ fmt.round q ∧
      fmt.round q ≤ (hi : ℚ) := by
  have r1 : (lo : ℚ) ≤ fmt.round q := by
    have := hv.mono _ _ h1
    rwa [hv.exactInt lo hlo] at this
  have r2 : fmt.round q ≤ (hi : ℚ) := by
    have := hv.mono _ _ h2
    rwa [hv.exactInt hi hhi] at this
  have b1 : (hi : ℚ) ≤ 2 ^ 24 := by
    have : hi ≤ 2 ^ 24 := le_trans (le_abs_self hi) hhi
    exact_mod_cast this
  have b2 : -(2 ^ 24 : ℚ) ≤ (lo : ℚ) := by
    have : -(2 ^ 24 : Int) ≤ lo := by
      have := neg_abs_le lo
      linarith
    exact_mod_cast this
  have hl := hv.large
  refine ⟨?_, r1, r2⟩
  unfold FloatFormat.ofRat
  rw [if_neg (by linarith), if_neg (by linarith)]

/-- Where the yaw stays in range.  For formats with round to nearest, every prior
`rotation.y` with `0 <= rotation.y <= 360` and every horizontal mouse movement
`(mouseX - windowMidX) * yawSensitivity` of at most one turn, `-360 <= movement <= 360`:
after `handleMouseMove`, `0 <= rotation.y <= 360`. -/
theorem yaw_in_range_within_one_turn (E : FloatEnv) (hv : E.single.Valid) (c : Camera)
    (mouseX mouseY : FloatVal) (y h : ℚ) (hy : c.rotation.y = FloatVal.num y)
    (hy0 : 0 ≤ y) (hy1 : y ≤ 360) (hh : horizMovement E c mouseX = FloatVal.num h)
    (hh0 : -360 ≤ h) (hh1 : h ≤ 360) :
    ∃ r, (handleMouseMove E c mouseX mouseY).rotation.y = FloatVal.num r ∧ 0 ≤ r ∧ r ≤ 360 := by
  rw [handleMouseMove_rotation_y, hy, hh]
  obtain ⟨e1, a1, a2⟩ := ofRat_between E.single hv (y + h) (-360) 720 (by norm_num)
    (by norm_num) (by push_cast; linarith) (by push_cast; linarith)
  push_cast at a1 a2
  have hsum : E.single.add (FloatVal.num y) (FloatVal.num h)
      = FloatVal.num (E.single.round (y + h)) := e1
  rw [hsum]
  unfold wrapYaw FloatVal.gt
  by_cases hneg : E.single.round (y + h) < 0
  · have l1 : (FloatVal.num (E.single.round (y + h))).lt (FloatVal.num 0) = true := by
      rw [lt_num_num]; exact decide_eq_true hneg
    obtain ⟨e2, b1, b2⟩ := ofRat_between E.single hv (E.single.round (y + h) + 360) 0 360
      (by norm_num) (by norm_num) (by push_cast; linarith) (by push_cast; linarith)
    push_cast at b1 b2
    have hadd : E.single.add (FloatVal.num (E.single.round (y + h))) (FloatVal.num 360)
        = FloatVal.num (E.single.round (E.single.round (y + h) + 360)) := e2
    have l2 : (FloatVal.num 360).lt
        (FloatVal.num (E.single.round (E.single.round (y + h) + 360))) = false := by
      rw [lt_num_num]; exact decide_eq_false (not_lt.2 b2)
    simp only [l1, if_true, hadd, l2, Bool.false_eq_true, if_false]
    exact ⟨_, rfl, b1, b2⟩
  · have l1 : (FloatVal.num (E.single.round (y + h))).lt (FloatVal.num 0) = false := by
      rw [lt_num_num]; exact decide_eq_false hneg
    simp only [l1, Bool.false_eq_true, if_false]
    by_cases hbig : 360 < E.single.round (y + h)
    · have l2 : (FloatVal.num 360).lt (FloatVal.num (E.single.round (y + h))) = true := by
        rw [lt_num_num]; exact decide_eq_true hbig
      obtain ⟨e2, b1, b2⟩ := ofRat_between E.single hv (E.single.round (y + h) + -360) 0 360
        (by norm_num) (by norm_num) (by push_cast; linarith) (by push_cast; linarith)
      push_cast at b1 b2
      have hsub : E.single.sub (FloatVal.num (E.single.round (y + h))) (FloatVal.num 360)
          = FloatVal.num (E.single.round (E.single.round (y + h) + -360)) := e2
      simp only [l2, if_true, hsub]
      exact ⟨_, rfl, b1, b2⟩
    · have l2 : (FloatVal.num 360).lt (FloatVal.num (E.single.round (y + h))) = false := by
        rw [lt_num_num]; exact decide_eq_false hbig
      simp only [l2, Bool.false_eq_true, if_false]
      exact ⟨_, rfl, not_lt.1 hneg, not_lt.1 hbig⟩

/-- The formats without rounding have the properties of round to nearest. -/
theorem exactEnv_valid : exactEnv.single.Valid ∧ exactEnv.double.Valid := by
  constructor
  · exact ⟨fun _ _ h => h, fun _ => rfl, fun _ => rfl, fun _ _ => rfl, by norm_num [exactEnv, FLT_MAX]⟩
  · exact ⟨fun _ _ h => h, fun _ => rfl, fun _ => rfl, fun _ _ => rfl, by norm_num [exactEnv, DBL_MAX]⟩

/-! ## `Camera::move` -/

theorem vsub_eq (fmt : FloatFormat) (a b : Vec3 FloatVal) :
    vsub fmt a b = vadd fmt a (vneg b) := rfl

/-- The method `move` adds the direction of the move times the factor to the position and
leaves every other member as it is. -/
theorem move_eq (E : FloatEnv) (c : Camera) (deltaTime : FloatVal) :
    move E c deltaTime
      = { c with
          position := vadd E.single c.position
            (vscale E.single (moveDirection E c) (moveFactor E c deltaTime)) } := by
  unfold move moveDirection moveFactor movementSum heldDirections forwardDirection
    rightDirection upDirection zeroVec
  simp only [vsub_eq]
  cases c.holdingForward <;> cases c.holdingBackward <;> cases c.holdingLeftStrafe <;>
    cases c.holdingRightStrafe <;> cases c.holdingAscend <;> cases c.holdingDescend <;> rfl

/-! ### Values of a format -/

theorem ofRat_holds (fmt : FloatFormat) (hv : fmt.Valid) (q : ℚ) : fmt.Holds (fmt.ofRat q) := by
  unfold FloatFormat.ofRat
  split_ifs with h1 h2
  · trivial
  · trivial
  · exact ⟨hv.idem q, not_lt.1 h2, not_lt.1 h1⟩

theorem ofInt_holds (fmt : FloatFormat) (hv : fmt.Valid) (n : Int) (hn : |n| ≤ 2 ^ 24) :
    fmt.Holds (FloatVal.num n) := by
  have b1 : (n : ℚ) ≤ 2 ^ 24 := by
    have : n ≤ 2 ^ 24 := le_trans (le_abs_self n) hn
    exact_mod_cast this
  have b2 : -(2 ^ 24 : ℚ) ≤ (n : ℚ) := by
    have : -(2 ^ 24 : Int) ≤ n := by
      have := neg_abs_le n
      linarith
    exact_mod_cast this
  have hl := hv.large
  exact ⟨hv.exactInt n hn, by linarith, by linarith⟩

theorem zero_holds (fmt : FloatFormat) (hv : fmt.Valid) : fmt.Holds (FloatVal.num 0) := by
  have := ofInt_holds fmt hv 0 (by norm_num)
  simpa using this

theorem one_holds (fmt : FloatFormat) (hv : fmt.Valid) : fmt.Holds (FloatVal.num 1) := by
  have := ofInt_holds fmt hv 1 (by norm_num)
  simpa using this

theorem neg_holds (fmt : FloatFormat) (hv : fmt.Valid) (v : FloatVal) (h : fmt.Holds v) :
    fmt.Holds v.neg := by
  cases v with
  | nan => trivial
  | negInf => trivial
  | posInf => trivial
  | num q =>
    obtain ⟨h1, h2, h3⟩ := h
    exact ⟨by rw [hv.odd, h1], by linarith, by linarith⟩

theorem infinityTimes_holds (fmt : FloatFormat) (p : Bool) (q : ℚ) :
    fmt.Holds (infinityTimes p q) := by
  unfold infinityTimes
  split_ifs <;> trivial

theorem mul_holds (fmt : FloatFormat) (hv : fmt.Valid) (a b : FloatVal) :
    fmt.Holds (fmt.mul a b) := by
  cases a <;> cases b <;>
    first
    | trivial
    | exact infinityTimes_holds fmt _ _
    | exact ofRat_holds fmt hv _

theorem sin_holds (E : FloatEnv) (hv : E.single.Valid) (v : FloatVal) :
    E.single.Holds (E.sin v) := by
  cases v <;> first | trivial | exact ofRat_holds E.single hv _

theorem cos_holds (E : FloatEnv) (hv : E.single.Valid) (v : FloatVal) :
    E.single.Holds (E.cos v) := by
  cases v <;> first | trivial | exact ofRat_holds E.single hv _

/-- The sum of a value of the format and zero is that value. -/
theorem add_zero_of_holds (fmt : FloatFormat) (v : FloatVal) (h : fmt.Holds v) :
    fmt.add v (FloatVal.num 0) = v := by
  cases v with
  | nan => rfl
  | negInf => rfl
  | posInf => rfl
  | num q =>
    obtain ⟨h1, h2, h3⟩ := h
    show fmt.ofRat (q + 0) = FloatVal.num q
    unfold FloatFormat.ofRat
    rw [add_zero, h1, if_neg (not_lt.2 h3), if_neg (not_lt.2 h2)]

/-- The sum of zero and a value of the format is that value. -/
theorem zero_add_of_holds (fmt : FloatFormat) (v : FloatVal) (h : fmt.Holds v) :
    fmt.add (FloatVal.num 0) v = v := by
  cases v with
  | nan => rfl
  | negInf => rfl
  | posInf => rfl
  | num q =>
    obtain ⟨h1, h2, h3⟩ := h
    show fmt.ofRat (0 + q) = FloatVal.num q
    unfold FloatFormat.ofRat
    rw [zero_add, h1, if_neg (not_lt.2 h3), if_neg (not_lt.2 h2)]

theorem ofRat_zero (fmt : FloatFormat) (hv : fmt.Valid) : fmt.ofRat 0 = FloatVal.num 0 := by
  obtain ⟨h1, h2, h3⟩ := zero_holds fmt hv
  unfold FloatFormat.ofRat
  rw [h1, if_neg (not_lt.2 h3), if_neg (not_lt.2 h2)]

/-! ### Opposite keys -/

/-- A value of the format added to and then subtracted from a component that is zero or NaN
leaves zero or NaN. -/
theorem add_then_sub (fmt : FloatFormat) (hv : fmt.Valid) (z a : FloatVal) (hz : ZeroOrNaN z)
    (ha : fmt.Holds a) : ZeroOrNaN (fmt.add (fmt.add z a) a.neg) := by
  rcases hz with rfl | rfl
  · rw [zero_add_of_holds fmt a ha]
    cases a with
    | nan => right; rfl
    | negInf => right; rfl
    | posInf => right; rfl
    | num q =>
      left
      show fmt.ofRat (q + -q) = FloatVal.num 0
      rw [add_neg_cancel, ofRat_zero fmt hv]
  · right
    rw [add_nan_left, add_nan_left]

/-- A value of the format subtracted from and then added to a component that is zero or NaN
leaves zero or NaN. -/
theorem sub_then_add (fmt : FloatFormat) (hv : fmt.Valid) (z a : FloatVal) (hz : ZeroOrNaN z)
    (ha : fmt.Holds a) : ZeroOrNaN (fmt.add (fmt.add z a.neg) a) := by
  rcases hz with rfl | rfl
  · rw [zero_add_of_holds fmt a.neg (neg_holds fmt hv a ha)]
    cases a with
    | nan => right; rfl
    | negInf => right; rfl
    | posInf => right; rfl
    | num q =>
      left
      show fmt.ofRat (-q + q) = FloatVal.num 0
      rw [neg_add_cancel, ofRat_zero fmt hv]
  · right
    rw [add_nan_left, add_nan_left]

theorem zeroVec_zeroOrNaN : ZeroOrNaNVec zeroVec := ⟨Or.inl rfl, Or.inl rfl, Or.inl rfl⟩

theorem vadd_then_vsub (fmt : FloatFormat) (hv : fmt.Valid) (z a : Vec3 FloatVal)
    (hz : ZeroOrNaNVec z) (ha : fmt.HoldsVec a) :
    ZeroOrNaNVec (vadd fmt (vadd fmt z a) (vneg a)) :=
  ⟨add_then_sub fmt hv _ _ hz.1 ha.1, add_then_sub fmt hv _ _ hz.2.1 ha.2.1,
    add_then_sub fmt hv _ _ hz.2.2 ha.2.2⟩

theorem vsub_then_vadd (fmt : FloatFormat) (hv : fmt.Valid) (z a : Vec3 FloatVal)
    (hz : ZeroOrNaNVec z) (ha : fmt.HoldsVec a) :
    ZeroOrNaNVec (vadd fmt (vadd fmt z (vneg a)) a) :=
  ⟨sub_then_add fmt hv _ _ hz.1 ha.1, sub_then_add fmt hv _ _ hz.2.1 ha.2.1,
    sub_then_add fmt hv _ _ hz.2.2 ha.2.2⟩

theorem forwardDirection_holds (E : FloatEnv) (hv : E.single.Valid) (c : Camera) :
    E.single.HoldsVec (forwardDirection E c) :=
  ⟨mul_holds E.single hv _ _, neg_holds E.single hv _ (sin_holds E hv _),
    mul_holds E.single hv _ _⟩

theorem rightDirection_holds (E : FloatEnv) (hv : E.single.Valid) (c : Camera) :
    E.single.HoldsVec (rightDirection E c) :=
  ⟨cos_holds E hv _, zero_holds E.single hv, sin_holds E hv _⟩

theorem upDirection_holds (E : FloatEnv) (hv : E.single.Valid) :
    E.single.HoldsVec upDirection :=
  ⟨zero_holds E.single hv, one_holds E.single hv, zero_holds E.single hv⟩

theorem foldl_add_then_sub (fmt : FloatFormat) (hv : fmt.Valid) (held : Bool)
    (z a : Vec3 FloatVal) (hz : ZeroOrNaNVec z) (ha : fmt.HoldsVec a) :
    ZeroOrNaNVec (List.foldl (vadd fmt)
      (List.foldl (vadd fmt) z (if held = true then [a] else []))
      (if held = true then [vneg a] else [])) := by
  cases held
  · exact hz
  · exact vadd_then_vsub fmt hv z a hz ha

theorem foldl_sub_then_add (fmt : FloatFormat) (hv : fmt.Valid) (held : Bool)
    (z a : Vec3 FloatVal) (hz : ZeroOrNaNVec z) (ha : fmt.HoldsVec a) :
    ZeroOrNaNVec (List.foldl (vadd fmt)
      (List.foldl (vadd fmt) z (if held = true then [vneg a] else []))
      (if held = true then [a] else [])) := by
  cases held
  · exact hz
  · exact vsub_then_vadd fmt hv z a hz ha

/-- With only opposite keys held together, every component of the sum of the directions is
zero or NaN. -/
theorem movementSum_of_opposite_keys (E : FloatEnv) (hv : E.single.Valid) (c : Camera)
    (h : onlyOppositeKeysHeld c = true) : ZeroOrNaNVec (movementSum E c) := by
  unfold onlyOppositeKeysHeld at h
  simp only [Bool.and_eq_true, beq_iff_eq] at h
  obtain ⟨⟨h1, h2⟩, h3⟩ := h
  unfold movementSum heldDirections
  rw [h1, h2, h3]
  simp only [List.foldl_append]
  exact foldl_add_then_sub E.single hv _ _ _
    (foldl_sub_then_add E.single hv _ _ _
      (foldl_add_then_sub E.single hv _ _ _ zeroVec_zeroOrNaN (forwardDirection_holds E hv c))
      (rightDirection_holds E hv c))
    (upDirection_holds E hv)

/-- The length of a vector whose components are zero or NaN is not above zero. -/
theorem length_not_positive (E : FloatEnv) (hv : E.single.Valid) (v : Vec3 FloatVal)
    (h : ZeroOrNaNVec v) : (length E v).gt (FloatVal.num 0) = false := by
  have hsq : ∀ a, ZeroOrNaN a → ZeroOrNaN (E.single.mul a a) := by
    intro a ha
    rcases ha with rfl | rfl
    · left
      show E.single.ofRat (0 * 0) = FloatVal.num 0
      rw [mul_zero, ofRat_zero E.single hv]
    · right; rfl
  have hadd : ∀ a b, ZeroOrNaN a → ZeroOrNaN b → ZeroOrNaN (E.single.add a b) := by
    intro a b ha hb
    rcases ha with rfl | rfl
    · rcases hb with rfl | rfl
      · left
        show E.single.ofRat (0 + 0) = FloatVal.num 0
        rw [add_zero, ofRat_zero E.single hv]
      · right; rfl
    · right; exact add_nan_left _ _
  have hdot : ZeroOrNaN (dot E.single v v) :=
    hadd _ _ (hadd _ _ (hsq _ h.1) (hsq _ h.2.1)) (hsq _ h.2.2)
  unfold length FloatVal.gt
  rcases hdot with e | e
  · rw [e]
    show (FloatVal.num 0).lt (if (0 : ℚ) < 0 then FloatVal.nan
      else if (0 : ℚ) = 0 then FloatVal.num 0 else E.single.ofRat (E.sqrtQ 0)) = false
    rw [if_neg (lt_irrefl 0), if_pos rfl, lt_num_num]
    exact decide_eq_false (lt_irrefl 0)
  · rw [e]
    rfl

/-- With only opposite keys held together the direction of the move is the zero vector. -/
theorem moveDirection_of_opposite_keys (E : FloatEnv) (hv : E.single.Valid) (c : Camera)
    (h : onlyOppositeKeysHeld c = true) : moveDirection E c = zeroVec := by
  unfold moveDirection
  rw [length_not_positive E hv _ (movementSum_of_opposite_keys E hv c h)]
  rfl

/-- A position of `float`s stays as it is when the zero vector times a finite factor is
added to it. -/
theorem position_plus_zero (E : FloatEnv) (hv : E.single.Valid) (p : Vec3 FloatVal)
    (hp : E.single.HoldsVec p) (f : ℚ) :
    vadd E.single p (vscale E.single zeroVec (FloatVal.num f)) = p := by
  have hz : E.single.mul (FloatVal.num 0) (FloatVal.num f) = FloatVal.num 0 := by
    show E.single.ofRat (0 * f) = FloatVal.num 0
    rw [zero_mul, ofRat_zero E.single hv]
  unfold vadd vscale zeroVec
  simp only [hz]
  rw [add_zero_of_holds _ _ hp.1, add_zero_of_holds _ _ hp.2.1, add_zero_of_holds _ _ hp.2.2]
/-- Claim C17, counterexample.  The camera at rest at the origin, no key held, and
`deltaTime` positive infinity: the direction of the move is the zero vector, the factor
`200 * inf` is infinite, `0 * inf` is NaN, and `move` leaves the position at
`(NaN, NaN, NaN)` instead of `(0, 0, 0)`.  The run does not depend on the rounding of the
formats. -/
theorem move_without_keys_changes_position :
    restCamera.holdingForward = false ∧ restCamera.holdingBackward = false ∧
    restCamera.holdingLeftStrafe = false ∧ restCamera.holdingRightStrafe = false ∧
    restCamera.holdingAscend = false ∧ restCamera.holdingDescend = false ∧
    restCamera.position = ⟨FloatVal.num 0, FloatVal.num 0, FloatVal.num 0⟩ ∧
    (move exactEnv restCamera FloatVal.posInf).position
      = ⟨FloatVal.nan, FloatVal.nan, FloatVal.nan⟩ ∧
    (move exactEnv restCamera FloatVal.posInf).position ≠ restCamera.position := by
  have hd : moveDirection exactEnv restCamera = zeroVec :=
    moveDirection_of_opposite_keys exactEnv exactEnv_valid.1 restCamera rfl
  have hf : moveFactor exactEnv restCamera FloatVal.posInf = FloatVal.posInf := by
    show exactEnv.single.convert (infinityTimes true 200) = FloatVal.posInf
    unfold infinityTimes
    rw [if_neg (by norm_num), if_pos (by simp)]
    rfl
  have hz : exactEnv.single.mul (FloatVal.num 0) FloatVal.posInf = FloatVal.nan := by
    show infinityTimes true 0 = FloatVal.nan
    unfold infinityTimes
    rw [if_pos rfl]
  have hp : (move exactEnv restCamera FloatVal.posInf).position
      = ⟨FloatVal.nan, FloatVal.nan, FloatVal.nan⟩ := by
    rw [move_eq, hd, hf]
    show vadd exactEnv.single zeroVec (vscale exactEnv.single zeroVec FloatVal.posInf) = _
    unfold vscale zeroVec vadd
    simp only [hz, add_nan_right]
  refine ⟨rfl, rfl, rfl, rfl, rfl, rfl, rfl, hp, ?_⟩
  rw [hp]
  simp [restCamera, zeroVec]

/-- Claim C17, amended.  For formats with round to nearest, every state and every
`deltaTime`: `move(deltaTime)` leaves every member but the position as it is (the rotation
and the key flags among them) and adds to the position exactly `d * f`, where `f` is
`movementSpeedFactor * deltaTime` as a `float` and `d` is `normalize(m)` when
`length(m) > 0` and the zero vector otherwise, `m` being the sum of the directions of the
held keys.  With no key held, or with only opposite keys held together (forward and
backward, left and right, ascend and descend), `d` is the zero vector, and the position,
its components being `float`s, is unchanged whenever the factor `f` is finite. -/
theorem move_adds_direction_times_factor (E : FloatEnv) (hv : E.single.Valid) (c : Camera)
    (deltaTime : FloatVal) :
    move E c deltaTime
      = { c with
          position := vadd E.single c.position
            (vscale E.single (moveDirection E c) (moveFactor E c deltaTime)) } ∧
    (move E c deltaTime).rotation = c.rotation ∧
    (move E c deltaTime).holdingForward = c.holdingForward ∧
    (move E c deltaTime).holdingBackward = c.holdingBackward ∧
    (move E c deltaTime).holdingLeftStrafe = c.holdingLeftStrafe ∧
    (move E c deltaTime).holdingRightStrafe = c.holdingRightStrafe ∧
    (move E c deltaTime).holdingAscend = c.holdingAscend ∧
    (move E c deltaTime).holdingDescend = c.holdingDescend ∧
    (onlyOppositeKeysHeld c = true →
      moveDirection E c = zeroVec ∧
      ∀ f : ℚ, moveFactor E c deltaTime = FloatVal.num f → E.single.HoldsVec c.position →
        (move E c deltaTime).position = c.position) := by
  have h := move_eq E c deltaTime
  refine ⟨h, by rw [h], by rw [h], by rw [h], by rw [h], by rw [h], by rw [h], by rw [h], ?_⟩
  intro hk
  have hd := moveDirection_of_opposite_keys E hv c hk
  refine ⟨hd, ?_⟩
  intro f hf hp
  rw [h, hd, hf]
  exact position_plus_zero E hv c.position hp f

/-- Witness of `move_adds_direction_times_factor`: the camera at rest with the forward and
the backward key held, `deltaTime` 1/64 s; the factor is 3.125 and the position stays at the
origin. -/
theorem move_adds_direction_times_factor_witness :
    onlyOppositeKeysHeld { restCamera with holdingForward := true, holdingBackward := true }
      = true ∧
    moveFactor exactEnv { restCamera with holdingForward := true, holdingBackward := true }
      (FloatVal.num (1 / 64)) = FloatVal.num (25 / 8) ∧
    (move exactEnv { restCamera with holdingForward := true, holdingBackward := true }
      (FloatVal.num (1 / 64))).position = ⟨FloatVal.num 0, FloatVal.num 0, FloatVal.num 0⟩ := by
  have hf : moveFactor exactEnv
      { restCamera with holdingForward := true, holdingBackward := true }
      (FloatVal.num (1 / 64)) = FloatVal.num (25 / 8) := by
    show exactEnv.single.convert (exactEnv.double.mul (FloatVal.num 200)
      (FloatVal.num (1 / 64))) = FloatVal.num (25 / 8)
    rw [exact_double_mul _ _ (25 / 8) (by norm_num) (by norm_num) (by norm_num),
      exact_single_convert _ (by norm_num) (by norm_num)]
  have hz := zero_holds exactEnv.single exactEnv_valid.1
  exact ⟨rfl, hf,
    ((move_adds_direction_times_factor exactEnv exactEnv_valid.1
      { restCamera with holdingForward := true, holdingBackward := true }
      (FloatVal.num (1 / 64))).2.2.2.2.2.2.2.2 rfl).2 (25 / 8) hf ⟨hz, hz, hz⟩⟩

/-- A run of `move` that moves: the camera at rest with the forward key held, `deltaTime`
1/64 s, in the environment where `sin` is 0, `cos` is 1 and `normalize` is the identity.  The
direction is `(0, 0, -1)`, the factor 3.125, and the position becomes `(0, 0, -3.125)`. -/
theorem move_forward_example :
    (move exactEnv { restCamera with holdingForward := true } (FloatVal.num (1 / 64))).position
      = ⟨FloatVal.num 0, FloatVal.num 0, FloatVal.num (-25 / 8)⟩ := by
  have hf : moveFactor exactEnv { restCamera with holdingForward := true }
      (FloatVal.num (1 / 64)) = FloatVal.num (25 / 8) := by
    show exactEnv.single.convert (exactEnv.double.mul (FloatVal.num 200)
      (FloatVal.num (1 / 64))) = FloatVal.num (25 / 8)
    rw [exact_double_mul _ _ (25 / 8) (by norm_num) (by norm_num) (by norm_num),
      exact_single_convert _ (by norm_num) (by norm_num)]
  have hdeg : DEGS_TO_RADS exactEnv = FloatVal.num (13176795 / 4194304 / 180) :=
    exact_single_ofRat _ (by norm_num [FLT_MAX]) (by norm_num [FLT_MAX])
  have hang : exactEnv.single.mul (FloatVal.num 0) (DEGS_TO_RADS exactEnv) = FloatVal.num 0 := by
    rw [hdeg]
    exact exact_single_mul _ _ 0 (by norm_num) (by norm_num) (by norm_num)
  have hsin : exactEnv.sin (FloatVal.num 0) = FloatVal.num 0 :=
    exact_single_ofRat 0 (by norm_num [FLT_MAX]) (by norm_num [FLT_MAX])
  have hcos : exactEnv.cos (FloatVal.num 0) = FloatVal.num 1 :=
    exact_single_ofRat 1 (by norm_num [FLT_MAX]) (by norm_num [FLT_MAX])
  have hfwd : forwardDirection exactEnv { restCamera with holdingForward := true }
      = ⟨FloatVal.num 0, FloatVal.num 0, FloatVal.num (-1)⟩ := by
    show (⟨exactEnv.single.mul (exactEnv.sin (exactEnv.single.mul (FloatVal.num 0)
          (DEGS_TO_RADS exactEnv))) (exactEnv.cos (exactEnv.single.mul (FloatVal.num 0)
          (DEGS_TO_RADS exactEnv))),
        (exactEnv.sin (exactEnv.single.mul (FloatVal.num 0) (DEGS_TO_RADS exactEnv))).neg,
        exactEnv.single.mul (exactEnv.cos (exactEnv.single.mul (FloatVal.num 0)
          (DEGS_TO_RADS exactEnv))).neg (exactEnv.cos (exactEnv.single.mul (FloatVal.num 0)
          (DEGS_TO_RADS exactEnv)))⟩ : Vec3 FloatVal) = _
    rw [hang, hsin, hcos]
    simp only [FloatVal.neg]
    rw [exact_single_mul 0 1 0 (by norm_num) (by norm_num) (by norm_num),
      exact_single_mul (-1) 1 (-1) (by norm_num) (by norm_num) (by norm_num)]
    norm_num
  have hsum : movementSum exactEnv { restCamera with holdingForward := true }
      = ⟨FloatVal.num 0, FloatVal.num 0, FloatVal.num (-1)⟩ := by
    show vadd exactEnv.single zeroVec
      (forwardDirection exactEnv { restCamera with holdingForward := true }) = _
    rw [hfwd]
    unfold vadd zeroVec
    simp only
    rw [exact_single_add 0 0 0 (by norm_num) (by norm_num) (by norm_num),
      exact_single_add 0 (-1) (-1) (by norm_num) (by norm_num) (by norm_num)]
  have hlen : length exactEnv (⟨FloatVal.num 0, FloatVal.num 0, FloatVal.num (-1)⟩ :
      Vec3 FloatVal) = FloatVal.num 1 := by
    unfold length dot
    simp only
    rw [exact_single_mul 0 0 0 (by norm_num) (by norm_num) (by norm_num),
      exact_single_mul (-1) (-1) 1 (by norm_num) (by norm_num) (by norm_num),
      exact_single_add 0 0 0 (by norm_num) (by norm_num) (by norm_num),
      exact_single_add 0 1 1 (by norm_num) (by norm_num) (by norm_num)]
    show (if (1 : ℚ) < 0 then FloatVal.nan
      else if (1 : ℚ) = 0 then FloatVal.num 0 else exactEnv.single.ofRat 1) = FloatVal.num 1
    rw [if_neg (by norm_num), if_neg (by norm_num)]
    exact exact_single_ofRat 1 (by norm_num [FLT_MAX]) (by norm_num [FLT_MAX])
  have hdir : moveDirection exactEnv { restCamera with holdingForward := true }
      = ⟨FloatVal.num 0, FloatVal.num 0, FloatVal.num (-1)⟩ := by
    unfold moveDirection
    rw [hsum, hlen]
    have : (FloatVal.num 1).gt (FloatVal.num 0) = true := by
      unfold FloatVal.gt
      rw [lt_num_num]
      norm_num
    rw [if_pos this]
    rfl
  rw [move_eq, hdir, hf]
  show vadd exactEnv.single zeroVec (vscale exactEnv.single _ _) = _
  unfold vscale vadd zeroVec
  simp only
  rw [exact_single_mul 0 (25 / 8) 0 (by norm_num) (by norm_num) (by norm_num),
    exact_single_mul (-1) (25 / 8) (-25 / 8) (by norm_num) (by norm_num) (by norm_num),
    exact_single_add 0 0 0 (by norm_num) (by norm_num) (by norm_num),
    exact_single_add 0 (-25 / 8) (-25 / 8) (by norm_num) (by norm_num) (by norm_num)]

/-- A run of `move` in which a held key does not move the camera: the camera at rest with
the yaw NaN and the forward key held, `deltaTime` 1/64 s.  The sum of the directions has NaN
components and is not the zero vector, its length is NaN, the test
`glm::length(movement) > 0.0f` fails, and the position stays at the origin. -/
theorem move_with_nan_yaw_leaves_position :
    movementSum exactEnv
        { restCamera with
          rotation := ⟨FloatVal.num 0, FloatVal.nan, FloatVal.num 0⟩, holdingForward := true }
      = ⟨FloatVal.nan, FloatVal.num 0, FloatVal.nan⟩ ∧
    moveDirection exactEnv
        { restCamera with
          rotation := ⟨FloatVal.num 0, FloatVal.nan, FloatVal.num 0⟩, holdingForward := true }
      = zeroVec ∧
    (move exactEnv
        { restCamera with
          rotation := ⟨FloatVal.num 0, FloatVal.nan, FloatVal.num 0⟩, holdingForward := true }
        (FloatVal.num (1 / 64))).position = ⟨FloatVal.num 0, FloatVal.num 0, FloatVal.num 0⟩ := by
  have hdeg : DEGS_TO_RADS exactEnv = FloatVal.num (13176795 / 4194304 / 180) :=
    exact_single_ofRat _ (by norm_num [FLT_MAX]) (by norm_num [FLT_MAX])
  have hang : exactEnv.single.mul (FloatVal.num 0) (DEGS_TO_RADS exactEnv) = FloatVal.num 0 := by
    rw [hdeg]
    exact exact_single_mul _ _ 0 (by norm_num) (by norm_num) (by norm_num)
  have hnan : exactEnv.single.mul FloatVal.nan (DEGS_TO_RADS exactEnv) = FloatVal.nan := by
    rw [hdeg]; rfl
  have hsin : exactEnv.sin (FloatVal.num 0) = FloatVal.num 0 :=
    exact_single_ofRat 0 (by norm_num [FLT_MAX]) (by norm_num [FLT_MAX])
  have hcos : exactEnv.cos (FloatVal.num 0) = FloatVal.num 1 :=
    exact_single_ofRat 1 (by norm_num [FLT_MAX]) (by norm_num [FLT_MAX])
  have hsum : movementSum exactEnv
        { restCamera with
          rotation := ⟨FloatVal.num 0, FloatVal.nan, FloatVal.num 0⟩, holdingForward := true }
      = ⟨FloatVal.nan, FloatVal.num 0, FloatVal.nan⟩ := by
    show vadd exactEnv.single zeroVec
      ⟨exactEnv.single.mul (exactEnv.sin (exactEnv.single.mul FloatVal.nan
          (DEGS_TO_RADS exactEnv))) (exactEnv.cos (exactEnv.single.mul (FloatVal.num 0)
          (DEGS_TO_RADS exactEnv))),
        (exactEnv.sin (exactEnv.single.mul (FloatVal.num 0) (DEGS_TO_RADS exactEnv))).neg,
        exactEnv.single.mul (exactEnv.cos (exactEnv.single.mul FloatVal.nan
          (DEGS_TO_RADS exactEnv))).neg (exactEnv.cos (exactEnv.single.mul (FloatVal.num 0)
          (DEGS_TO_RADS exactEnv)))⟩ = _
    rw [hang, hnan, hsin, hcos]
    show vadd exactEnv.single zeroVec ⟨FloatVal.nan, FloatVal.num (-0), FloatVal.nan⟩ = _
    unfold vadd zeroVec
    simp only [add_nan_right]
    rw [exact_single_add 0 (-0) 0 (by norm_num) (by norm_num) (by norm_num)]
  have hdir : moveDirection exactEnv
        { restCamera with
          rotation := ⟨FloatVal.num 0, FloatVal.nan, FloatVal.num 0⟩, holdingForward := true }
      = zeroVec := by
    unfold moveDirection
    rw [hsum, length_not_positive exactEnv exactEnv_valid.1 _
      ⟨Or.inr rfl, Or.inl rfl, Or.inr rfl⟩]
    rfl
  have hf : moveFactor exactEnv
      { restCamera with
        rotation := ⟨FloatVal.num 0, FloatVal.nan, FloatVal.num 0⟩, holdingForward := true }
      (FloatVal.num (1 / 64)) = FloatVal.num (25 / 8) := by
    show exactEnv.single.convert (exactEnv.double.mul (FloatVal.num 200)
      (FloatVal.num (1 / 64))) = FloatVal.num (25 / 8)
    rw [exact_double_mul _ _ (25 / 8) (by norm_num) (by norm_num) (by norm_num),
      exact_single_convert _ (by norm_num) (by norm_num)]
  have hz := zero_holds exactEnv.single exactEnv_valid.1
  refine ⟨hsum, hdir, ?_⟩
  rw [move_eq, hdir, hf]
  exact position_plus_zero exactEnv exactEnv_valid.1 _ ⟨hz, hz, hz⟩ (25 / 8)

/-! ## The runs above under every rounding -/

theorem ofRat_int (fmt : FloatFormat) (hv : fmt.Valid) (n : Int) (hn : |n| ≤ 2 ^ 24) :
    fmt.ofRat n = FloatVal.num n := by
  obtain ⟨h1, h2, h3⟩ := ofInt_holds fmt hv n hn
  unfold FloatFormat.ofRat
  rw [h1, if_neg (not_lt.2 h3), if_neg (not_lt.2 h2)]

/-- A NaN pitch stays NaN under `handleMouseMove`, whatever the formats and the other
inputs are. -/
theorem pitch_nan_stays (E : FloatEnv) (c : Camera) (mouseX mouseY : FloatVal)
    (h : c.rotation.x = FloatVal.nan) :
    (handleMouseMove E c mouseX mouseY).rotation.x = FloatVal.nan := by
  rw [handleMouseMove_rotation_x, h, add_nan_left, clamp_nan]

/-- The run of `yaw_above_360_after_large_movement` gives the same yaw, 640, in every
environment whose formats round to nearest. -/
theorem yaw_above_360_under_every_rounding (E : FloatEnv) (hs : E.single.Valid)
    (hd : E.double.Valid) :
    (handleMouseMove E restCamera (FloatVal.num 4400) (FloatVal.num 300)).rotation.y
      = FloatVal.num 640 := by
  have e1 : E.double.sub (FloatVal.num 4400) (ofInt restCamera.windowMidX)
      = FloatVal.num 4000 := by
    show E.double.ofRat (4400 + -((400 : Int) : ℚ)) = FloatVal.num 4000
    have := ofRat_int E.double hd 4000 (by norm_num)
    norm_num at this ⊢
    exact this
  have e2 : E.double.mul (FloatVal.num 4000) restCamera.yawSensitivity = FloatVal.num 1000 := by
    show E.double.ofRat (4000 * (1 / 4)) = FloatVal.num 1000
    have := ofRat_int E.double hd 1000 (by norm_num)
    norm_num at this ⊢
    exact this
  have e3 : E.single.convert (FloatVal.num 1000) = FloatVal.num 1000 := by
    show E.single.ofRat 1000 = FloatVal.num 1000
    have := ofRat_int E.single hs 1000 (by norm_num)
    norm_num at this ⊢
    exact this
  have e4 : E.single.add (FloatVal.num 0) (FloatVal.num 1000) = FloatVal.num 1000 := by
    show E.single.ofRat (0 + 1000) = FloatVal.num 1000
    have := ofRat_int E.single hs 1000 (by norm_num)
    norm_num at this ⊢
    exact this
  have e5 : E.single.sub (FloatVal.num 1000) (FloatVal.num 360) = FloatVal.num 640 := by
    show E.single.ofRat (1000 + -360) = FloatVal.num 640
    have := ofRat_int E.single hs 640 (by norm_num)
    norm_num at this ⊢
    exact this
  have hh : horizMovement E restCamera (FloatVal.num 4400) = FloatVal.num 1000 := by
    unfold horizMovement
    rw [e1, e2, e3]
  rw [handleMouseMove_rotation_y, hh]
  show wrapYaw E (E.single.add (FloatVal.num 0) (FloatVal.num 1000)) = _
  rw [e4]
  unfold wrapYaw FloatVal.gt
  have h1 : (FloatVal.num 1000).lt (FloatVal.num 0) = false := by
    rw [lt_num_num]; norm_num
  have h2 : (FloatVal.num 360).lt (FloatVal.num 1000) = true := by
    rw [lt_num_num]; norm_num
  simp only [h1, h2, Bool.false_eq_true, if_false, if_true]
  exact e5

/-- The run of `move_without_keys_changes_position` gives the same position,
`(NaN, NaN, NaN)`, in every environment whose `float` format rounds to nearest. -/
theorem move_without_keys_under_every_rounding (E : FloatEnv) (hs : E.single.Valid) :
    (move E restCamera FloatVal.posInf).position
      = ⟨FloatVal.nan, FloatVal.nan, FloatVal.nan⟩ := by
  have hd : moveDirection E restCamera = zeroVec :=
    moveDirection_of_opposite_keys E hs restCamera rfl
  have hf : moveFactor E restCamera FloatVal.posInf = FloatVal.posInf := by
    show E.single.convert (infinityTimes true 200) = FloatVal.posInf
    unfold infinityTimes
    rw [if_neg (by norm_num), if_pos (by simp)]
    rfl
  have hz : E.single.mul (FloatVal.num 0) FloatVal.posInf = FloatVal.nan := by
    show infinityTimes true 0 = FloatVal.nan
    unfold infinityTimes
    rw [if_pos rfl]
  rw [move_eq, hd, hf]
  show vadd E.single zeroVec (vscale E.single zeroVec FloatVal.posInf) = _
  unfold vscale zeroVec vadd
  simp only [hz, add_nan_right]

end CameraModel
